import Mathlib

/-!
PCD8544 LCD driver: framebuffer, rasteriser and text cursor.

A shallow embedding of `pcd8544/cpu_show/PCD8544.c`.

* `uint8_t` values are natural numbers, reduced modulo 256 wherever the C code
  stores the result of an `int` computation back into an 8-bit variable;
  `int8_t` values are integers, reduced by `wrap8`.
* The global `pcd8544_buffer` is a function from cell index to byte; a store
  `pcd8544_buffer[i] = v` is `writeCell` and a compound assignment
  `pcd8544_buffer[i] op= v` is `modifyCell`.
* Loops whose exit depends on the arguments are run by `whileLoop` with an
  explicit fuel bound (`none` = the bound was reached); loops with a constant
  trip count are folds over `List.range`.
* `updateBoundingBox` has an empty body in the build described by the source
  (`enablePartialUpdate` is commented out), so the drawing functions below
  carry the framebuffer only.
* The build with `enablePartialUpdate` defined is reached through a Boolean
  parameter of that name; `LCDsetPixelTracked` and `LCDdrawlineTracked` are the
  drawing functions together with the dirty rectangle.
* Functions that drive the display return the calls they make, in order: `Event`
  for calls into the pin I/O, `Call` for `LCDcommand`/`LCDdata`.
* Constants of the absent header other than the geometry are the fields of
  `Header`, a parameter.
-/

namespace PCD8544

/-! ## Geometry -/

/-- Modelled from the spec: the header `PCD8544.h` that defines `LCDWIDTH` is not
part of the sources; the spec fixes the device geometry at 84x48 pixels. -/
def LCDWIDTH : Nat := 84

/-- Modelled from the spec: the header `PCD8544.h` that defines `LCDHEIGHT` is not
part of the sources; the spec fixes the device geometry at 84x48 pixels
(504 bytes, 6 pages). -/
def LCDHEIGHT : Nat := 48

/-- The global `uint8_t pcd8544_buffer[LCDWIDTH * LCDHEIGHT / 8]`, by cell index. -/
abbrev Buffer := Nat → Nat

/-- The store `pcd8544_buffer[idx] = v`. -/
def writeCell (buf : Buffer) (idx v : Nat) : Buffer :=
  fun i => if i = idx then v else buf i

/-- The compound assignment `pcd8544_buffer[idx] op= ...`: cell `idx` is read,
transformed by `f` and written back. -/
def modifyCell (buf : Buffer) (idx : Nat) (f : Nat → Nat) : Buffer :=
  fun i => if i = idx then f (buf i) else buf i

/-- The macro `_BV(bit)`, `0x1 << (bit)`. -/
def _BV (bit : Nat) : Nat := 1 <<< bit

/-- Bitwise complement `~v` of a non-negative `int`, as its 32-bit pattern. -/
def bitNot (v : Nat) : Nat := v ^^^ 0xFFFFFFFF

/-- Storing an `int` into a `uint8_t`. -/
def toU8 (v : Nat) : Nat := v % 256

/-- Storing an `int` into an `int8_t` (two's complement wrap-around). -/
def wrap8 (v : Int) : Int := (v + 128) % 256 - 128

/-- Storing a possibly negative `int` into a `uint8_t`. -/
def toU8i (v : Int) : Nat := (v % 256).toNat

/-- The C operator `!` on an integer. -/
def lnot (v : Nat) : Nat := if v = 0 then 1 else 0

/-! ## Pixel access -/

/-- The function `static void my_setpixel(uint8_t x, uint8_t y, uint8_t color)`. -/
def my_setpixel (buf : Buffer) (x y color : Nat) : Buffer :=
  if x ≥ LCDWIDTH ∨ y ≥ LCDHEIGHT then buf
  else if color ≠ 0 then
    modifyCell buf (x + (y / 8) * LCDWIDTH) (fun v => toU8 (v ||| _BV (y % 8)))
  else
    modifyCell buf (x + (y / 8) * LCDWIDTH) (fun v => toU8 (v &&& bitNot (_BV (y % 8))))

/-- The function `void LCDsetPixel(uint8_t x, uint8_t y, uint8_t color)`; the trailing
`updateBoundingBox(x,y,x,y)` has an empty body. -/
def LCDsetPixel (buf : Buffer) (x y color : Nat) : Buffer :=
  if x ≥ LCDWIDTH ∨ y ≥ LCDHEIGHT then buf
  else if color ≠ 0 then
    modifyCell buf (x + (y / 8) * LCDWIDTH) (fun v => toU8 (v ||| _BV (y % 8)))
  else
    modifyCell buf (x + (y / 8) * LCDWIDTH) (fun v => toU8 (v &&& bitNot (_BV (y % 8))))

/-- The function `uint8_t LCDgetPixel(uint8_t x, uint8_t y)`. -/
def LCDgetPixel (buf : Buffer) (x y : Nat) : Nat :=
  if x ≥ LCDWIDTH ∨ y ≥ LCDHEIGHT then 0
  else (buf (x + (y / 8) * LCDWIDTH) >>> (7 - y % 8)) &&& 0x1

/-- The stored state of pixel `(x, y)` in the layout of the data model: bit `y % 8`
of the cell at column `x`, page `y / 8`. -/
def storedBit (buf : Buffer) (x y : Nat) : Bool :=
  (buf (x + (y / 8) * LCDWIDTH)).testBit (y % 8)

/-- The framebuffer with every cell zero. -/
def zeroBuffer : Buffer := fun _ => 0

/-! ## Driver state -/

/-- The globals `pcd8544_buffer`, `cursor_x`, `cursor_y`, `textsize`, `textcolor`. -/
structure LCD where
  pcd8544_buffer : Buffer
  cursor_x : Nat
  cursor_y : Nat
  textsize : Nat
  textcolor : Nat

/-- The function `void LCDclear(void)`: the loop `for (i = 0; i < LCDWIDTH*LCDHEIGHT/8; i++)`
zeroes one cell per iteration; `updateBoundingBox` has an empty body. -/
def LCDclear (lcd : LCD) : LCD :=
  { lcd with
    pcd8544_buffer :=
      (List.range (LCDWIDTH * LCDHEIGHT / 8)).foldl
        (fun buf i => writeCell buf i 0) lcd.pcd8544_buffer
    cursor_y := 0
    cursor_x := 0 }

/-! ## Loops -/

/-- A C loop `while (cond) body` (also the `for` loops, whose counter is part of
the state) run for at most `fuel` tests of the condition; `none` when the body
fails or the fuel is used up before the condition becomes false. -/
def whileLoop {σ : Type} (cond : σ → Bool) (body : σ → Option σ) : Nat → σ → Option σ
  | 0, _ => none
  | fuel + 1, s => if cond s then (body s).bind (whileLoop cond body fuel) else some s

/-! ## Rectangles -/

/-- The function `void LCDfillrect(uint8_t x, uint8_t y, uint8_t w, uint8_t h, uint8_t color)`.
The counters `i` and `j` are `uint8_t` (their increment wraps modulo 256), the
bounds `x+w` and `y+h` are `int`. Loop states are `(counter, buffer)`. -/
def LCDfillrect (fuel : Nat) (buf : Buffer) (x y w h color : Nat) : Option Buffer :=
  (whileLoop (fun s => decide (s.1 < x + w))
    (fun s =>
      (whileLoop (fun t => decide (t.1 < y + h))
        (fun t => some (toU8 (t.1 + 1), my_setpixel t.2 s.1 t.1 color))
        fuel (y, s.2)).map (fun t => (toU8 (s.1 + 1), t.2)))
    fuel (x, buf)).map Prod.snd

/-! ## Lines -/

/-- The macro `abs(a)`, `(((a) < 0) ? -(a) : (a))`, on an `int`. -/
def abs (a : Int) : Int := if a < 0 then -a else a

/-- The variables of the loop of `LCDdrawline` that change: `x0`, `y0`
(`uint8_t`), `err` (`int8_t`) and the framebuffer. -/
structure LineState where
  x0 : Nat
  y0 : Nat
  err : Int
  buf : Buffer

/-- The body of the `for (; x0<=x1; x0++)` loop of `LCDdrawline`, with the
increment `x0++`. -/
def drawlineStep (steep : Bool) (dx dy : Nat) (ystep : Int) (color : Nat)
    (s : LineState) : LineState :=
  let buf := if steep then my_setpixel s.buf s.y0 s.x0 color
             else my_setpixel s.buf s.x0 s.y0 color
  let err := wrap8 (s.err - dy)
  if err < 0 then
    { x0 := toU8 (s.x0 + 1), y0 := toU8i (s.y0 + ystep), err := wrap8 (err + dx), buf := buf }
  else
    { x0 := toU8 (s.x0 + 1), y0 := s.y0, err := err, buf := buf }

/-- The part of `LCDdrawline` that follows the two conditional swaps, run on the
swapped endpoints: the set-up of `dx`, `dy`, `err`, `ystep` and the loop.
`updateBoundingBox` has an empty body. -/
def drawlineSorted (fuel : Nat) (buf : Buffer) (steep : Bool) (x0 y0 x1 y1 color : Nat) :
    Option Buffer :=
  let dx : Nat := toU8i ((x1 : Int) - x0)
  let dy : Nat := toU8i (abs ((y1 : Int) - y0))
  let err : Int := wrap8 ((dx / 2 : Nat) : Int)
  let ystep : Int := if y0 < y1 then 1 else -1
  (whileLoop (fun s => decide (s.x0 ≤ x1))
    (fun s => some (drawlineStep steep dx dy ystep color s))
    fuel { x0 := x0, y0 := y0, err := err, buf := buf }).map LineState.buf

/-- The function `void LCDdrawline(uint8_t x0, uint8_t y0, uint8_t x1, uint8_t y1, uint8_t color)`.
`swap(a, b)` (defined in the absent header) exchanges two `uint8_t` variables:
`xa, ya, xb, yb` are the endpoints after `if (steep) { swap(x0, y0); swap(x1, y1); }`
and the arguments of `drawlineSorted` are the endpoints after
`if (x0 > x1) { swap(x0, x1); swap(y0, y1); }`. -/
def LCDdrawline (fuel : Nat) (buf : Buffer) (x0 y0 x1 y1 color : Nat) : Option Buffer :=
  let steep : Bool := decide (abs ((y1 : Int) - y0) > abs ((x1 : Int) - x0))
  let xa := if steep then y0 else x0
  let ya := if steep then x0 else y0
  let xb := if steep then y1 else x1
  let yb := if steep then x1 else y1
  if xa > xb then drawlineSorted fuel buf steep xb yb xa ya color
  else drawlineSorted fuel buf steep xa ya xb yb color

/-- Trace of the error accumulator of the line loop: after `k` iterations, the
number of steps the minor coordinate has taken and the value of `err`
(computed without wrap-around). -/
def lineTrace (dx dy : Nat) : Nat → Nat × Int
  | 0 => (0, ((dx / 2 : Nat) : Int))
  | k + 1 =>
    if (lineTrace dx dy k).2 - dy < 0 then
      ((lineTrace dx dy k).1 + 1, (lineTrace dx dy k).2 - dy + dx)
    else ((lineTrace dx dy k).1, (lineTrace dx dy k).2 - dy)

/-- Minor coordinate after `s` steps from `ys` towards `ye`. -/
def lineY (ys ye s : Nat) : Nat := if ys < ye then ys + s else ys - s

/-- The pixel plotted by iteration `k` of the line loop started at `(xs, ys)`. -/
def linePoint (steep : Bool) (xs ys ye dx dy k : Nat) : Nat × Nat :=
  if steep then (lineY ys ye (lineTrace dx dy k).1, xs + k)
  else (xs + k, lineY ys ye (lineTrace dx dy k).1)

/-- The pixels plotted by the first `n` iterations of the line loop. -/
def linePoints (steep : Bool) (xs ys ye dx dy n : Nat) : List (Nat × Nat) :=
  (List.range n).map (linePoint steep xs ys ye dx dy)

/-- What `LCDdrawline` from `(x0, y0)` to `(x1, y1)` has done when it turned `buf`
into `b`, in terms of the list `pts` of pixels written: one pixel per coordinate
of the major axis, all inside the bounding box of the endpoints, both endpoints
among them, and no other pixel changed. -/
def LineSpec (buf : Buffer) (color x0 y0 x1 y1 : Nat) (b : Buffer)
    (pts : List (Nat × Nat)) : Prop :=
  pts.length = max (max x0 x1 - min x0 x1) (max y0 y1 - min y0 y1) + 1 ∧
  pts.Nodup ∧
  (∀ p ∈ pts, min x0 x1 ≤ p.1 ∧ p.1 ≤ max x0 x1 ∧ min y0 y1 ≤ p.2 ∧ p.2 ≤ max y0 y1) ∧
  (x0, y0) ∈ pts ∧ (x1, y1) ∈ pts ∧
  (max y0 y1 - min y0 y1 ≤ max x0 x1 - min x0 x1 →
    pts.map Prod.fst = List.range' (min x0 x1) (max x0 x1 - min x0 x1 + 1)) ∧
  (max x0 x1 - min x0 x1 < max y0 y1 - min y0 y1 →
    pts.map Prod.snd = List.range' (min y0 y1) (max y0 y1 - min y0 y1 + 1)) ∧
  (∀ px py, px < 84 → py < 48 →
    storedBit b px py = if (px, py) ∈ pts then decide (color ≠ 0) else storedBit buf px py)

/-- The state of the line loop after `k` iterations, started at `(xs, ys)` with
end `(xe, ye)`: while `k ≤ dx` the variables `y0` and `err` follow `lineTrace`,
and the framebuffer differs from the initial one in the `k` pixels plotted. -/
def lineInv (buf : Buffer) (steep : Bool) (xs ys ye dx dy color : Nat) (st : LineState) : Prop :=
  ∃ k, k ≤ dx + 1 ∧ st.x0 = xs + k ∧
    (k ≤ dx → st.y0 = lineY ys ye (lineTrace dx dy k).1 ∧ st.err = (lineTrace dx dy k).2) ∧
    ∀ px py, px < 84 → py < 48 →
      storedBit st.buf px py =
        if (px, py) ∈ linePoints steep xs ys ye dx dy k then decide (color ≠ 0)
        else storedBit buf px py

/-! ## Text -/

/-- The table `static unsigned char font[]`: 256 glyphs of 5 column bytes each. -/
def font : List Nat := [
  0x00, 0x00, 0x00, 0x00, 0x00,  -- 00
  0x3E, 0x5B, 0x4F, 0x5B, 0x3E,  -- 01
  0x3E, 0x6B, 0x4F, 0x6B, 0x3E,  -- 02
  0x1C, 0x3E, 0x7C, 0x3E, 0x1C,  -- 03
  0x18, 0x3C, 0x7E, 0x3C, 0x18,  -- 04
  0x1C, 0x57, 0x7D, 0x57, 0x1C,  -- 05
  0x1C, 0x5E, 0x7F, 0x5E, 0x1C,  -- 06
  0x00, 0x18, 0x3C, 0x18, 0x00,  -- 07
  0xFF, 0xE7, 0xC3, 0xE7, 0xFF,  -- 08
  0x00, 0x18, 0x24, 0x18, 0x00,  -- 09
  0xFF, 0xE7, 0xDB, 0xE7, 0xFF,  -- 0a
  0x30, 0x48, 0x3A, 0x06, 0x0E,  -- 0b
  0x26, 0x29, 0x79, 0x29, 0x26,  -- 0c
  0x40, 0x7F, 0x05, 0x05, 0x07,  -- 0d
  0x40, 0x7F, 0x05, 0x25, 0x3F,  -- 0e
  0x5A, 0x3C, 0xE7, 0x3C, 0x5A,  -- 0f
  0x7F, 0x3E, 0x1C, 0x1C, 0x08,  -- 10
  0x08, 0x1C, 0x1C, 0x3E, 0x7F,  -- 11
  0x14, 0x22, 0x7F, 0x22, 0x14,  -- 12
  0x5F, 0x5F, 0x00, 0x5F, 0x5F,  -- 13
  0x06, 0x09, 0x7F, 0x01, 0x7F,  -- 14
  0x00, 0x66, 0x89, 0x95, 0x6A,  -- 15
  0x60, 0x60, 0x60, 0x60, 0x60,  -- 16
  0x94, 0xA2, 0xFF, 0xA2, 0x94,  -- 17
  0x08, 0x04, 0x7E, 0x04, 0x08,  -- 18
  0x10, 0x20, 0x7E, 0x20, 0x10,  -- 19
  0x08, 0x08, 0x2A, 0x1C, 0x08,  -- 1a
  0x08, 0x1C, 0x2A, 0x08, 0x08,  -- 1b
  0x1E, 0x10, 0x10, 0x10, 0x10,  -- 1c
  0x0C, 0x1E, 0x0C, 0x1E, 0x0C,  -- 1d
  0x30, 0x38, 0x3E, 0x38, 0x30,  -- 1e
  0x06, 0x0E, 0x3E, 0x0E, 0x06,  -- 1f
  0x00, 0x00, 0x00, 0x00, 0x00,  -- 20
  0x00, 0x00, 0x5F, 0x00, 0x00,  -- 21
  0x00, 0x07, 0x00, 0x07, 0x00,  -- 22
  0x14, 0x7F, 0x14, 0x7F, 0x14,  -- 23
  0x24, 0x2A, 0x7F, 0x2A, 0x12,  -- 24
  0x23, 0x13, 0x08, 0x64, 0x62,  -- 25
  0x36, 0x49, 0x56, 0x20, 0x50,  -- 26
  0x00, 0x08, 0x07, 0x03, 0x00,  -- 27
  0x00, 0x1C, 0x22, 0x41, 0x00,  -- 28
  0x00, 0x41, 0x22, 0x1C, 0x00,  -- 29
  0x2A, 0x1C, 0x7F, 0x1C, 0x2A,  -- 2a
  0x08, 0x08, 0x3E, 0x08, 0x08,  -- 2b
  0x00, 0x80, 0x70, 0x30, 0x00,  -- 2c
  0x08, 0x08, 0x08, 0x08, 0x08,  -- 2d
  0x00, 0x00, 0x60, 0x60, 0x00,  -- 2e
  0x20, 0x10, 0x08, 0x04, 0x02,  -- 2f
  0x3E, 0x51, 0x49, 0x45, 0x3E,  -- 30
  0x00, 0x42, 0x7F, 0x40, 0x00,  -- 31
  0x72, 0x49, 0x49, 0x49, 0x46,  -- 32
  0x21, 0x41, 0x49, 0x4D, 0x33,  -- 33
  0x18, 0x14, 0x12, 0x7F, 0x10,  -- 34
  0x27, 0x45, 0x45, 0x45, 0x39,  -- 35
  0x3C, 0x4A, 0x49, 0x49, 0x31,  -- 36
  0x41, 0x21, 0x11, 0x09, 0x07,  -- 37
  0x36, 0x49, 0x49, 0x49, 0x36,  -- 38
  0x46, 0x49, 0x49, 0x29, 0x1E,  -- 39
  0x00, 0x00, 0x14, 0x00, 0x00,  -- 3a
  0x00, 0x40, 0x34, 0x00, 0x00,  -- 3b
  0x00, 0x08, 0x14, 0x22, 0x41,  -- 3c
  0x14, 0x14, 0x14, 0x14, 0x14,  -- 3d
  0x00, 0x41, 0x22, 0x14, 0x08,  -- 3e
  0x02, 0x01, 0x59, 0x09, 0x06,  -- 3f
  0x3E, 0x41, 0x5D, 0x59, 0x4E,  -- 40
  0x7C, 0x12, 0x11, 0x12, 0x7C,  -- 41
  0x7F, 0x49, 0x49, 0x49, 0x36,  -- 42
  0x3E, 0x41, 0x41, 0x41, 0x22,  -- 43
  0x7F, 0x41, 0x41, 0x41, 0x3E,  -- 44
  0x7F, 0x49, 0x49, 0x49, 0x41,  -- 45
  0x7F, 0x09, 0x09, 0x09, 0x01,  -- 46
  0x3E, 0x41, 0x41, 0x51, 0x73,  -- 47
  0x7F, 0x08, 0x08, 0x08, 0x7F,  -- 48
  0x00, 0x41, 0x7F, 0x41, 0x00,  -- 49
  0x20, 0x40, 0x41, 0x3F, 0x01,  -- 4a
  0x7F, 0x08, 0x14, 0x22, 0x41,  -- 4b
  0x7F, 0x40, 0x40, 0x40, 0x40,  -- 4c
  0x7F, 0x02, 0x1C, 0x02, 0x7F,  -- 4d
  0x7F, 0x04, 0x08, 0x10, 0x7F,  -- 4e
  0x3E, 0x41, 0x41, 0x41, 0x3E,  -- 4f
  0x7F, 0x09, 0x09, 0x09, 0x06,  -- 50
  0x3E, 0x41, 0x51, 0x21, 0x5E,  -- 51
  0x7F, 0x09, 0x19, 0x29, 0x46,  -- 52
  0x26, 0x49, 0x49, 0x49, 0x32,  -- 53
  0x03, 0x01, 0x7F, 0x01, 0x03,  -- 54
  0x3F, 0x40, 0x40, 0x40, 0x3F,  -- 55
  0x1F, 0x20, 0x40, 0x20, 0x1F,  -- 56
  0x3F, 0x40, 0x38, 0x40, 0x3F,  -- 57
  0x63, 0x14, 0x08, 0x14, 0x63,  -- 58
  0x03, 0x04, 0x78, 0x04, 0x03,  -- 59
  0x61, 0x59, 0x49, 0x4D, 0x43,  -- 5a
  0x00, 0x7F, 0x41, 0x41, 0x41,  -- 5b
  0x02, 0x04, 0x08, 0x10, 0x20,  -- 5c
  0x00, 0x41, 0x41, 0x41, 0x7F,  -- 5d
  0x04, 0x02, 0x01, 0x02, 0x04,  -- 5e
  0x40, 0x40, 0x40, 0x40, 0x40,  -- 5f
  0x00, 0x03, 0x07, 0x08, 0x00,  -- 60
  0x20, 0x54, 0x54, 0x78, 0x40,  -- 61
  0x7F, 0x28, 0x44, 0x44, 0x38,  -- 62
  0x38, 0x44, 0x44, 0x44, 0x28,  -- 63
  0x38, 0x44, 0x44, 0x28, 0x7F,  -- 64
  0x38, 0x54, 0x54, 0x54, 0x18,  -- 65
  0x00, 0x08, 0x7E, 0x09, 0x02,  -- 66
  0x18, 0xA4, 0xA4, 0x9C, 0x78,  -- 67
  0x7F, 0x08, 0x04, 0x04, 0x78,  -- 68
  0x00, 0x44, 0x7D, 0x40, 0x00,  -- 69
  0x20, 0x40, 0x40, 0x3D, 0x00,  -- 6a
  0x7F, 0x10, 0x28, 0x44, 0x00,  -- 6b
  0x00, 0x41, 0x7F, 0x40, 0x00,  -- 6c
  0x7C, 0x04, 0x78, 0x04, 0x78,  -- 6d
  0x7C, 0x08, 0x04, 0x04, 0x78,  -- 6e
  0x38, 0x44, 0x44, 0x44, 0x38,  -- 6f
  0xFC, 0x18, 0x24, 0x24, 0x18,  -- 70
  0x18, 0x24, 0x24, 0x18, 0xFC,  -- 71
  0x7C, 0x08, 0x04, 0x04, 0x08,  -- 72
  0x48, 0x54, 0x54, 0x54, 0x24,  -- 73
  0x04, 0x04, 0x3F, 0x44, 0x24,  -- 74
  0x3C, 0x40, 0x40, 0x20, 0x7C,  -- 75
  0x1C, 0x20, 0x40, 0x20, 0x1C,  -- 76
  0x3C, 0x40, 0x30, 0x40, 0x3C,  -- 77
  0x44, 0x28, 0x10, 0x28, 0x44,  -- 78
  0x4C, 0x90, 0x90, 0x90, 0x7C,  -- 79
  0x44, 0x64, 0x54, 0x4C, 0x44,  -- 7a
  0x00, 0x08, 0x36, 0x41, 0x00,  -- 7b
  0x00, 0x00, 0x77, 0x00, 0x00,  -- 7c
  0x00, 0x41, 0x36, 0x08, 0x00,  -- 7d
  0x02, 0x01, 0x02, 0x04, 0x02,  -- 7e
  0x3C, 0x26, 0x23, 0x26, 0x3C,  -- 7f
  0x1E, 0xA1, 0xA1, 0x61, 0x12,  -- 80
  0x3A, 0x40, 0x40, 0x20, 0x7A,  -- 81
  0x38, 0x54, 0x54, 0x55, 0x59,  -- 82
  0x21, 0x55, 0x55, 0x79, 0x41,  -- 83
  0x21, 0x54, 0x54, 0x78, 0x41,  -- 84
  0x21, 0x55, 0x54, 0x78, 0x40,  -- 85
  0x20, 0x54, 0x55, 0x79, 0x40,  -- 86
  0x0C, 0x1E, 0x52, 0x72, 0x12,  -- 87
  0x39, 0x55, 0x55, 0x55, 0x59,  -- 88
  0x39, 0x54, 0x54, 0x54, 0x59,  -- 89
  0x39, 0x55, 0x54, 0x54, 0x58,  -- 8a
  0x00, 0x00, 0x45, 0x7C, 0x41,  -- 8b
  0x00, 0x02, 0x45, 0x7D, 0x42,  -- 8c
  0x00, 0x01, 0x45, 0x7C, 0x40,  -- 8d
  0xF0, 0x29, 0x24, 0x29, 0xF0,  -- 8e
  0xF0, 0x28, 0x25, 0x28, 0xF0,  -- 8f
  0x7C, 0x54, 0x55, 0x45, 0x00,  -- 90
  0x20, 0x54, 0x54, 0x7C, 0x54,  -- 91
  0x7C, 0x0A, 0x09, 0x7F, 0x49,  -- 92
  0x32, 0x49, 0x49, 0x49, 0x32,  -- 93
  0x32, 0x48, 0x48, 0x48, 0x32,  -- 94
  0x32, 0x4A, 0x48, 0x48, 0x30,  -- 95
  0x3A, 0x41, 0x41, 0x21, 0x7A,  -- 96
  0x3A, 0x42, 0x40, 0x20, 0x78,  -- 97
  0x00, 0x9D, 0xA0, 0xA0, 0x7D,  -- 98
  0x39, 0x44, 0x44, 0x44, 0x39,  -- 99
  0x3D, 0x40, 0x40, 0x40, 0x3D,  -- 9a
  0x3C, 0x24, 0xFF, 0x24, 0x24,  -- 9b
  0x48, 0x7E, 0x49, 0x43, 0x66,  -- 9c
  0x2B, 0x2F, 0xFC, 0x2F, 0x2B,  -- 9d
  0xFF, 0x09, 0x29, 0xF6, 0x20,  -- 9e
  0xC0, 0x88, 0x7E, 0x09, 0x03,  -- 9f
  0x20, 0x54, 0x54, 0x79, 0x41,  -- a0
  0x00, 0x00, 0x44, 0x7D, 0x41,  -- a1
  0x30, 0x48, 0x48, 0x4A, 0x32,  -- a2
  0x38, 0x40, 0x40, 0x22, 0x7A,  -- a3
  0x00, 0x7A, 0x0A, 0x0A, 0x72,  -- a4
  0x7D, 0x0D, 0x19, 0x31, 0x7D,  -- a5
  0x26, 0x29, 0x29, 0x2F, 0x28,  -- a6
  0x26, 0x29, 0x29, 0x29, 0x26,  -- a7
  0x30, 0x48, 0x4D, 0x40, 0x20,  -- a8
  0x38, 0x08, 0x08, 0x08, 0x08,  -- a9
  0x08, 0x08, 0x08, 0x08, 0x38,  -- aa
  0x2F, 0x10, 0xC8, 0xAC, 0xBA,  -- ab
  0x2F, 0x10, 0x28, 0x34, 0xFA,  -- ac
  0x00, 0x00, 0x7B, 0x00, 0x00,  -- ad
  0x08, 0x14, 0x2A, 0x14, 0x22,  -- ae
  0x22, 0x14, 0x2A, 0x14, 0x08,  -- af
  0xAA, 0x00, 0x55, 0x00, 0xAA,  -- b0
  0xAA, 0xAA, 0x55, 0xAA, 0xAA,  -- b1
  0xAA, 0x55, 0xAA, 0x55, 0xAA,  -- b2
  0x00, 0x00, 0x00, 0xFF, 0x00,  -- b3
  0x10, 0x10, 0x10, 0xFF, 0x00,  -- b4
  0x14, 0x14, 0x14, 0xFF, 0x00,  -- b5
  0x10, 0x10, 0xFF, 0x00, 0xFF,  -- b6
  0x10, 0x10, 0xF0, 0x10, 0xF0,  -- b7
  0x14, 0x14, 0x14, 0xFC, 0x00,  -- b8
  0x14, 0x14, 0xF7, 0x00, 0xFF,  -- b9
  0x00, 0x00, 0xFF, 0x00, 0xFF,  -- ba
  0x14, 0x14, 0xF4, 0x04, 0xFC,  -- bb
  0x14, 0x14, 0x17, 0x10, 0x1F,  -- bc
  0x10, 0x10, 0x1F, 0x10, 0x1F,  -- bd
  0x14, 0x14, 0x14, 0x1F, 0x00,  -- be
  0x10, 0x10, 0x10, 0xF0, 0x00,  -- bf
  0x00, 0x00, 0x00, 0x1F, 0x10,  -- c0
  0x10, 0x10, 0x10, 0x1F, 0x10,  -- c1
  0x10, 0x10, 0x10, 0xF0, 0x10,  -- c2
  0x00, 0x00, 0x00, 0xFF, 0x10,  -- c3
  0x10, 0x10, 0x10, 0x10, 0x10,  -- c4
  0x10, 0x10, 0x10, 0xFF, 0x10,  -- c5
  0x00, 0x00, 0x00, 0xFF, 0x14,  -- c6
  0x00, 0x00, 0xFF, 0x00, 0xFF,  -- c7
  0x00, 0x00, 0x1F, 0x10, 0x17,  -- c8
  0x00, 0x00, 0xFC, 0x04, 0xF4,  -- c9
  0x14, 0x14, 0x17, 0x10, 0x17,  -- ca
  0x14, 0x14, 0xF4, 0x04, 0xF4,  -- cb
  0x00, 0x00, 0xFF, 0x00, 0xF7,  -- cc
  0x14, 0x14, 0x14, 0x14, 0x14,  -- cd
  0x14, 0x14, 0xF7, 0x00, 0xF7,  -- ce
  0x14, 0x14, 0x14, 0x17, 0x14,  -- cf
  0x10, 0x10, 0x1F, 0x10, 0x1F,  -- d0
  0x14, 0x14, 0x14, 0xF4, 0x14,  -- d1
  0x10, 0x10, 0xF0, 0x10, 0xF0,  -- d2
  0x00, 0x00, 0x1F, 0x10, 0x1F,  -- d3
  0x00, 0x00, 0x00, 0x1F, 0x14,  -- d4
  0x00, 0x00, 0x00, 0xFC, 0x14,  -- d5
  0x00, 0x00, 0xF0, 0x10, 0xF0,  -- d6
  0x10, 0x10, 0xFF, 0x10, 0xFF,  -- d7
  0x14, 0x14, 0x14, 0xFF, 0x14,  -- d8
  0x10, 0x10, 0x10, 0x1F, 0x00,  -- d9
  0x00, 0x00, 0x00, 0xF0, 0x10,  -- da
  0xFF, 0xFF, 0xFF, 0xFF, 0xFF,  -- db
  0xF0, 0xF0, 0xF0, 0xF0, 0xF0,  -- dc
  0xFF, 0xFF, 0xFF, 0x00, 0x00,  -- dd
  0x00, 0x00, 0x00, 0xFF, 0xFF,  -- de
  0x0F, 0x0F, 0x0F, 0x0F, 0x0F,  -- df
  0x38, 0x44, 0x44, 0x38, 0x44,  -- e0
  0x7C, 0x2A, 0x2A, 0x3E, 0x14,  -- e1
  0x7E, 0x02, 0x02, 0x06, 0x06,  -- e2
  0x02, 0x7E, 0x02, 0x7E, 0x02,  -- e3
  0x63, 0x55, 0x49, 0x41, 0x63,  -- e4
  0x38, 0x44, 0x44, 0x3C, 0x04,  -- e5
  0x40, 0x7E, 0x20, 0x1E, 0x20,  -- e6
  0x06, 0x02, 0x7E, 0x02, 0x02,  -- e7
  0x99, 0xA5, 0xE7, 0xA5, 0x99,  -- e8
  0x1C, 0x2A, 0x49, 0x2A, 0x1C,  -- e9
  0x4C, 0x72, 0x01, 0x72, 0x4C,  -- ea
  0x30, 0x4A, 0x4D, 0x4D, 0x30,  -- eb
  0x30, 0x48, 0x78, 0x48, 0x30,  -- ec
  0xBC, 0x62, 0x5A, 0x46, 0x3D,  -- ed
  0x3E, 0x49, 0x49, 0x49, 0x00,  -- ee
  0x7E, 0x01, 0x01, 0x01, 0x7E,  -- ef
  0x2A, 0x2A, 0x2A, 0x2A, 0x2A,  -- f0
  0x44, 0x44, 0x5F, 0x44, 0x44,  -- f1
  0x40, 0x51, 0x4A, 0x44, 0x40,  -- f2
  0x40, 0x44, 0x4A, 0x51, 0x40,  -- f3
  0x00, 0x00, 0xFF, 0x01, 0x03,  -- f4
  0xE0, 0x80, 0xFF, 0x00, 0x00,  -- f5
  0x08, 0x08, 0x6B, 0x6B, 0x08,  -- f6
  0x36, 0x12, 0x36, 0x24, 0x36,  -- f7
  0x06, 0x0F, 0x09, 0x0F, 0x06,  -- f8
  0x00, 0x00, 0x18, 0x18, 0x00,  -- f9
  0x00, 0x00, 0x10, 0x10, 0x00,  -- fa
  0x30, 0x40, 0xFF, 0x01, 0x01,  -- fb
  0x88, 0x50, 0x20, 0x50, 0x88,  -- fc
  0x20, 0x40, 0x20, 0x10, 0x08,  -- fd
  0x00, 0x3C, 0x3C, 0x3C, 0x3C,  -- fe
  0x00, 0x00, 0x00, 0x00, 0x00  -- ff
]

/-- The inner loop `for (j = 0; j<8; j++)` of `LCDdrawchar` for glyph column `i`
with column byte `d`. -/
def drawcharColumn (textcolor x y i d : Nat) (buf : Buffer) : Buffer :=
  (List.range 8).foldl
    (fun b j =>
      if d &&& _BV j ≠ 0 then my_setpixel b (toU8 (x + i)) (toU8 (y + j)) textcolor
      else my_setpixel b (toU8 (x + i)) (toU8 (y + j)) (lnot textcolor))
    buf

/-- The function `void LCDdrawchar(uint8_t x, uint8_t y, char c)`, reading the global
`textcolor`. The character is taken by its unsigned value `c` (plain `char` is
unsigned on the ARM target of the driver). A read `*(font+(c*5)+i)` outside the
table has no defined value and yields `none`. -/
def LCDdrawchar (buf : Buffer) (textcolor x y c : Nat) : Option Buffer :=
  if y ≥ LCDHEIGHT then some buf
  else if x + 5 ≥ LCDWIDTH then some buf
  else
    ((List.range 5).foldlM
      (fun b i => (font[c * 5 + i]?).map (fun d => drawcharColumn textcolor x y i d b))
      buf).map
    (fun b =>
      (List.range 8).foldl
        (fun b j => my_setpixel b (toU8 (x + 5)) (toU8 (y + j)) (lnot textcolor)) b)

/-- The function `void LCDwrite(uint8_t c)`; the newline character is 10 and the
carriage return is 13. -/
def LCDwrite (lcd : LCD) (c : Nat) : Option LCD :=
  if c = 10 then
    some { lcd with
      cursor_y := toU8 (lcd.cursor_y + lcd.textsize * 8)
      cursor_x := 0 }
  else if c = 13 then
    some lcd
  else
    (LCDdrawchar lcd.pcd8544_buffer lcd.textcolor lcd.cursor_x lcd.cursor_y c).map
      (fun buf =>
        let cx := toU8 (lcd.cursor_x + lcd.textsize * 6)
        let wrapped : Bool := decide (cx ≥ LCDWIDTH - 5)
        let cx1 := if wrapped then 0 else cx
        let cy1 := if wrapped then toU8 (lcd.cursor_y + 8) else lcd.cursor_y
        let cy2 := if cy1 ≥ LCDHEIGHT then 0 else cy1
        { lcd with pcd8544_buffer := buf, cursor_x := cx1, cursor_y := cy2 })


/-! ## Bitmaps -/

/-- The function
`void LCDdrawbitmap(uint8_t x, uint8_t y, const uint8_t *bitmap, uint8_t w, uint8_t h, uint8_t color)`.
The source bitmap is the list of bytes behind the pointer; a read
`*(bitmap + i + (j/8)*w)` outside it has no defined value and yields `none`.
The counters `j`, `i` and their bounds `h`, `w` are all `uint8_t`, so the loops
run `h` and `w` times. `updateBoundingBox` has an empty body. -/
def LCDdrawbitmap (buf : Buffer) (x y : Nat) (bitmap : List Nat) (w h color : Nat) :
    Option Buffer :=
  (List.range h).foldlM
    (fun b j =>
      (List.range w).foldlM
        (fun b i =>
          (bitmap[i + (j / 8) * w]?).map
            (fun v =>
              if v &&& _BV (j % 8) ≠ 0 then my_setpixel b (toU8 (x + i)) (toU8 (y + j)) color
              else b))
        b)
    buf

/-- The bit of pixel `(i, j)` in a packed bitmap of width `w`: byte
`i + (j/8)*w`, bit `j % 8`. -/
def bitmapBit (bitmap : List Nat) (w i j : Nat) : Bool :=
  (bitmap.getD (i + (j / 8) * w) 0).testBit (j % 8)

/-! ## Serial transport -/

/-- Modelled from the spec: the level of a line driven low (`LOW` of the wiringPi
library, which is not part of the sources). -/
def LOW : Nat := 0

/-- Modelled from the spec: the level of a line driven high (`HIGH` of the wiringPi
library, which is not part of the sources). -/
def HIGH : Nat := 1

/-- Modelled from the spec: the pin direction `OUTPUT` of the wiringPi library,
which is not part of the sources. -/
def OUTPUT : Nat := 1

/-- Modelled from the spec: the bit order least-significant-bit-first
(`LSBFIRST` of the wiringPi library, which is not part of the sources). -/
def LSBFIRST : Nat := 0

/-- Modelled from the spec: the bit order most-significant-bit-first
(`MSBFIRST` of the wiringPi library, which is not part of the sources). -/
def MSBFIRST : Nat := 1

/-- The globals `_din`, `_sclk`, `_dc`, `_rst`, `_cs` (`int8_t` pin numbers). -/
structure Pins where
  _din : Int
  _sclk : Int
  _dc : Int
  _rst : Int
  _cs : Int

/-- A call into the `DigitalIO` capability: `pinMode(pin, mode)`,
`digitalWrite(pin, value)`, or the spin delay `_delay_ms(t)`. -/
inductive Event where
  | pinMode (pin : Int) (mode : Nat)
  | digitalWrite (pin : Int) (value : Nat)
  | delay_ms (t : Nat)

/-- The function
`void shiftOut(uint8_t dataPin, uint8_t clockPin, uint8_t bitOrder, uint8_t val)`:
per bit, the data line, then the clock raised and lowered. The spin loop between
the two clock writes makes no call and is left out. -/
def shiftOut (dataPin clockPin bitOrder val : Nat) : List Event :=
  (List.range 8).flatMap
    (fun i =>
      [ (if bitOrder = LSBFIRST then
          Event.digitalWrite dataPin (lnot (lnot (val &&& (1 <<< i))))
        else
          Event.digitalWrite dataPin (lnot (lnot (val &&& (1 <<< (7 - i)))))),
        Event.digitalWrite clockPin HIGH,
        Event.digitalWrite clockPin LOW ])

/-- The function `void LCDspiwrite(uint8_t c)`; the pin numbers are converted to
the `uint8_t` parameters of `shiftOut`. -/
def LCDspiwrite (io : Pins) (c : Nat) : List Event :=
  [Event.digitalWrite io._cs LOW]
    ++ shiftOut (toU8i io._din) (toU8i io._sclk) MSBFIRST c
    ++ [Event.digitalWrite io._cs HIGH]

/-- The function `void LCDcommand(uint8_t c)`. -/
def LCDcommand (io : Pins) (c : Nat) : List Event :=
  [Event.digitalWrite io._dc LOW] ++ LCDspiwrite io c

/-- The function `void LCDdata(uint8_t c)`. -/
def LCDdata (io : Pins) (c : Nat) : List Event :=
  [Event.digitalWrite io._dc HIGH] ++ LCDspiwrite io c

/-- The levels of the data line at the rising edges of the clock line in a trace:
the fold state is (data level, clock level, samples so far), both lines start low. -/
def risingEdgeSamples (dataPin clockPin : Int) (trace : List Event) : List Nat :=
  (trace.foldl
    (fun (s : Nat × Nat × List Nat) e =>
      match e with
      | Event.digitalWrite pin v =>
        if pin = clockPin then
          (if v = HIGH ∧ s.2.1 ≠ HIGH then (s.1, v, s.2.2 ++ [s.1]) else (s.1, v, s.2.2))
        else if pin = dataPin then (v, s.2.1, s.2.2)
        else s
      | _ => s)
    (0, LOW, [])).2.2

/-- The number whose binary digits, most significant first, are `bits`. -/
def ofBitsMSB (bits : List Nat) : Nat := bits.foldl (fun acc b => 2 * acc + b) 0

/-! ## Controller protocol -/

/-- Constants of the absent header `PCD8544.h` whose values the spec does not
give: the text colour `BLACK` and the controller opcodes. They are parameters of
the functions that use them. -/
structure Header where
  BLACK : Nat
  PCD8544_FUNCTIONSET : Nat
  PCD8544_EXTENDEDINSTRUCTION : Nat
  PCD8544_DISPLAYCONTROL : Nat
  PCD8544_DISPLAYNORMAL : Nat
  PCD8544_SETBIAS : Nat
  PCD8544_SETVOP : Nat
  PCD8544_SETYADDR : Nat
  PCD8544_SETXADDR : Nat

/-- The header constants are bytes. -/
def Header.isBytes (hdr : Header) : Prop :=
  hdr.PCD8544_FUNCTIONSET < 256 ∧ hdr.PCD8544_EXTENDEDINSTRUCTION < 256 ∧
  hdr.PCD8544_DISPLAYCONTROL < 256 ∧ hdr.PCD8544_DISPLAYNORMAL < 256 ∧
  hdr.PCD8544_SETBIAS < 256 ∧ hdr.PCD8544_SETVOP < 256 ∧
  hdr.PCD8544_SETYADDR < 256 ∧ hdr.PCD8544_SETXADDR < 256

/-- A call made by a driver function, in order: a direct call into `DigitalIO`,
`LCDcommand(c)` or `LCDdata(c)`. -/
inductive Call where
  | pin (e : Event)
  | command (c : Nat)
  | data (c : Nat)

/-- The `DigitalIO` calls behind one driver call. -/
def Call.wire (io : Pins) : Call → List Event
  | Call.pin e => [e]
  | Call.command c => LCDcommand io c
  | Call.data c => LCDdata io c

/-- The bytes passed to `LCDcommand` in a list of calls. -/
def commandBytes (calls : List Call) : List Nat :=
  calls.filterMap (fun c => match c with | Call.command v => some v | _ => none)

/-- The bytes passed to `LCDdata` in a list of calls. -/
def dataBytes (calls : List Call) : List Nat :=
  calls.filterMap (fun c => match c with | Call.data v => some v | _ => none)

/-- The function `void LCDsetContrast(uint8_t val)`. -/
def LCDsetContrast (hdr : Header) (val : Nat) : List Call :=
  let val := if val > 0x7f then 0x7f else val
  [ Call.command (toU8 (hdr.PCD8544_FUNCTIONSET ||| hdr.PCD8544_EXTENDEDINSTRUCTION)),
    Call.command (toU8 (hdr.PCD8544_SETVOP ||| val)),
    Call.command (toU8 hdr.PCD8544_FUNCTIONSET) ]

/-! ## Dirty rectangle and flush -/

/-- The globals `xUpdateMin`, `xUpdateMax`, `yUpdateMin`, `yUpdateMax` of the build
with `enablePartialUpdate` defined. -/
structure Dirty where
  xUpdateMin : Nat
  xUpdateMax : Nat
  yUpdateMin : Nat
  yUpdateMax : Nat

/-- The function
`static void updateBoundingBox(uint8_t xmin, uint8_t ymin, uint8_t xmax, uint8_t ymax)`;
`enablePartialUpdate` tells whether the macro of that name is defined (it is
not in the build described by the source, where the body is empty). -/
def updateBoundingBox (enablePartialUpdate : Bool) (d : Dirty) (xmin ymin xmax ymax : Nat) :
    Dirty :=
  if enablePartialUpdate then
    { xUpdateMin := if xmin < d.xUpdateMin then xmin else d.xUpdateMin
      xUpdateMax := if xmax > d.xUpdateMax then xmax else d.xUpdateMax
      yUpdateMin := if ymin < d.yUpdateMin then ymin else d.yUpdateMin
      yUpdateMax := if ymax > d.yUpdateMax then ymax else d.yUpdateMax }
  else d

/-- The function `void LCDInit(uint8_t SCLK, uint8_t DIN, uint8_t DC, uint8_t CS,
uint8_t RST, uint8_t contrast)`: the pin globals, the text state, the dirty
rectangle and the calls made. -/
def LCDInit (enablePartialUpdate : Bool) (hdr : Header) (lcd : LCD) (d : Dirty)
    (SCLK DIN DC CS RST contrast : Nat) : Pins × LCD × Dirty × List Call :=
  let io : Pins :=
    { _din := wrap8 DIN, _sclk := wrap8 SCLK, _dc := wrap8 DC, _rst := wrap8 RST,
      _cs := wrap8 CS }
  let contrast := if contrast > 0x7f then 0x7f else contrast
  (io,
   { lcd with cursor_x := 0, cursor_y := 0, textsize := 1, textcolor := hdr.BLACK },
   updateBoundingBox enablePartialUpdate d 0 0 (LCDWIDTH - 1) (LCDHEIGHT - 1),
   [ Call.pin (Event.pinMode io._din OUTPUT),
     Call.pin (Event.pinMode io._sclk OUTPUT),
     Call.pin (Event.pinMode io._dc OUTPUT),
     Call.pin (Event.pinMode io._rst OUTPUT),
     Call.pin (Event.pinMode io._cs OUTPUT) ]
   ++ (if io._cs > 0 then [Call.pin (Event.digitalWrite io._cs LOW)] else [])
   ++ [ Call.pin (Event.digitalWrite io._rst LOW),
        Call.pin (Event.delay_ms 500),
        Call.pin (Event.digitalWrite io._rst HIGH),
        Call.command (toU8 (hdr.PCD8544_FUNCTIONSET ||| hdr.PCD8544_EXTENDEDINSTRUCTION)),
        Call.command (toU8 (hdr.PCD8544_SETBIAS ||| 0x4)),
        Call.command (toU8 (hdr.PCD8544_SETVOP ||| contrast)),
        Call.command (toU8 hdr.PCD8544_FUNCTIONSET),
        Call.command (toU8 (hdr.PCD8544_DISPLAYCONTROL ||| hdr.PCD8544_DISPLAYNORMAL)) ])

/-- The inner loop `for(; col <= maxcol; col++)` of `LCDdisplay` for page `p`:
one `LCDdata` call per column. The counter is `uint8_t`; a read of
`pcd8544_buffer` at or beyond its 504 cells has no defined value and yields
`none`. Loop state: `(col, calls so far)`. -/
def displayColumns (fuel : Nat) (buf : Buffer) (p col maxcol : Nat) : Option (List Call) :=
  (whileLoop (fun s : Nat × List Call => decide (s.1 ≤ maxcol))
    (fun s =>
      if LCDWIDTH * p + s.1 < LCDWIDTH * LCDHEIGHT / 8 then
        some (toU8 (s.1 + 1), s.2 ++ [Call.data (buf (LCDWIDTH * p + s.1))])
      else none)
    fuel (col, [])).map Prod.snd

/-- The loop `for(p = 0; p < 6; p++)` of `LCDdisplay` from page `p` on, with `n`
pages left: with partial updates a page above the dirty rows is skipped
(`continue`) and the first page below them ends the loop (`break`). -/
def displayPages (enablePartialUpdate : Bool) (hdr : Header) (fuel : Nat) (buf : Buffer)
    (d : Dirty) : Nat → Nat → Option (List Call)
  | 0, _ => some []
  | n + 1, p =>
    if enablePartialUpdate = true ∧ d.yUpdateMin ≥ (p + 1) * 8 then
      displayPages enablePartialUpdate hdr fuel buf d n (p + 1)
    else if enablePartialUpdate = true ∧ d.yUpdateMax < p * 8 then
      some []
    else
      (displayColumns fuel buf p
          (if enablePartialUpdate then d.xUpdateMin else 0)
          (if enablePartialUpdate then d.xUpdateMax else LCDWIDTH - 1)).bind
        (fun cols =>
          (displayPages enablePartialUpdate hdr fuel buf d n (p + 1)).map
            (fun rest =>
              [ Call.command (toU8 (hdr.PCD8544_SETYADDR ||| p)),
                Call.command (toU8 (hdr.PCD8544_SETXADDR |||
                  (if enablePartialUpdate then d.xUpdateMin else 0))) ]
              ++ cols ++ rest))

/-- The function `void LCDdisplay(void)`: the calls made and the dirty rectangle
afterwards (reset when partial updates are enabled). -/
def LCDdisplay (enablePartialUpdate : Bool) (hdr : Header) (fuel : Nat) (buf : Buffer)
    (d : Dirty) : Option (List Call × Dirty) :=
  (displayPages enablePartialUpdate hdr fuel buf d 6 0).map
    (fun calls =>
      (calls ++ [Call.command (toU8 hdr.PCD8544_SETYADDR)],
       if enablePartialUpdate then
         { xUpdateMin := LCDWIDTH - 1, xUpdateMax := 0, yUpdateMin := LCDHEIGHT - 1,
           yUpdateMax := 0 }
       else d))

/-- The dirty rectangle left by `LCDdisplay` when partial updates are enabled. -/
def emptyDirty : Dirty :=
  { xUpdateMin := 83, xUpdateMax := 0, yUpdateMin := 47, yUpdateMax := 0 }

/-- The function `LCDsetPixel` together with the dirty rectangle, for the build
selected by `enablePartialUpdate`. -/
def LCDsetPixelTracked (enablePartialUpdate : Bool) (buf : Buffer) (d : Dirty)
    (x y color : Nat) : Buffer × Dirty :=
  if x ≥ LCDWIDTH ∨ y ≥ LCDHEIGHT then (buf, d)
  else if color ≠ 0 then
    (modifyCell buf (x + (y / 8) * LCDWIDTH) (fun v => toU8 (v ||| _BV (y % 8))),
     updateBoundingBox enablePartialUpdate d x y x y)
  else
    (modifyCell buf (x + (y / 8) * LCDWIDTH) (fun v => toU8 (v &&& bitNot (_BV (y % 8)))),
     updateBoundingBox enablePartialUpdate d x y x y)

/-- The function `LCDdrawline` together with the dirty rectangle, for the build
selected by `enablePartialUpdate`: `updateBoundingBox(x0, y0, x1, y1)` is called
after the two conditional swaps, on the swapped variables. -/
def LCDdrawlineTracked (enablePartialUpdate : Bool) (fuel : Nat) (buf : Buffer) (d : Dirty)
    (x0 y0 x1 y1 color : Nat) : Option (Buffer × Dirty) :=
  let steep : Bool := decide (abs ((y1 : Int) - y0) > abs ((x1 : Int) - x0))
  let xa := if steep then y0 else x0
  let ya := if steep then x0 else y0
  let xb := if steep then y1 else x1
  let yb := if steep then x1 else y1
  if xa > xb then
    (drawlineSorted fuel buf steep xb yb xa ya color).map
      (fun b => (b, updateBoundingBox enablePartialUpdate d xb yb xa ya))
  else
    (drawlineSorted fuel buf steep xa ya xb yb color).map
      (fun b => (b, updateBoundingBox enablePartialUpdate d xa ya xb yb))

/-- The cell `x + page*84` lies inside the dirty rectangle: its column is between
the x bounds and one of the eight rows of its page is between the y bounds. -/
def cellInDirty (d : Dirty) (x page : Nat) : Prop :=
  d.xUpdateMin ≤ x ∧ x ≤ d.xUpdateMax ∧
    ∃ row, page * 8 ≤ row ∧ row < page * 8 + 8 ∧ d.yUpdateMin ≤ row ∧ row ≤ d.yUpdateMax

/-! ## Logo -/

/-- The table `const uint8_t pi_logo []`. -/
def pi_logo : List Nat := [
  0x00, 0x00, 0x00, 0x00, 0x00, 0x00, 0x00, 0x00, 0x00, 0x00, 0x00, 0x00, 0x00, 0x00, 0x00, 0x00,
  0x00, 0x00, 0xFE, 0xFF, 0xFF, 0xFF, 0xFF, 0xFF, 0xFF, 0xFF, 0xFF, 0xFF, 0xFF, 0xFF, 0xFF, 0xFF,
  0xFF, 0xFF, 0xFF, 0xFF, 0xFF, 0xFF, 0xFF, 0x7F, 0x7F, 0x7F, 0x7F, 0x7F, 0x7F, 0xFF, 0xFF, 0xFF,
  0xFF, 0xFF, 0xFF, 0xFF, 0xFF, 0xFF, 0xFF, 0xFF, 0xFF, 0xFF, 0xFF, 0xFF, 0xFF, 0xFF, 0xFF, 0xFF,
  0xFF, 0xFE, 0x00, 0x00, 0x00, 0x00, 0x00, 0x00, 0x00, 0x00, 0x00, 0x00, 0x00, 0x00, 0x00, 0x00,
  0x00, 0x00, 0x00, 0x00, 0x00, 0x00, 0x00, 0x00, 0x00, 0x00, 0x00, 0x00, 0x00, 0x00, 0x00, 0x00,
  0x00, 0x00, 0x00, 0x00, 0x00, 0x00, 0xFF, 0xFF, 0xFF, 0xFF, 0xFF, 0xFF, 0xFF, 0xFF, 0xFF, 0xFF,
  0xFF, 0xFF, 0xFF, 0xFF, 0xFF, 0xFF, 0xFF, 0xFF, 0x7F, 0x0F, 0x01, 0x00, 0x00, 0x00, 0x00, 0x00,
  0x00, 0x01, 0x0F, 0x7F, 0xFF, 0xFF, 0xFF, 0xFF, 0xFF, 0xFF, 0xFF, 0xFF, 0xFF, 0xFF, 0xFF, 0xFF,
  0xFF, 0xFF, 0xFF, 0xFF, 0xFF, 0xFF, 0x00, 0x00, 0x00, 0x00, 0x00, 0x00, 0x00, 0x00, 0x00, 0x00,
  0x00, 0x00, 0x00, 0x00, 0x00, 0x00, 0x00, 0x00, 0x00, 0x00, 0x00, 0x00, 0x00, 0x00, 0x00, 0x00,
  0x00, 0x00, 0x00, 0x00, 0x00, 0x00, 0x00, 0x00, 0x00, 0x00, 0xFF, 0xFF, 0xFF, 0xFF, 0xFF, 0xFF,
  0xFF, 0xFF, 0xFF, 0xFF, 0xFF, 0xFF, 0xFF, 0xFF, 0xFF, 0x7F, 0x0F, 0x03, 0x00, 0x00, 0x00, 0x00,
  0xC0, 0xFC, 0xFC, 0xE0, 0x00, 0x00, 0x00, 0x00, 0x01, 0x0F, 0x7F, 0xFF, 0xFF, 0xFF, 0xFF, 0xFF,
  0xFF, 0xFF, 0xFF, 0xFF, 0xFF, 0xFF, 0xFF, 0xFF, 0xFF, 0xFF, 0x00, 0x00, 0x00, 0x00, 0x00, 0x00,
  0x00, 0x00, 0x00, 0x00, 0x00, 0x00, 0x00, 0x00, 0x00, 0x00, 0x00, 0x00, 0x00, 0x00, 0x00, 0x00,
  0x00, 0x00, 0x00, 0x00, 0x00, 0x00, 0x00, 0x00, 0x00, 0x00, 0x00, 0x00, 0x00, 0x00, 0xFF, 0xFF,
  0xFF, 0xFF, 0xFF, 0xFF, 0xFF, 0xFF, 0xFF, 0xFF, 0xFF, 0xFF, 0x7F, 0x0F, 0x03, 0x00, 0x00, 0x00,
  0x00, 0x00, 0x00, 0x0E, 0x0F, 0x0F, 0x0F, 0x0F, 0x0F, 0x00, 0x00, 0x00, 0x00, 0x00, 0x00, 0x01,
  0x0F, 0x3F, 0xFF, 0xFF, 0xFF, 0xFF, 0xFF, 0xFF, 0xFF, 0xFF, 0xFF, 0xFF, 0xFF, 0xFF, 0x00, 0x00,
  0x00, 0x00, 0x00, 0x00, 0x00, 0x00, 0x00, 0x00, 0x00, 0x00, 0x00, 0x00, 0x00, 0x00, 0x00, 0x00,
  0x00, 0x00, 0x00, 0x00, 0x00, 0x00, 0x00, 0x00, 0x00, 0x00, 0x00, 0x00, 0x00, 0x00, 0x00, 0x00,
  0x00, 0x00, 0xFF, 0xFF, 0xFF, 0xFF, 0xFF, 0xFF, 0xFF, 0xFF, 0xFF, 0xBF, 0x8F, 0x81, 0x80, 0x80,
  0x80, 0x80, 0x80, 0xE0, 0xFC, 0xFE, 0xFE, 0xFE, 0xFE, 0xFE, 0xFE, 0xFE, 0xFE, 0xFE, 0xFE, 0xFC,
  0xE0, 0x80, 0x80, 0x80, 0x80, 0x80, 0x81, 0x87, 0xBF, 0xFF, 0xFF, 0xFF, 0xFF, 0xFF, 0xFF, 0xFF,
  0xFF, 0xFF, 0x00, 0x00, 0x00, 0x00, 0x00, 0x00, 0x00, 0x00, 0x00, 0x00, 0x00, 0x00, 0x00, 0x00,
  0x00, 0x00, 0x00, 0x00, 0x00, 0x00, 0x00, 0x00, 0x00, 0x00, 0x00, 0x00, 0x00, 0x00, 0x00, 0x00,
  0x00, 0x00, 0x00, 0x00, 0x00, 0x00, 0x7F, 0xFF, 0xFF, 0xFF, 0xFF, 0xFF, 0xFF, 0xFF, 0xFF, 0xFF,
  0xFF, 0xFF, 0xFF, 0xFF, 0xFF, 0xFF, 0xFF, 0xFF, 0xFF, 0xFF, 0xFF, 0xFF, 0xFF, 0xFF, 0xFF, 0xFF,
  0xFF, 0xFF, 0xFF, 0xFF, 0xFF, 0xFF, 0xFF, 0xFF, 0xFF, 0xFF, 0xFF, 0xFF, 0xFF, 0xFF, 0xFF, 0xFF,
  0xFF, 0xFF, 0xFF, 0xFF, 0xFF, 0x7F, 0x00, 0x00, 0x00, 0x00, 0x00, 0x00, 0x00, 0x00, 0x00, 0x00
]

/-- The function `void LCDshowLogo()`: the copy loop over the
`LCDWIDTH * LCDHEIGHT / 8` cells, then `LCDdisplay()`. A read of `pi_logo`
outside the table has no defined value and yields `none`. -/
def LCDshowLogo (enablePartialUpdate : Bool) (hdr : Header) (fuel : Nat) (buf : Buffer)
    (d : Dirty) : Option (Buffer × List Call × Dirty) :=
  ((List.range (LCDWIDTH * LCDHEIGHT / 8)).foldlM
      (fun b i => (pi_logo[i]?).map (fun v => writeCell b i v)) buf).bind
    (fun b => (LCDdisplay enablePartialUpdate hdr fuel b d).map (fun r => (b, r.1, r.2)))

/-! ## Outline rectangle -/

/-- The function
`void LCDdrawrect(uint8_t x, uint8_t y, uint8_t w, uint8_t h, uint8_t color)`.
The counter `i` is `uint8_t`, the bounds `x+w`, `y+h` and the coordinates
`y+h-1`, `x+w-1` are `int`, converted to `uint8_t` when passed to `my_setpixel`.
Loop states are `(i, buffer)`; `updateBoundingBox` has an empty body. -/
def LCDdrawrect (fuel : Nat) (buf : Buffer) (x y w h color : Nat) : Option Buffer :=
  (whileLoop (fun s : Nat × Buffer => decide (s.1 < x + w))
    (fun s =>
      some (toU8 (s.1 + 1),
        my_setpixel (my_setpixel s.2 s.1 y color) s.1 (toU8i ((y : Int) + h - 1)) color))
    fuel (x, buf)).bind
  (fun s1 =>
    (whileLoop (fun s : Nat × Buffer => decide (s.1 < y + h))
      (fun s =>
        some (toU8 (s.1 + 1),
          my_setpixel (my_setpixel s.2 x s.1 color) (toU8i ((x : Int) + w - 1)) s.1 color))
      fuel (y, s1.2)).map Prod.snd)

/-! ## Circles -/

/-- The `int8_t` variables `f`, `ddF_x`, `ddF_y`, `x`, `y` of `LCDdrawcircle` and
`LCDfillcircle`. -/
structure CircleVars where
  f : Int
  ddF_x : Int
  ddF_y : Int
  x : Int
  y : Int

/-- The initial values `f = 1 - r`, `ddF_x = 1`, `ddF_y = -2 * r`, `x = 0`,
`y = r`, each stored into an `int8_t`. -/
def circleInit (r : Nat) : CircleVars :=
  { f := wrap8 (1 - (r : Int)), ddF_x := 1, ddF_y := wrap8 (-2 * (r : Int)), x := 0,
    y := wrap8 (r : Int) }

/-- The update of the decision variables at the head of the loop body, the same
in `LCDdrawcircle` and `LCDfillcircle`:
`if (f >= 0) { y--; ddF_y += 2; f += ddF_y; } x++; ddF_x += 2; f += ddF_x;`. -/
def circleAdvance (v : CircleVars) : CircleVars :=
  let y := if v.f ≥ 0 then wrap8 (v.y - 1) else v.y
  let ddF_y := if v.f ≥ 0 then wrap8 (v.ddF_y + 2) else v.ddF_y
  let f := if v.f ≥ 0 then wrap8 (v.f + wrap8 (v.ddF_y + 2)) else v.f
  let x := wrap8 (v.x + 1)
  let ddF_x := wrap8 (v.ddF_x + 2)
  { f := wrap8 (f + ddF_x), ddF_x := ddF_x, ddF_y := ddF_y, x := x, y := y }

/-- The call `my_setpixel(x0 + a, y0 + b, color)` for a centre `(x0, y0)` and an
`int` offset `(a, b)`: the sums are converted to `uint8_t`. -/
def plotOffset (x0 y0 color : Nat) (buf : Buffer) (o : Int × Int) : Buffer :=
  my_setpixel buf (toU8i ((x0 : Int) + o.1)) (toU8i ((y0 : Int) + o.2)) color

/-- The eight offsets plotted by one iteration of `LCDdrawcircle`, in the order of
the source. -/
def octantOffsets (v : CircleVars) : List (Int × Int) :=
  [ (v.x, v.y), (-v.x, v.y), (v.x, -v.y), (-v.x, -v.y),
    (v.y, v.x), (-v.y, v.x), (v.y, -v.x), (-v.y, -v.x) ]

/-- The four offsets plotted by `LCDdrawcircle` before its loop. -/
def poleOffsets (r : Nat) : List (Int × Int) :=
  [ (0, (r : Int)), (0, -(r : Int)), ((r : Int), 0), (-(r : Int), 0) ]

/-- The function `void LCDdrawcircle(uint8_t x0, uint8_t y0, uint8_t r, uint8_t color)`.
Loop state: the decision variables and the framebuffer; the four calls before the
loop and the eight calls of each iteration are made in the order of the source.
`updateBoundingBox` has an empty body. -/
def LCDdrawcircle (fuel : Nat) (buf : Buffer) (x0 y0 r color : Nat) : Option Buffer :=
  (whileLoop (fun s : CircleVars × Buffer => decide (s.1.x < s.1.y))
    (fun s =>
      some (circleAdvance s.1,
        (octantOffsets (circleAdvance s.1)).foldl (plotOffset x0 y0 color) s.2))
    fuel (circleInit r, (poleOffsets r).foldl (plotOffset x0 y0 color) buf)).map Prod.snd

/-- A loop `for (i = lo; i <= hi; i++)` of `LCDfillcircle` with `uint8_t` counter
`i`, `int` bound `hi`, and two pixel writes per iteration in columns `xa`, `xb`. -/
def fillSpan (fuel : Nat) (buf : Buffer) (lo : Nat) (hi : Int) (xa xb color : Nat) :
    Option Buffer :=
  (whileLoop (fun s : Nat × Buffer => decide ((s.1 : Int) ≤ hi))
    (fun s => some (toU8 (s.1 + 1), my_setpixel (my_setpixel s.2 xa s.1 color) xb s.1 color))
    fuel (lo, buf)).map Prod.snd

/-- The function `void LCDfillcircle(uint8_t x0, uint8_t y0, uint8_t r, uint8_t color)`.
The first loop writes column `x0` once per iteration; each iteration of the
stepping loop runs the two span loops. `updateBoundingBox` has an empty body. -/
def LCDfillcircle (fuel : Nat) (buf : Buffer) (x0 y0 r color : Nat) : Option Buffer :=
  ((whileLoop (fun s : Nat × Buffer => decide (s.1 ≤ y0 + r))
      (fun s => some (toU8 (s.1 + 1), my_setpixel s.2 x0 s.1 color))
      fuel (toU8i ((y0 : Int) - r), buf)).bind
    (fun s0 =>
      whileLoop (fun s : CircleVars × Buffer => decide (s.1.x < s.1.y))
        (fun s =>
          let v := circleAdvance s.1
          ((fillSpan fuel s.2 (toU8i ((y0 : Int) - v.y)) ((y0 : Int) + v.y)
              (toU8i ((x0 : Int) + v.x)) (toU8i ((x0 : Int) - v.x)) color).bind
            (fun b =>
              fillSpan fuel b (toU8i ((y0 : Int) - v.x)) ((y0 : Int) + v.x)
                (toU8i ((x0 : Int) + v.y)) (toU8i ((x0 : Int) - v.y)) color)).map
            (fun b => (v, b)))
        fuel (circleInit r, s0.2))).map Prod.snd

/-- The decision variables at the head of iteration `k` of the stepping loop for
radius `r`. -/
def circleVars (r : Nat) : Nat → CircleVars
  | 0 => circleInit r
  | k + 1 => circleAdvance (circleVars r k)

/-- The offsets plotted by `LCDdrawcircle` for radius `r` when its loop runs `n`
iterations, in order. -/
def circleOffsets (r n : Nat) : List (Int × Int) :=
  poleOffsets r ++ (List.range n).flatMap (fun k => octantOffsets (circleVars r (k + 1)))

/-- The values an `int8_t` can hold. -/
def inInt8 (v : Int) : Bool := decide (-128 ≤ v) && decide (v ≤ 127)

/-- No store of `circleAdvance` from the variables `v` overflows: each value
written to `y`, `ddF_y`, `f`, `x`, `ddF_x` lies in the `int8_t` range before it
is stored. -/
def advanceInRange (v : CircleVars) : Bool :=
  (if v.f ≥ 0 then
      inInt8 (v.y - 1) && inInt8 (v.ddF_y + 2) && inInt8 (v.f + (v.ddF_y + 2))
    else true)
  && inInt8 (v.x + 1) && inInt8 (v.ddF_x + 2)
  && inInt8 ((if v.f ≥ 0 then v.f + (v.ddF_y + 2) else v.f) + (v.ddF_x + 2))

/-- The offset `o` lies within the radius in each coordinate and within half a
pixel of the circle of radius `r`: `|a| ≤ r`, `|b| ≤ r`, `|a*a + b*b - r*r| ≤ r`. -/
def offsetAccurate (r : Nat) (o : Int × Int) : Bool :=
  decide (o.1.natAbs ≤ r) && decide (o.2.natAbs ≤ r)
    && decide ((o.1 * o.1 + o.2 * o.2 - (r : Int) * r).natAbs ≤ r)

/-- One pass over the stepping loop from the variables `v` at the head of
iteration `k`: every iteration that runs starts below `r`, stores without
overflow and plots accurate offsets, and the loop ends within the fuel. -/
def circleScan (r : Nat) : Nat → CircleVars → Nat → Bool
  | 0, _, _ => false
  | fuel + 1, v, k =>
    if v.x < v.y then
      decide (k < r) && advanceInRange v
        && (octantOffsets (circleAdvance v)).all (offsetAccurate r)
        && circleScan r fuel (circleAdvance v) (k + 1)
    else true


/-! ## Bit-level lemmas -/

theorem testBit_BV (k j : Nat) : (_BV k).testBit j = decide (k = j) := by
  simp [_BV, Nat.one_shiftLeft, Nat.testBit_two_pow]

theorem testBit_allOnes (j : Nat) : (0xFFFFFFFF : Nat).testBit j = decide (j < 32) := by
  have h : (0xFFFFFFFF : Nat) = 2 ^ 32 - 1 := by norm_num
  rw [h, Nat.testBit_two_pow_sub_one]

theorem testBit_setBit (v k j : Nat) :
    (toU8 (v ||| _BV k)).testBit j = (decide (j < 8) && (v.testBit j || decide (k = j))) := by
  have h : (256 : Nat) = 2 ^ 8 := by norm_num
  rw [toU8, h, Nat.testBit_mod_two_pow, Nat.testBit_lor, testBit_BV]

theorem testBit_clearBit (v k j : Nat) :
    (toU8 (v &&& bitNot (_BV k))).testBit j
      = (decide (j < 8) && (v.testBit j && !decide (k = j))) := by
  have h : (256 : Nat) = 2 ^ 8 := by norm_num
  rw [toU8, h, Nat.testBit_mod_two_pow, Nat.testBit_land, bitNot, Nat.testBit_xor, testBit_BV,
    testBit_allOnes]
  by_cases h8 : j < 8
  · have h32 : j < 32 := by omega
    by_cases hk : k = j <;> simp [h8, h32, hk]
  · simp [h8]

theorem toU8_lt (v : Nat) : toU8 v < 256 := Nat.mod_lt _ (by norm_num)

theorem cell_lt (x y : Nat) (hx : x < 84) (hy : y < 48) : x + (y / 8) * 84 < 504 := by
  omega

theorem LCDsetPixel_eq_my_setpixel : LCDsetPixel = my_setpixel := rfl

/-- Cell-level description of a pixel write. -/
theorem my_setpixel_apply (buf : Buffer) (x y color i : Nat) :
    my_setpixel buf x y color i =
      if x < 84 ∧ y < 48 ∧ i = x + (y / 8) * 84 then
        (if color ≠ 0 then toU8 (buf i ||| _BV (y % 8))
         else toU8 (buf i &&& bitNot (_BV (y % 8))))
      else buf i := by
  unfold my_setpixel modifyCell LCDWIDTH LCDHEIGHT
  by_cases hr : x ≥ 84 ∨ y ≥ 48
  · have hn : ¬ (x < 84 ∧ y < 48 ∧ i = x + y / 8 * 84) := by omega
    simp only [if_pos hr, if_neg hn]
  · by_cases hi : i = x + (y / 8) * 84
    · have hp : x < 84 ∧ y < 48 ∧ i = x + y / 8 * 84 := ⟨by omega, by omega, hi⟩
      simp only [if_neg hr, if_pos hp]
      by_cases hc : color ≠ 0
      · simp only [if_pos hc, if_pos hi]
      · simp only [if_neg hc, if_pos hi]
    · have hn : ¬ (x < 84 ∧ y < 48 ∧ i = x + y / 8 * 84) := fun h => hi h.2.2
      simp only [if_neg hr, if_neg hn]
      by_cases hc : color ≠ 0
      · simp only [if_pos hc, if_neg hi]
      · simp only [if_neg hc, if_neg hi]

/-- Pixel-level description of a pixel write: the addressed pixel takes the colour,
every other in-range pixel keeps its stored bit. -/
theorem storedBit_my_setpixel (buf : Buffer) (x y color px py : Nat)
    (hpx : px < 84) (hpy : py < 48) :
    storedBit (my_setpixel buf x y color) px py =
      if x = px ∧ y = py then decide (color ≠ 0) else storedBit buf px py := by
  unfold storedBit LCDWIDTH
  rw [my_setpixel_apply]
  have hb : py % 8 < 8 := Nat.mod_lt _ (by norm_num)
  by_cases hcell : x < 84 ∧ y < 48 ∧ px + py / 8 * 84 = x + y / 8 * 84
  · rw [if_pos hcell]
    obtain ⟨hx, hy, hc⟩ := hcell
    have hxe : x = px := by omega
    have hpage : y / 8 = py / 8 := by omega
    by_cases hbit : y % 8 = py % 8
    · have hye : y = py := by omega
      have hboth : x = px ∧ y = py := ⟨hxe, hye⟩
      rw [if_pos hboth]
      by_cases hcol : color ≠ 0
      · rw [if_pos hcol, testBit_setBit]; simp [hb, hbit, hcol]
      · rw [if_neg hcol, testBit_clearBit]; simp [hb, hbit, hcol]
    · have hye : ¬ (x = px ∧ y = py) := by
        rintro ⟨-, h⟩; exact hbit (by rw [h])
      rw [if_neg hye]
      by_cases hcol : color ≠ 0
      · rw [if_pos hcol, testBit_setBit]; simp [hb, hbit]
      · rw [if_neg hcol, testBit_clearBit]; simp [hb, hbit]
  · rw [if_neg hcell, if_neg]
    rintro ⟨rfl, rfl⟩
    exact hcell ⟨hpx, hpy, rfl⟩

theorem clear_fold_apply (buf : Buffer) (n i : Nat) :
    (List.range n).foldl (fun b k => writeCell b k 0) buf i
      = if i < n then 0 else buf i := by
  induction n with
  | zero => simp
  | succ n ih =>
    rw [List.range_succ, List.foldl_append]
    simp only [List.foldl_cons, List.foldl_nil, writeCell]
    by_cases hi : i = n
    · subst hi; simp
    · rw [if_neg hi, ih]
      by_cases hlt : i < n
      · rw [if_pos hlt, if_pos (by omega)]
      · rw [if_neg hlt, if_neg (by omega)]

theorem LCDclear_buffer (lcd : LCD) :
    (LCDclear lcd).pcd8544_buffer =
      (List.range (LCDWIDTH * LCDHEIGHT / 8)).foldl
        (fun buf i => writeCell buf i 0) lcd.pcd8544_buffer := by
  simp only [LCDclear]

/-! ## Claims about pixel access and clearing -/

/-- C1 (evaluation at the failing input): on the all-zero framebuffer,
`LCDsetPixel(0,0,1)` stores 1 in cell 0 (bit 0 set) and the following
`LCDgetPixel(0,0)` returns 0, not the colour 1 that was written. -/
theorem C1_getPixel_after_setPixel_origin :
    LCDsetPixel zeroBuffer 0 0 1 0 = 1 ∧
    LCDgetPixel (LCDsetPixel zeroBuffer 0 0 1) 0 0 = 0 := by
  constructor <;> rfl

/-- C2: for coordinates with `x ≥ 84` or `y ≥ 48`, `LCDsetPixel` returns the
framebuffer it was given (every cell unchanged) and `LCDgetPixel` returns 0. -/
theorem C2_out_of_range (buf : Buffer) (x y color : Nat) (h : 84 ≤ x ∨ 48 ≤ y) :
    LCDsetPixel buf x y color = buf ∧
    (∀ i, i < 504 → LCDsetPixel buf x y color i = buf i) ∧
    LCDgetPixel buf x y = 0 := by
  have hs : LCDsetPixel buf x y color = buf := by
    unfold LCDsetPixel LCDWIDTH LCDHEIGHT
    rw [if_pos h]
  refine ⟨hs, fun i _ => by rw [hs], ?_⟩
  unfold LCDgetPixel LCDWIDTH LCDHEIGHT
  rw [if_pos h]

theorem C2_out_of_range_witness :
    (84 ≤ 84 ∨ 48 ≤ 0) ∧
    (LCDsetPixel zeroBuffer 84 0 1 = zeroBuffer ∧
     (∀ i, i < 504 → LCDsetPixel zeroBuffer 84 0 1 i = zeroBuffer i) ∧
     LCDgetPixel zeroBuffer 84 0 = 0) :=
  ⟨by decide, C2_out_of_range zeroBuffer 84 0 1 (by decide)⟩

/-- C3: for in-range `(x, y)`, `LCDsetPixel` (and the identical `my_setpixel`)
writes only the cell `x + (y/8)*84`, which lies below 504; bit `y % 8` of that
cell becomes set exactly when the colour is non-zero, its other seven bits are
kept, the cell stays a byte, and every other cell is unchanged. -/
theorem C3_setPixel_layout (buf : Buffer) (x y color : Nat) (hx : x < 84) (hy : y < 48) :
    x + (y / 8) * 84 < 504 ∧
    my_setpixel buf x y color = LCDsetPixel buf x y color ∧
    (LCDsetPixel buf x y color (x + (y / 8) * 84)).testBit (y % 8) = decide (color ≠ 0) ∧
    (∀ j, j < 8 → j ≠ y % 8 →
      (LCDsetPixel buf x y color (x + (y / 8) * 84)).testBit j
        = (buf (x + (y / 8) * 84)).testBit j) ∧
    LCDsetPixel buf x y color (x + (y / 8) * 84) < 256 ∧
    (∀ i, i ≠ x + (y / 8) * 84 → LCDsetPixel buf x y color i = buf i) := by
  have hb : y % 8 < 8 := Nat.mod_lt _ (by norm_num)
  have hcell : x < 84 ∧ y < 48 ∧ x + y / 8 * 84 = x + y / 8 * 84 := ⟨hx, hy, rfl⟩
  refine ⟨cell_lt x y hx hy, rfl, ?_, ?_, ?_, ?_⟩
  · rw [LCDsetPixel_eq_my_setpixel, my_setpixel_apply, if_pos hcell]
    by_cases hc : color ≠ 0
    · rw [if_pos hc, testBit_setBit]; simp [hb, hc]
    · rw [if_neg hc, testBit_clearBit]; simp [hb, hc]
  · intro j hj hne
    have hne' : ¬ (y % 8 = j) := fun h => hne h.symm
    rw [LCDsetPixel_eq_my_setpixel, my_setpixel_apply, if_pos hcell]
    by_cases hc : color ≠ 0
    · rw [if_pos hc, testBit_setBit]; simp [hj, hne']
    · rw [if_neg hc, testBit_clearBit]; simp [hj, hne']
  · rw [LCDsetPixel_eq_my_setpixel, my_setpixel_apply, if_pos hcell]
    by_cases hc : color ≠ 0
    · rw [if_pos hc]; exact toU8_lt _
    · rw [if_neg hc]; exact toU8_lt _
  · intro i hi
    have hn : ¬ (x < 84 ∧ y < 48 ∧ i = x + y / 8 * 84) := fun h => hi h.2.2
    rw [LCDsetPixel_eq_my_setpixel, my_setpixel_apply, if_neg hn]

theorem C3_setPixel_layout_witness :
    (3 < 84 ∧ 10 < 48) ∧
    (3 + (10 / 8) * 84 < 504 ∧
    my_setpixel zeroBuffer 3 10 1 = LCDsetPixel zeroBuffer 3 10 1 ∧
    (LCDsetPixel zeroBuffer 3 10 1 (3 + (10 / 8) * 84)).testBit (10 % 8) = decide (1 ≠ 0) ∧
    (∀ j, j < 8 → j ≠ 10 % 8 →
      (LCDsetPixel zeroBuffer 3 10 1 (3 + (10 / 8) * 84)).testBit j
        = (zeroBuffer (3 + (10 / 8) * 84)).testBit j) ∧
    LCDsetPixel zeroBuffer 3 10 1 (3 + (10 / 8) * 84) < 256 ∧
    (∀ i, i ≠ 3 + (10 / 8) * 84 → LCDsetPixel zeroBuffer 3 10 1 i = zeroBuffer i)) :=
  ⟨by decide, C3_setPixel_layout zeroBuffer 3 10 1 (by decide) (by decide)⟩

/-- C4: after `LCDclear`, from any state, each of the 504 cells is zero, every
`LCDgetPixel` returns 0 and the text cursor is (0,0). -/
theorem C4_clear (lcd : LCD) :
    (∀ i, i < 504 → (LCDclear lcd).pcd8544_buffer i = 0) ∧
    (∀ x y, LCDgetPixel (LCDclear lcd).pcd8544_buffer x y = 0) ∧
    (LCDclear lcd).cursor_x = 0 ∧ (LCDclear lcd).cursor_y = 0 := by
  have hcell : ∀ i, i < 504 → (LCDclear lcd).pcd8544_buffer i = 0 := by
    intro i hi
    have hn : i < LCDWIDTH * LCDHEIGHT / 8 := by
      simpa [LCDWIDTH, LCDHEIGHT] using hi
    rw [LCDclear_buffer, clear_fold_apply, if_pos hn]
  refine ⟨hcell, ?_, rfl, rfl⟩
  intro x y
  unfold LCDgetPixel LCDWIDTH LCDHEIGHT
  by_cases hr : x ≥ 84 ∨ y ≥ 48
  · rw [if_pos hr]
  · rw [if_neg hr, hcell _ (by omega)]
    simp

theorem C4_clear_witness :
    (LCDclear ⟨fun _ => 255, 30, 16, 1, 1⟩).pcd8544_buffer 503 = 0 ∧
    LCDgetPixel (LCDclear ⟨fun _ => 255, 30, 16, 1, 1⟩).pcd8544_buffer 83 47 = 0 := by
  have h := C4_clear ⟨fun _ => 255, 30, 16, 1, 1⟩
  exact ⟨h.1 503 (by norm_num), h.2.1 83 47⟩


/-! ## Loop rule -/

/-- Total-correctness rule for `whileLoop`: an invariant kept by the body together
with a measure that the body decreases gives a result, on which the invariant
holds and the condition is false, for every fuel above the initial measure. -/
theorem whileLoop_total {σ : Type} (cond : σ → Bool) (body : σ → Option σ)
    (inv : σ → Prop) (m : σ → Nat)
    (hstep : ∀ s, inv s → cond s = true → ∃ s', body s = some s' ∧ inv s' ∧ m s' < m s) :
    ∀ (fuel : Nat) (s : σ), inv s → m s < fuel →
      ∃ s', whileLoop cond body fuel s = some s' ∧ inv s' ∧ cond s' = false := by
  intro fuel
  induction fuel with
  | zero => intro s _ hm; exact absurd hm (Nat.not_lt_zero _)
  | succ fuel ih =>
    intro s hinv hm
    by_cases hc : cond s = true
    · obtain ⟨s1, hb, hinv1, hm1⟩ := hstep s hinv hc
      obtain ⟨s2, hw, hinv2, hc2⟩ := ih s1 hinv1 (by omega)
      refine ⟨s2, ?_, hinv2, hc2⟩
      simp only [whileLoop, if_pos hc, hb, Option.some_bind, hw]
    · refine ⟨s, ?_, hinv, by simpa using hc⟩
      simp only [whileLoop, if_neg hc]

/-! ## Filled rectangle -/

/-- The inner loop of `LCDfillrect` for column `i`: it ends with `j = y+h` and
has written the colour to rows `[y, y+h)` of column `i` only. -/
theorem fillrect_column (fuel : Nat) (b0 : Buffer) (i y h color : Nat)
    (hh : y + h ≤ 255) (hfuel : h < fuel) :
    ∃ b, whileLoop (fun t : Nat × Buffer => decide (t.1 < y + h))
        (fun t => some (toU8 (t.1 + 1), my_setpixel t.2 i t.1 color)) fuel (y, b0)
        = some (y + h, b) ∧
      ∀ px py, px < 84 → py < 48 →
        storedBit b px py =
          if px = i ∧ y ≤ py ∧ py < y + h then decide (color ≠ 0) else storedBit b0 px py := by
  obtain ⟨t, ht, ⟨hlo, hhi, hpix⟩, hc⟩ := whileLoop_total
    (fun t : Nat × Buffer => decide (t.1 < y + h))
    (fun t => some (toU8 (t.1 + 1), my_setpixel t.2 i t.1 color))
    (fun t => y ≤ t.1 ∧ t.1 ≤ y + h ∧ ∀ px py, px < 84 → py < 48 →
      storedBit t.2 px py =
        if px = i ∧ y ≤ py ∧ py < t.1 then decide (color ≠ 0) else storedBit b0 px py)
    (fun t => y + h - t.1)
    (by
      rintro ⟨j, b⟩ ⟨hlo, hhi, hpix⟩ hc
      simp only [decide_eq_true_eq] at hc
      have hj : toU8 (j + 1) = j + 1 := by unfold toU8; omega
      refine ⟨_, rfl, ⟨?_, ?_, ?_⟩, ?_⟩
      · simp only [hj]; omega
      · simp only [hj]; omega
      · intro px py hpx hpy
        simp only [hj]
        rw [storedBit_my_setpixel _ _ _ _ _ _ hpx hpy, hpix px py hpx hpy]
        simp only at hlo hhi hc ⊢
        split_ifs <;> first | rfl | (exfalso; omega)
      · simp only [hj]; omega)
    fuel (y, b0)
    ⟨le_refl _, by simp, fun px py _ _ => by
      have hn : ¬ (px = i ∧ y ≤ py ∧ py < y) := by omega
      simp only [if_neg hn]⟩
    (by simpa using hfuel)
  obtain ⟨j, b⟩ := t
  simp only [decide_eq_false_iff_not] at hc hlo hhi hpix
  have hj : j = y + h := by omega
  subst hj
  exact ⟨b, ht, hpix⟩

/-- The function `LCDfillrect` on a rectangle that does not wrap the 8-bit counters: it returns,
and an in-range pixel is afterwards the colour when it lies in
`[x,x+w) x [y,y+h)` and what it was otherwise. -/
theorem fillrect_pixels (fuel : Nat) (buf : Buffer) (x y w h color : Nat)
    (hw : x + w ≤ 255) (hh : y + h ≤ 255) (hfw : w < fuel) (hfh : h < fuel) :
    ∃ b, LCDfillrect fuel buf x y w h color = some b ∧
      ∀ px py, px < 84 → py < 48 →
        storedBit b px py =
          if x ≤ px ∧ px < x + w ∧ y ≤ py ∧ py < y + h then decide (color ≠ 0)
          else storedBit buf px py := by
  obtain ⟨s, hs, ⟨hlo, hhi, hpix⟩, hc⟩ := whileLoop_total
    (fun s : Nat × Buffer => decide (s.1 < x + w))
    (fun s =>
      (whileLoop (fun t : Nat × Buffer => decide (t.1 < y + h))
        (fun t => some (toU8 (t.1 + 1), my_setpixel t.2 s.1 t.1 color))
        fuel (y, s.2)).map (fun t => (toU8 (s.1 + 1), t.2)))
    (fun s => x ≤ s.1 ∧ s.1 ≤ x + w ∧ ∀ px py, px < 84 → py < 48 →
      storedBit s.2 px py =
        if x ≤ px ∧ px < s.1 ∧ y ≤ py ∧ py < y + h then decide (color ≠ 0)
        else storedBit buf px py)
    (fun s => x + w - s.1)
    (by
      rintro ⟨i, b⟩ ⟨hlo, hhi, hpix⟩ hc
      simp only [decide_eq_true_eq] at hc
      have hi : toU8 (i + 1) = i + 1 := by unfold toU8; omega
      obtain ⟨b1, hb1, hpix1⟩ := fillrect_column fuel b i y h color hh hfh
      refine ⟨(i + 1, b1), ?_, ⟨?_, ?_, ?_⟩, ?_⟩
      · simp only [hb1, Option.map_some', hi]
      · simp only; omega
      · simp only; omega
      · intro px py hpx hpy
        rw [hpix1 px py hpx hpy, hpix px py hpx hpy]
        simp only at hlo hhi hc ⊢
        split_ifs <;> first | rfl | (exfalso; omega)
      · simp only; omega)
    fuel (x, buf)
    ⟨le_refl _, by simp, fun px py _ _ => by
      have hn : ¬ (x ≤ px ∧ px < x ∧ y ≤ py ∧ py < y + h) := by omega
      simp only [if_neg hn]⟩
    (by simpa using hfw)
  obtain ⟨i, b⟩ := s
  simp only [decide_eq_false_iff_not] at hc hlo hhi hpix
  have hi : i = x + w := by omega
  subst hi
  refine ⟨b, ?_, hpix⟩
  unfold LCDfillrect
  rw [hs]
  rfl

/-- C5: for a rectangle inside the buffer (`x+w ≤ 84`, `y+h ≤ 48`) `LCDfillrect`
returns; afterwards every pixel of `[x,x+w) x [y,y+h)` is on iff the colour is
non-zero and every other pixel is unchanged. On a cleared buffer with colour 1
the pixels that are on are therefore exactly those of the rectangle. -/
theorem C5_fillrect (fuel : Nat) (buf : Buffer) (x y w h color : Nat)
    (hw : x + w ≤ 84) (hh : y + h ≤ 48) (hfuel : 84 < fuel) :
    ∃ b, LCDfillrect fuel buf x y w h color = some b ∧
      (∀ px py, x ≤ px → px < x + w → y ≤ py → py < y + h →
        storedBit b px py = decide (color ≠ 0)) ∧
      (∀ px py, px < 84 → py < 48 → ¬ (x ≤ px ∧ px < x + w ∧ y ≤ py ∧ py < y + h) →
        storedBit b px py = storedBit buf px py) ∧
      (buf = zeroBuffer → color = 1 → ∀ px py, px < 84 → py < 48 →
        (storedBit b px py = true ↔ (x ≤ px ∧ px < x + w ∧ y ≤ py ∧ py < y + h))) := by
  obtain ⟨b, hb, hpix⟩ := fillrect_pixels fuel buf x y w h color
    (by omega) (by omega) (by omega) (by omega)
  refine ⟨b, hb, ?_, ?_, ?_⟩
  · intro px py h1 h2 h3 h4
    rw [hpix px py (by omega) (by omega), if_pos ⟨h1, h2, h3, h4⟩]
  · intro px py hpx hpy hn
    rw [hpix px py hpx hpy, if_neg hn]
  · intro hz hc px py hpx hpy
    rw [hpix px py hpx hpy]
    subst hz hc
    by_cases hin : x ≤ px ∧ px < x + w ∧ y ≤ py ∧ py < y + h
    · simp [hin]
    · simp [hin, storedBit, zeroBuffer]

theorem C5_fillrect_witness :
    (2 + 5 ≤ 84 ∧ 2 + 3 ≤ 48 ∧ 84 < 100) ∧
    ∃ b, LCDfillrect 100 zeroBuffer 2 2 5 3 1 = some b ∧
      (∀ px py, 2 ≤ px → px < 2 + 5 → 2 ≤ py → py < 2 + 3 →
        storedBit b px py = decide (1 ≠ 0)) ∧
      (∀ px py, px < 84 → py < 48 → ¬ (2 ≤ px ∧ px < 2 + 5 ∧ 2 ≤ py ∧ py < 2 + 3) →
        storedBit b px py = storedBit zeroBuffer px py) ∧
      (zeroBuffer = zeroBuffer → 1 = 1 → ∀ px py, px < 84 → py < 48 →
        (storedBit b px py = true ↔ (2 ≤ px ∧ px < 2 + 5 ∧ 2 ≤ py ∧ py < 2 + 3))) :=
  ⟨by decide, C5_fillrect 100 zeroBuffer 2 2 5 3 1 (by decide) (by decide) (by decide)⟩

/-! ## Lines -/

theorem wrap8_id (v : Int) (h1 : -128 ≤ v) (h2 : v < 128) : wrap8 v = v := by
  unfold wrap8; omega

/-- The error accumulator stays in `[0, dx)` (it is 0 when `dx = 0`) and records
the steps taken: `err + k*dy = dx/2 + s*dx`. -/
theorem lineTrace_inv (dx dy : Nat) (h : dy ≤ dx) (k : Nat) :
    0 ≤ (lineTrace dx dy k).2 ∧
    ((lineTrace dx dy k).2 < dx ∨ (dx = 0 ∧ (lineTrace dx dy k).2 = 0)) ∧
    (lineTrace dx dy k).2 + ((k * dy : Nat) : Int)
      = ((dx / 2 : Nat) : Int) + (((lineTrace dx dy k).1 * dx : Nat) : Int) ∧
    (dx = 0 → (lineTrace dx dy k).1 = 0) := by
  induction k with
  | zero =>
    refine ⟨?_, ?_, ?_, ?_⟩
    · simp only [lineTrace]; omega
    · simp only [lineTrace]; omega
    · simp only [lineTrace, Nat.zero_mul]
    · intro _; rfl
  | succ k ih =>
    obtain ⟨h0, h1, h2, h3⟩ := ih
    have hk : (k + 1) * dy = k * dy + dy := by ring
    have hs : ((lineTrace dx dy k).1 + 1) * dx = (lineTrace dx dy k).1 * dx + dx := by ring
    simp only [lineTrace]
    by_cases hneg : (lineTrace dx dy k).2 - dy < 0
    · simp only [if_pos hneg]
      rw [hk, hs]
      refine ⟨by omega, by omega, by omega, by omega⟩
    · simp only [if_neg hneg]
      rw [hk]
      refine ⟨by omega, by omega, by omega, by omega⟩

/-- While the major coordinate has not passed the end point, the minor coordinate
has taken at most `dy` steps. -/
theorem lineTrace_steps_le (dx dy : Nat) (h : dy ≤ dx) (k : Nat) (hk : k ≤ dx) :
    (lineTrace dx dy k).1 ≤ dy := by
  obtain ⟨h0, h1, h2, h3⟩ := lineTrace_inv dx dy h k
  by_contra hcon
  have hs : dy + 1 ≤ (lineTrace dx dy k).1 := by omega
  have e1 : (dy + 1) * dx ≤ (lineTrace dx dy k).1 * dx := Nat.mul_le_mul_right dx hs
  have e2 : k * dy ≤ dx * dy := Nat.mul_le_mul_right dy hk
  have e3 : (dy + 1) * dx = dx * dy + dx := by ring
  rw [e3] at e1
  omega

/-- At the end point the minor coordinate has taken exactly `dy` steps. -/
theorem lineTrace_steps_end (dx dy : Nat) (h : dy ≤ dx) :
    (lineTrace dx dy dx).1 = dy := by
  obtain ⟨h0, h1, h2, h3⟩ := lineTrace_inv dx dy h dx
  have hle := lineTrace_steps_le dx dy h dx (le_refl _)
  by_contra hcon
  have hs : (lineTrace dx dy dx).1 + 1 ≤ dy := by omega
  have e1 : ((lineTrace dx dy dx).1 + 1) * dx ≤ dy * dx := Nat.mul_le_mul_right dx hs
  have e3 : ((lineTrace dx dy dx).1 + 1) * dx = (lineTrace dx dy dx).1 * dx + dx := by ring
  have e4 : dy * dx = dx * dy := by ring
  rw [e3, e4] at e1
  omega

theorem lineTrace_zero (dx dy : Nat) : (lineTrace dx dy 0).1 = 0 := rfl

theorem linePoints_succ (steep : Bool) (xs ys ye dx dy n : Nat) :
    linePoints steep xs ys ye dx dy (n + 1)
      = linePoints steep xs ys ye dx dy n ++ [linePoint steep xs ys ye dx dy n] := by
  simp only [linePoints, List.range_succ, List.map_append, List.map_cons, List.map_nil]

/-- The plot of one iteration, at pixel level. -/
theorem storedBit_plot (steep : Bool) (b : Buffer) (a m color px py : Nat)
    (hpx : px < 84) (hpy : py < 48) :
    storedBit (if steep then my_setpixel b m a color else my_setpixel b a m color) px py
      = if (px, py) = (if steep then (m, a) else (a, m)) then decide (color ≠ 0)
        else storedBit b px py := by
  cases steep
  · simp only [Bool.false_eq_true, if_false]
    rw [storedBit_my_setpixel _ _ _ _ _ _ hpx hpy]
    by_cases h : a = px ∧ m = py
    · obtain ⟨rfl, rfl⟩ := h; simp
    · have h2 : ¬ ((px, py) = (a, m)) := by
        intro he; apply h; simp only [Prod.mk.injEq] at he; exact ⟨he.1.symm, he.2.symm⟩
      rw [if_neg h, if_neg h2]
  · simp only [if_true]
    rw [storedBit_my_setpixel _ _ _ _ _ _ hpx hpy]
    by_cases h : m = px ∧ a = py
    · obtain ⟨rfl, rfl⟩ := h; simp
    · have h2 : ¬ ((px, py) = (m, a)) := by
        intro he; apply h; simp only [Prod.mk.injEq] at he; exact ⟨he.1.symm, he.2.symm⟩
      rw [if_neg h, if_neg h2]

/-- One iteration of the line loop keeps `lineInv`. The bounds exclude wrap-around
of the 8-bit variables. -/
theorem drawlineStep_inv (buf : Buffer) (steep : Bool) (xs ys xe ye color : Nat)
    (hx : xs ≤ xe) (hxe : xe < 84) (hys : ys < 84) (hye : ye < 84)
    (hdy : (if ys < ye then ye - ys else ys - ye) ≤ xe - xs)
    (st : LineState)
    (hinv : lineInv buf steep xs ys ye (xe - xs) (if ys < ye then ye - ys else ys - ye) color st)
    (hc : st.x0 ≤ xe) :
    lineInv buf steep xs ys ye (xe - xs) (if ys < ye then ye - ys else ys - ye) color
      (drawlineStep steep (xe - xs) (if ys < ye then ye - ys else ys - ye)
        (if ys < ye then 1 else -1) color st) ∧
    xe + 1 - (drawlineStep steep (xe - xs) (if ys < ye then ye - ys else ys - ye)
        (if ys < ye then 1 else -1) color st).x0 < xe + 1 - st.x0 := by
  obtain ⟨a, m, e, bf⟩ := st
  obtain ⟨k, hk1, hka, hkt, hpix⟩ := hinv
  simp only at hka hkt hpix hc
  generalize hdyv : (if ys < ye then ye - ys else ys - ye) = dy at *
  generalize hdxv : xe - xs = dx at *
  have hkdx : k ≤ dx := by omega
  obtain ⟨hm, he⟩ := hkt hkdx
  obtain ⟨t0, t1, t2, t3⟩ := lineTrace_inv dx dy hdy k
  have hsle := lineTrace_steps_le dx dy hdy k hkdx
  have ha1 : toU8 (a + 1) = xs + (k + 1) := by unfold toU8; omega
  have hw1 : wrap8 (e - dy) = e - dy := wrap8_id _ (by omega) (by omega)
  have hpix' : ∀ px py, px < 84 → py < 48 →
      storedBit (if steep then my_setpixel bf m a color else my_setpixel bf a m color) px py =
        if (px, py) ∈ linePoints steep xs ys ye dx dy (k + 1) then decide (color ≠ 0)
        else storedBit buf px py := by
    intro px py hpx hpy
    rw [storedBit_plot steep bf a m color px py hpx hpy, hpix px py hpx hpy, linePoints_succ]
    have hp : linePoint steep xs ys ye dx dy k = (if steep then (m, a) else (a, m)) := by
      unfold linePoint
      rw [hm, hka]
    rw [hp]
    simp only [List.mem_append, List.mem_singleton]
    by_cases h1 : (px, py) = (if steep then (m, a) else (a, m))
    · simp [h1]
    · by_cases h2 : (px, py) ∈ linePoints steep xs ys ye dx dy k
      · simp [h1, h2]
      · simp [h1, h2]
  unfold drawlineStep
  simp only [hw1]
  by_cases hneg : e - dy < 0
  · simp only [if_pos hneg]
    refine ⟨⟨k + 1, by omega, ha1, ?_, hpix'⟩, by simp only [ha1]; omega⟩
    intro hk'
    have hstep : lineTrace dx dy (k + 1)
        = ((lineTrace dx dy k).1 + 1, (lineTrace dx dy k).2 - dy + dx) := by
      rw [he] at hneg
      simp only [lineTrace, if_pos hneg]
    have hsle' := lineTrace_steps_le dx dy hdy (k + 1) hk'
    rw [hstep] at hsle' ⊢
    simp only at hsle' ⊢
    have hw2 : wrap8 (e - dy + dx) = e - dy + dx := wrap8_id _ (by omega) (by omega)
    refine ⟨?_, by rw [hw2, he]⟩
    rw [hm]
    unfold lineY toU8i
    by_cases hlt : ys < ye
    · simp only [if_pos hlt] at hdyv ⊢
      omega
    · simp only [if_neg hlt] at hdyv ⊢
      omega
  · simp only [if_neg hneg]
    refine ⟨⟨k + 1, by omega, ha1, ?_, hpix'⟩, by simp only [ha1]; omega⟩
    intro _
    have hstep : lineTrace dx dy (k + 1)
        = ((lineTrace dx dy k).1, (lineTrace dx dy k).2 - dy) := by
      rw [he] at hneg
      simp only [lineTrace, if_neg hneg]
    rw [hstep]
    exact ⟨hm, by rw [he]⟩

/-- The loop of `LCDdrawline` on sorted in-range endpoints with `dy ≤ dx`: it
returns, having written the colour to the `dx + 1` pixels of `linePoints` and
to no other pixel. -/
theorem drawlineSorted_pixels (fuel : Nat) (buf : Buffer) (steep : Bool)
    (xs ys xe ye color : Nat)
    (hx : xs ≤ xe) (hxe : xe < 84) (hys : ys < 84) (hye : ye < 84)
    (hdy : (if ys < ye then ye - ys else ys - ye) ≤ xe - xs) (hfuel : 84 < fuel) :
    ∃ b, drawlineSorted fuel buf steep xs ys xe ye color = some b ∧
      ∀ px py, px < 84 → py < 48 →
        storedBit b px py =
          if (px, py) ∈ linePoints steep xs ys ye (xe - xs)
              (if ys < ye then ye - ys else ys - ye) (xe - xs + 1)
          then decide (color ≠ 0) else storedBit buf px py := by
  have hdx : toU8i ((xe : Int) - xs) = xe - xs := by unfold toU8i; omega
  have hdyv : toU8i (abs ((ye : Int) - ys)) = (if ys < ye then ye - ys else ys - ye) := by
    unfold toU8i abs
    split_ifs <;> omega
  have herr : wrap8 (((xe - xs) / 2 : Nat) : Int) = (((xe - xs) / 2 : Nat) : Int) :=
    wrap8_id _ (by omega) (by omega)
  obtain ⟨st, hst, hinv, hc⟩ := whileLoop_total
    (fun s : LineState => decide (s.x0 ≤ xe))
    (fun s => some (drawlineStep steep (xe - xs) (if ys < ye then ye - ys else ys - ye)
      (if ys < ye then 1 else -1) color s))
    (lineInv buf steep xs ys ye (xe - xs) (if ys < ye then ye - ys else ys - ye) color)
    (fun s => xe + 1 - s.x0)
    (by
      intro s hinv hc
      simp only [decide_eq_true_eq] at hc
      obtain ⟨h1, h2⟩ := drawlineStep_inv buf steep xs ys xe ye color hx hxe hys hye hdy s hinv hc
      exact ⟨_, rfl, h1, h2⟩)
    fuel { x0 := xs, y0 := ys, err := (((xe - xs) / 2 : Nat) : Int), buf := buf }
    ⟨0, by omega, rfl, fun _ => ⟨by simp [lineY, lineTrace], by simp [lineTrace]⟩,
      fun px py _ _ => by simp [linePoints]⟩
    (by simp only; omega)
  obtain ⟨k, hk1, hka, _, hpix⟩ := hinv
  simp only [decide_eq_false_iff_not] at hc
  have hk : k = xe - xs + 1 := by omega
  subst hk
  refine ⟨st.buf, ?_, hpix⟩
  unfold drawlineSorted
  simp only [hdx, hdyv, herr]
  rw [hst]
  rfl

/-- A list whose image under `f` is a run of consecutive numbers has that many
elements, no duplicates, and `f` stays inside the run. -/
theorem of_map_eq_range' {α : Type} (f : α → Nat) (l : List α) (s n : Nat)
    (h : l.map f = List.range' s n) :
    l.length = n ∧ l.Nodup ∧ ∀ p ∈ l, s ≤ f p ∧ f p < s + n := by
  refine ⟨?_, ?_, ?_⟩
  · have := congrArg List.length h
    simpa using this
  · apply List.Nodup.of_map f
    rw [h]
    exact List.nodup_range' s n
  · intro p hp
    have : f p ∈ l.map f := List.mem_map_of_mem f hp
    rw [h] at this
    exact List.mem_range'_1.mp this

theorem lineY_bounds (ys ye s : Nat) (hs : s ≤ (if ys < ye then ye - ys else ys - ye)) :
    min ys ye ≤ lineY ys ye s ∧ lineY ys ye s ≤ max ys ye := by
  unfold lineY
  by_cases h : ys < ye
  · simp only [if_pos h] at hs ⊢; omega
  · simp only [if_neg h] at hs ⊢; omega

theorem lineY_end (ys ye : Nat) :
    lineY ys ye (if ys < ye then ye - ys else ys - ye) = ye := by
  unfold lineY
  by_cases h : ys < ye
  · simp only [if_pos h]; omega
  · simp only [if_neg h]; omega

theorem lineY_zero (ys ye : Nat) : lineY ys ye 0 = ys := by
  unfold lineY; split_ifs <;> rfl

/-- The pixels of a line that is not steep: consecutive columns from `xs` to `xe`,
rows between the end rows, starting at `(xs, ys)` and ending at `(xe, ye)`. -/
theorem linePoints_flat (xs ys xe ye : Nat) (hx : xs ≤ xe)
    (hdy : (if ys < ye then ye - ys else ys - ye) ≤ xe - xs) :
    (linePoints false xs ys ye (xe - xs) (if ys < ye then ye - ys else ys - ye)
        (xe - xs + 1)).map Prod.fst = List.range' xs (xe - xs + 1) ∧
    (∀ p ∈ linePoints false xs ys ye (xe - xs) (if ys < ye then ye - ys else ys - ye)
        (xe - xs + 1), min ys ye ≤ p.2 ∧ p.2 ≤ max ys ye) ∧
    (xs, ys) ∈ linePoints false xs ys ye (xe - xs) (if ys < ye then ye - ys else ys - ye)
        (xe - xs + 1) ∧
    (xe, ye) ∈ linePoints false xs ys ye (xe - xs) (if ys < ye then ye - ys else ys - ye)
        (xe - xs + 1) := by
  generalize hdyv : (if ys < ye then ye - ys else ys - ye) = dy at *
  refine ⟨?_, ?_, ?_, ?_⟩
  · rw [List.range'_eq_map_range]
    simp only [linePoints, List.map_map]
    apply List.map_congr_left
    intro k _
    simp [linePoint]
  · intro p hp
    simp only [linePoints, List.mem_map, List.mem_range] at hp
    obtain ⟨k, hk, rfl⟩ := hp
    have hs := lineTrace_steps_le (xe - xs) dy hdy k (by omega)
    have hb := lineY_bounds ys ye (lineTrace (xe - xs) dy k).1 (by rw [hdyv]; exact hs)
    simpa [linePoint] using hb
  · simp only [linePoints, List.mem_map, List.mem_range]
    exact ⟨0, by omega, by simp [linePoint, lineTrace_zero, lineY_zero]⟩
  · simp only [linePoints, List.mem_map, List.mem_range]
    refine ⟨xe - xs, by omega, ?_⟩
    have he := lineTrace_steps_end (xe - xs) dy hdy
    simp only [linePoint, he, Bool.false_eq_true, if_false]
    rw [← hdyv, lineY_end]
    congr 1
    omega

/-- The pixels of a steep line: consecutive rows from `xs` to `xe`, columns between
the end columns, starting at `(ys, xs)` and ending at `(ye, xe)`. -/
theorem linePoints_steep (xs ys xe ye : Nat) (hx : xs ≤ xe)
    (hdy : (if ys < ye then ye - ys else ys - ye) ≤ xe - xs) :
    (linePoints true xs ys ye (xe - xs) (if ys < ye then ye - ys else ys - ye)
        (xe - xs + 1)).map Prod.snd = List.range' xs (xe - xs + 1) ∧
    (∀ p ∈ linePoints true xs ys ye (xe - xs) (if ys < ye then ye - ys else ys - ye)
        (xe - xs + 1), min ys ye ≤ p.1 ∧ p.1 ≤ max ys ye) ∧
    (ys, xs) ∈ linePoints true xs ys ye (xe - xs) (if ys < ye then ye - ys else ys - ye)
        (xe - xs + 1) ∧
    (ye, xe) ∈ linePoints true xs ys ye (xe - xs) (if ys < ye then ye - ys else ys - ye)
        (xe - xs + 1) := by
  generalize hdyv : (if ys < ye then ye - ys else ys - ye) = dy at *
  refine ⟨?_, ?_, ?_, ?_⟩
  · rw [List.range'_eq_map_range]
    simp only [linePoints, List.map_map]
    apply List.map_congr_left
    intro k _
    simp [linePoint]
  · intro p hp
    simp only [linePoints, List.mem_map, List.mem_range] at hp
    obtain ⟨k, hk, rfl⟩ := hp
    have hs := lineTrace_steps_le (xe - xs) dy hdy k (by omega)
    have hb := lineY_bounds ys ye (lineTrace (xe - xs) dy k).1 (by rw [hdyv]; exact hs)
    simpa [linePoint] using hb
  · simp only [linePoints, List.mem_map, List.mem_range]
    exact ⟨0, by omega, by simp [linePoint, lineTrace_zero, lineY_zero]⟩
  · simp only [linePoints, List.mem_map, List.mem_range]
    refine ⟨xe - xs, by omega, ?_⟩
    have he := lineTrace_steps_end (xe - xs) dy hdy
    simp only [linePoint, he, if_true]
    rw [← hdyv, lineY_end]
    congr 1
    omega

/-- A line that is not steep, drawn from its left end. -/
theorem lineSpec_flat (fuel : Nat) (buf : Buffer) (x0 y0 x1 y1 color : Nat)
    (hx : x0 ≤ x1) (hx1 : x1 < 84) (hy0 : y0 < 84) (hy1 : y1 < 84)
    (hdy : max y0 y1 - min y0 y1 ≤ x1 - x0) (hfuel : 84 < fuel) :
    ∃ b pts, drawlineSorted fuel buf false x0 y0 x1 y1 color = some b ∧
      LineSpec buf color x0 y0 x1 y1 b pts := by
  have hdy' : (if y0 < y1 then y1 - y0 else y0 - y1) ≤ x1 - x0 := by
    split_ifs <;> omega
  obtain ⟨b, hb, hpix⟩ :=
    drawlineSorted_pixels fuel buf false x0 y0 x1 y1 color hx hx1 hy0 hy1 hdy' hfuel
  obtain ⟨hmap, hminor, hfirst, hlast⟩ := linePoints_flat x0 y0 x1 y1 hx hdy'
  obtain ⟨hlen, hnd, hmajor⟩ := of_map_eq_range' Prod.fst _ _ _ hmap
  have emin : min x0 x1 = x0 := by omega
  have emax : max x0 x1 = x1 := by omega
  refine ⟨b, linePoints false x0 y0 y1 (x1 - x0) (if y0 < y1 then y1 - y0 else y0 - y1)
    (x1 - x0 + 1), hb, ?_⟩
  unfold LineSpec
  rw [emin, emax]
  refine ⟨?_, hnd, ?_, hfirst, hlast, fun _ => hmap, ?_, hpix⟩
  · rw [hlen]; omega
  · intro p hp
    have h1 := hmajor p hp
    have h2 := hminor p hp
    omega
  · intro h; exfalso; omega

/-- A steep line, drawn from its upper end. -/
theorem lineSpec_steep (fuel : Nat) (buf : Buffer) (x0 y0 x1 y1 color : Nat)
    (hy : y0 ≤ y1) (hy1 : y1 < 84) (hx0 : x0 < 84) (hx1 : x1 < 84)
    (hdx : max x0 x1 - min x0 x1 < y1 - y0) (hfuel : 84 < fuel) :
    ∃ b pts, drawlineSorted fuel buf true y0 x0 y1 x1 color = some b ∧
      LineSpec buf color x0 y0 x1 y1 b pts := by
  have hdx' : (if x0 < x1 then x1 - x0 else x0 - x1) ≤ y1 - y0 := by
    split_ifs <;> omega
  obtain ⟨b, hb, hpix⟩ :=
    drawlineSorted_pixels fuel buf true y0 x0 y1 x1 color hy hy1 hx0 hx1 hdx' hfuel
  obtain ⟨hmap, hminor, hfirst, hlast⟩ := linePoints_steep y0 x0 y1 x1 hy hdx'
  obtain ⟨hlen, hnd, hmajor⟩ := of_map_eq_range' Prod.snd _ _ _ hmap
  have emin : min y0 y1 = y0 := by omega
  have emax : max y0 y1 = y1 := by omega
  refine ⟨b, linePoints true y0 x0 x1 (y1 - y0) (if x0 < x1 then x1 - x0 else x0 - x1)
    (y1 - y0 + 1), hb, ?_⟩
  unfold LineSpec
  rw [emin, emax]
  refine ⟨?_, hnd, ?_, hfirst, hlast, ?_, fun _ => hmap, hpix⟩
  · rw [hlen]; omega
  · intro p hp
    have h1 := hmajor p hp
    have h2 := hminor p hp
    omega
  · intro h; exfalso; omega

theorem LineSpec_symm (buf : Buffer) (color x0 y0 x1 y1 : Nat) (b : Buffer)
    (pts : List (Nat × Nat)) (h : LineSpec buf color x1 y1 x0 y0 b pts) :
    LineSpec buf color x0 y0 x1 y1 b pts := by
  unfold LineSpec at h ⊢
  rw [Nat.min_comm x0 x1, Nat.max_comm x0 x1, Nat.min_comm y0 y1, Nat.max_comm y0 y1]
  obtain ⟨h1, h2, h3, h4, h5, h6, h7, h8⟩ := h
  exact ⟨h1, h2, h3, h5, h4, h6, h7, h8⟩

theorem steep_iff (x0 y0 x1 y1 : Nat) :
    abs ((y1 : Int) - y0) > abs ((x1 : Int) - x0)
      ↔ max x0 x1 - min x0 x1 < max y0 y1 - min y0 y1 := by
  unfold abs
  split_ifs <;> omega

/-- The function `LCDdrawline` between in-range endpoints returns and meets `LineSpec`. -/
theorem LCDdrawline_spec (fuel : Nat) (buf : Buffer) (x0 y0 x1 y1 color : Nat)
    (hx0 : x0 < 84) (hy0 : y0 < 48) (hx1 : x1 < 84) (hy1 : y1 < 48) (hfuel : 84 < fuel) :
    ∃ b pts, LCDdrawline fuel buf x0 y0 x1 y1 color = some b ∧
      LineSpec buf color x0 y0 x1 y1 b pts := by
  unfold LCDdrawline
  by_cases hst : abs ((y1 : Int) - y0) > abs ((x1 : Int) - x0)
  · have hst' := (steep_iff x0 y0 x1 y1).mp hst
    simp only [hst, decide_True, if_true]
    by_cases hsw : y0 > y1
    · simp only [if_pos hsw]
      obtain ⟨b, pts, hb, hs⟩ := lineSpec_steep fuel buf x1 y1 x0 y0 color
        (by omega) (by omega) hx1 hx0 (by omega) hfuel
      exact ⟨b, pts, hb, LineSpec_symm _ _ _ _ _ _ _ _ hs⟩
    · simp only [if_neg hsw]
      exact lineSpec_steep fuel buf x0 y0 x1 y1 color
        (by omega) (by omega) hx0 hx1 (by omega) hfuel
  · have hst' : ¬ (max x0 x1 - min x0 x1 < max y0 y1 - min y0 y1) :=
      fun h => hst ((steep_iff x0 y0 x1 y1).mpr h)
    simp only [hst, decide_False, Bool.false_eq_true, if_false]
    by_cases hsw : x0 > x1
    · simp only [if_pos hsw]
      obtain ⟨b, pts, hb, hs⟩ := lineSpec_flat fuel buf x1 y1 x0 y0 color
        (by omega) hx0 (by omega) (by omega) (by omega) hfuel
      exact ⟨b, pts, hb, LineSpec_symm _ _ _ _ _ _ _ _ hs⟩
    · simp only [if_neg hsw]
      exact lineSpec_flat fuel buf x0 y0 x1 y1 color
        (by omega) hx1 (by omega) (by omega) (by omega) hfuel

/-- The function `LCDdrawline` gives the same result from either end, for all arguments and
every fuel. -/
theorem LCDdrawline_comm (fuel : Nat) (buf : Buffer) (x0 y0 x1 y1 color : Nat) :
    LCDdrawline fuel buf x0 y0 x1 y1 color = LCDdrawline fuel buf x1 y1 x0 y0 color := by
  unfold LCDdrawline
  by_cases hst : abs ((y1 : Int) - y0) > abs ((x1 : Int) - x0)
  · have hst2 : abs ((y0 : Int) - y1) > abs ((x0 : Int) - x1) := by
      rw [steep_iff] at hst ⊢
      omega
    simp only [hst, hst2, decide_True, if_true]
    have hne : y0 ≠ y1 := by
      rw [steep_iff] at hst
      omega
    by_cases hsw : y0 > y1
    · have hsw2 : ¬ (y1 > y0) := by omega
      simp only [if_pos hsw, if_neg hsw2]
    · have hsw2 : y1 > y0 := by omega
      simp only [if_neg hsw, if_pos hsw2]
  · have hst2 : ¬ (abs ((y0 : Int) - y1) > abs ((x0 : Int) - x1)) := by
      rw [steep_iff] at hst ⊢
      omega
    simp only [hst, hst2, decide_False, Bool.false_eq_true, if_false]
    rw [steep_iff] at hst
    by_cases hsw : x0 > x1
    · have hsw2 : ¬ (x1 > x0) := by omega
      simp only [if_pos hsw, if_neg hsw2]
    · by_cases heq : x0 = x1
      · have hy : y0 = y1 := by omega
        subst heq hy
        rfl
      · have hsw2 : x1 > x0 := by omega
        simp only [if_neg hsw, if_pos hsw2]

/-! ## Glyphs and text -/

set_option maxRecDepth 100000 in
theorem font_length : font.length = 1280 := by rfl

theorem font_read (k : Nat) (hk : k < 1280) : font[k]? = some (font.getD k 0) := by
  have h : k < font.length := by rw [font_length]; exact hk
  rw [List.getD_eq_getElem?_getD, List.getElem?_eq_getElem h]
  rfl

theorem and_BV_ne_zero (d j : Nat) : (d &&& _BV j ≠ 0) ↔ d.testBit j = true := by
  rw [_BV, Nat.one_shiftLeft, Nat.and_two_pow]
  cases h : d.testBit j
  · simp
  · simp

theorem lnot_ne_zero (v : Nat) : decide (lnot v ≠ 0) = !decide (v ≠ 0) := by
  unfold lnot
  by_cases h : v = 0
  · simp [h]
  · simp [h]

/-- A loop that writes the pixels `(X, y), ..., (X, y+n-1)` of one column, seen
from pixel `(px, py)`. -/
theorem column_loop (step : Buffer → Nat → Buffer) (X y : Nat) (c : Nat → Bool) (px py : Nat)
    (n : Nat)
    (hstep : ∀ j, j < n → ∀ b, storedBit (step b j) px py =
      if X = px ∧ y + j = py then c j else storedBit b px py)
    (b : Buffer) :
    storedBit ((List.range n).foldl step b) px py =
      if X = px ∧ y ≤ py ∧ py < y + n then c (py - y) else storedBit b px py := by
  induction n with
  | zero =>
    have hn : ¬ (X = px ∧ y ≤ py ∧ py < y + 0) := by omega
    simp only [List.range_zero, List.foldl_nil, if_neg hn]
  | succ n ih =>
    rw [List.range_succ, List.foldl_append]
    simp only [List.foldl_cons, List.foldl_nil]
    rw [hstep n (by omega), ih (fun j hj b => hstep j (by omega) b)]
    by_cases h1 : X = px ∧ y + n = py
    · have h2 : X = px ∧ y ≤ py ∧ py < y + (n + 1) := by omega
      have h3 : py - y = n := by omega
      rw [if_pos h1, if_pos h2, h3]
    · rw [if_neg h1]
      by_cases h2 : X = px ∧ y ≤ py ∧ py < y + n
      · have h3 : X = px ∧ y ≤ py ∧ py < y + (n + 1) := by omega
        rw [if_pos h2, if_pos h3]
      · have h3 : ¬ (X = px ∧ y ≤ py ∧ py < y + (n + 1)) := by omega
        rw [if_neg h2, if_neg h3]

/-- One glyph column: the eight pixels of column `x+i`, rows `y..y+7`, take the
foreground colour where the column byte `d` has its bit set and the background
colour elsewhere; no other pixel changes. -/
theorem drawcharColumn_pixels (textcolor x y i d : Nat) (b : Buffer)
    (hx : x + i < 256) (hy : y + 8 ≤ 256) (px py : Nat) (hpx : px < 84) (hpy : py < 48) :
    storedBit (drawcharColumn textcolor x y i d b) px py =
      if x + i = px ∧ y ≤ py ∧ py < y + 8 then (d.testBit (py - y) == decide (textcolor ≠ 0))
      else storedBit b px py := by
  unfold drawcharColumn
  refine column_loop _ (x + i) y (fun j => (d.testBit j == decide (textcolor ≠ 0))) px py 8 ?_ b
  intro j hj b
  have e1 : toU8 (x + i) = x + i := by unfold toU8; omega
  have e2 : toU8 (y + j) = y + j := by unfold toU8; omega
  simp only [e1, e2]
  by_cases hbit : d &&& _BV j ≠ 0
  · have ht := (and_BV_ne_zero d j).mp hbit
    rw [if_pos hbit, storedBit_my_setpixel _ _ _ _ _ _ hpx hpy, ht]
    simp
  · have ht : d.testBit j = false := by
      cases h : d.testBit j
      · rfl
      · exact absurd ((and_BV_ne_zero d j).mpr h) hbit
    rw [if_neg hbit, storedBit_my_setpixel _ _ _ _ _ _ hpx hpy, ht, lnot_ne_zero]
    simp

/-- The spacing column of a glyph: the eight pixels of column `x+5`, rows
`y..y+7`, take the background colour; no other pixel changes. -/
theorem spacing_pixels (textcolor x y : Nat) (b : Buffer)
    (hx : x + 5 < 256) (hy : y + 8 ≤ 256) (px py : Nat) (hpx : px < 84) (hpy : py < 48) :
    storedBit ((List.range 8).foldl
        (fun b j => my_setpixel b (toU8 (x + 5)) (toU8 (y + j)) (lnot textcolor)) b) px py =
      if x + 5 = px ∧ y ≤ py ∧ py < y + 8 then !decide (textcolor ≠ 0)
      else storedBit b px py := by
  refine column_loop _ (x + 5) y (fun _ => !decide (textcolor ≠ 0)) px py 8 ?_ b
  intro j hj b
  have e1 : toU8 (x + 5) = x + 5 := by unfold toU8; omega
  have e2 : toU8 (y + j) = y + j := by unfold toU8; omega
  simp only [e1, e2]
  rw [storedBit_my_setpixel _ _ _ _ _ _ hpx hpy, lnot_ne_zero]

/-- The five glyph columns of character `c < 256`: every font read succeeds and
the pixels of columns `x..x+n-1` follow the font bytes. -/
theorem glyph_columns (textcolor x y c : Nat) (hc : c < 256)
    (hx : x + 5 < 256) (hy : y + 8 ≤ 256) (n : Nat) (hn : n ≤ 5) (b : Buffer) :
    ∃ b', (List.range n).foldlM
        (fun b i => (font[c * 5 + i]?).map (fun d => drawcharColumn textcolor x y i d b)) b
        = some b' ∧
      ∀ px py, px < 84 → py < 48 →
        storedBit b' px py =
          if x ≤ px ∧ px < x + n ∧ y ≤ py ∧ py < y + 8 then
            ((font.getD (c * 5 + (px - x)) 0).testBit (py - y) == decide (textcolor ≠ 0))
          else storedBit b px py := by
  induction n with
  | zero =>
    refine ⟨b, rfl, fun px py _ _ => ?_⟩
    have hn : ¬ (x ≤ px ∧ px < x + 0 ∧ y ≤ py ∧ py < y + 8) := by omega
    rw [if_neg hn]
  | succ n ih =>
    obtain ⟨b1, hb1, hpix1⟩ := ih (by omega)
    refine ⟨drawcharColumn textcolor x y n (font.getD (c * 5 + n) 0) b1, ?_, ?_⟩
    · rw [List.range_succ, List.foldlM_append, hb1]
      simp only [List.foldlM_cons, List.foldlM_nil, Option.some_bind, Option.bind_eq_bind,
        Option.pure_def, Option.bind_some]
      rw [font_read _ (by omega)]
      rfl
    · intro px py hpx hpy
      rw [drawcharColumn_pixels textcolor x y n _ b1 (by omega) hy px py hpx hpy,
        hpix1 px py hpx hpy]
      by_cases h1 : x + n = px ∧ y ≤ py ∧ py < y + 8
      · have h2 : x ≤ px ∧ px < x + (n + 1) ∧ y ≤ py ∧ py < y + 8 := by omega
        have h3 : px - x = n := by omega
        rw [if_pos h1, if_pos h2, h3]
      · rw [if_neg h1]
        by_cases h2 : x ≤ px ∧ px < x + n ∧ y ≤ py ∧ py < y + 8
        · have h3 : x ≤ px ∧ px < x + (n + 1) ∧ y ≤ py ∧ py < y + 8 := by omega
          rw [if_pos h2, if_pos h3]
        · have h3 : ¬ (x ≤ px ∧ px < x + (n + 1) ∧ y ≤ py ∧ py < y + 8) := by omega
          rw [if_neg h2, if_neg h3]

/-- The function `LCDdrawchar` for a byte `c < 256` at a position its guards accept
(`y < 48`, `x + 5 < 84`): it returns, and every in-range pixel is described. -/
theorem LCDdrawchar_pixels (buf : Buffer) (textcolor x y c : Nat) (hc : c < 256)
    (hx : x + 5 < 84) (hy : y < 48) :
    ∃ b, LCDdrawchar buf textcolor x y c = some b ∧
      ∀ px py, px < 84 → py < 48 →
        storedBit b px py =
          if x ≤ px ∧ px < x + 5 ∧ y ≤ py ∧ py < y + 8 then
            ((font.getD (c * 5 + (px - x)) 0).testBit (py - y) == decide (textcolor ≠ 0))
          else if px = x + 5 ∧ y ≤ py ∧ py < y + 8 then !decide (textcolor ≠ 0)
          else storedBit buf px py := by
  obtain ⟨b1, hb1, hpix1⟩ :=
    glyph_columns textcolor x y c hc (by omega) (by omega) 5 (le_refl _) buf
  have hg1 : ¬ (y ≥ LCDHEIGHT) := by unfold LCDHEIGHT; omega
  have hg2 : ¬ (x + 5 ≥ LCDWIDTH) := by unfold LCDWIDTH; omega
  refine ⟨_, by unfold LCDdrawchar; rw [if_neg hg1, if_neg hg2, hb1]; rfl, ?_⟩
  intro px py hpx hpy
  rw [spacing_pixels textcolor x y b1 (by omega) (by omega) px py hpx hpy, hpix1 px py hpx hpy]
  by_cases h1 : x + 5 = px ∧ y ≤ py ∧ py < y + 8
  · have h2 : ¬ (x ≤ px ∧ px < x + 5 ∧ y ≤ py ∧ py < y + 8) := by omega
    have h3 : px = x + 5 ∧ y ≤ py ∧ py < y + 8 := by omega
    rw [if_pos h1, if_neg h2, if_pos h3]
  · have h3 : ¬ (px = x + 5 ∧ y ≤ py ∧ py < y + 8) := by omega
    rw [if_neg h1, if_neg h3]

/-! ## Claims about lines -/

/-- C6: `LCDdrawline` between in-range endpoints returns, and the pixels it
writes form a list `pts` of `max(|x1-x0|,|y1-y0|)+1` distinct pixels inside the
bounding box of the endpoints, containing both endpoints, with exactly one pixel
for each coordinate of the major axis; each of them is on iff the colour is
non-zero and every other pixel is unchanged. For a horizontal line `pts` is
exactly the run of pixels between the endpoints. -/
theorem C6_drawline (fuel : Nat) (buf : Buffer) (x0 y0 x1 y1 color : Nat)
    (hx0 : x0 < 84) (hy0 : y0 < 48) (hx1 : x1 < 84) (hy1 : y1 < 48) (hfuel : 84 < fuel) :
    ∃ (b : Buffer) (pts : List (Nat × Nat)),
      LCDdrawline fuel buf x0 y0 x1 y1 color = some b ∧
      pts.length = max (max x0 x1 - min x0 x1) (max y0 y1 - min y0 y1) + 1 ∧
      pts.Nodup ∧
      (∀ p ∈ pts, min x0 x1 ≤ p.1 ∧ p.1 ≤ max x0 x1 ∧ min y0 y1 ≤ p.2 ∧ p.2 ≤ max y0 y1) ∧
      (x0, y0) ∈ pts ∧ (x1, y1) ∈ pts ∧
      (max y0 y1 - min y0 y1 ≤ max x0 x1 - min x0 x1 →
        pts.map Prod.fst = List.range' (min x0 x1) (max x0 x1 - min x0 x1 + 1)) ∧
      (max x0 x1 - min x0 x1 < max y0 y1 - min y0 y1 →
        pts.map Prod.snd = List.range' (min y0 y1) (max y0 y1 - min y0 y1 + 1)) ∧
      (∀ px py, px < 84 → py < 48 →
        storedBit b px py =
          if (px, py) ∈ pts then decide (color ≠ 0) else storedBit buf px py) ∧
      (y0 = y1 → ∀ px py, (px, py) ∈ pts ↔ (min x0 x1 ≤ px ∧ px ≤ max x0 x1 ∧ py = y0)) := by
  obtain ⟨b, pts, hb, hs⟩ := LCDdrawline_spec fuel buf x0 y0 x1 y1 color hx0 hy0 hx1 hy1 hfuel
  unfold LineSpec at hs
  obtain ⟨h1, h2, h3, h4, h5, h6, h7, h8⟩ := hs
  refine ⟨b, pts, hb, h1, h2, h3, h4, h5, h6, h7, h8, ?_⟩
  intro hy px py
  constructor
  · intro hp
    have hbox := h3 (px, py) hp
    simp only at hbox
    omega
  · rintro ⟨hlo, hhi, rfl⟩
    have hmem : px ∈ pts.map Prod.fst := by
      rw [h6 (by omega)]
      exact List.mem_range'_1.mpr (by omega)
    obtain ⟨p, hp, hpx⟩ := List.mem_map.mp hmem
    have hbox := h3 p hp
    have hp2 : p = (px, py) := by
      apply Prod.ext
      · exact hpx
      · simp only; omega
    rw [← hp2]
    exact hp

theorem C6_drawline_witness :
    (0 < 84 ∧ 0 < 48 ∧ 9 < 84 ∧ 0 < 48 ∧ 84 < 100) ∧
    ∃ b, LCDdrawline 100 zeroBuffer 0 0 9 0 1 = some b ∧
      ∀ px py, px < 84 → py < 48 → (storedBit b px py = true ↔ (px ≤ 9 ∧ py = 0)) := by
  refine ⟨by decide, ?_⟩
  obtain ⟨b, pts, hb, -, -, -, -, -, -, -, hpix, hrow⟩ :=
    C6_drawline 100 zeroBuffer 0 0 9 0 1 (by decide) (by decide) (by decide) (by decide)
      (by decide)
  refine ⟨b, hb, fun px py hpx hpy => ?_⟩
  rw [hpix px py hpx hpy]
  have hiff := hrow rfl px py
  by_cases hm : (px, py) ∈ pts
  · have h := hiff.mp hm
    rw [if_pos hm]
    simp only [ne_eq, one_ne_zero, not_false_eq_true, decide_True, true_iff]
    omega
  · have hn : ¬ (px ≤ 9 ∧ py = 0) := fun h => hm (hiff.mpr (by omega))
    rw [if_neg hm]
    simp only [storedBit, zeroBuffer, Nat.zero_testBit]
    simp [hn]

/-- C7: for in-range endpoints `LCDdrawline` returns the same framebuffer whether
the line is drawn from `(x0, y0)` to `(x1, y1)` or from `(x1, y1)` to `(x0, y0)`. -/
theorem C7_drawline_symmetric (fuel : Nat) (buf : Buffer) (x0 y0 x1 y1 color : Nat)
    (hx0 : x0 < 84) (hy0 : y0 < 48) (hx1 : x1 < 84) (hy1 : y1 < 48) (hfuel : 84 < fuel) :
    ∃ b, LCDdrawline fuel buf x0 y0 x1 y1 color = some b ∧
      LCDdrawline fuel buf x1 y1 x0 y0 color = some b := by
  obtain ⟨b, _, hb, _⟩ := LCDdrawline_spec fuel buf x0 y0 x1 y1 color hx0 hy0 hx1 hy1 hfuel
  exact ⟨b, hb, by rw [← LCDdrawline_comm]; exact hb⟩

theorem C7_drawline_symmetric_witness :
    (0 < 84 ∧ 0 < 48 ∧ 5 < 84 ∧ 5 < 48 ∧ 84 < 100) ∧
    ∃ b, LCDdrawline 100 zeroBuffer 0 0 5 5 1 = some b ∧
      LCDdrawline 100 zeroBuffer 5 5 0 0 1 = some b :=
  ⟨by decide, C7_drawline_symmetric 100 zeroBuffer 0 0 5 5 1 (by decide) (by decide)
    (by decide) (by decide) (by decide)⟩

/-! ## Claims about glyphs and the text cursor -/

set_option maxRecDepth 100000 in
/-- C8 (counterexample): at `(x, y) = (0, 44)` the glyph cell does not fit
(`44 + 8 > 48`), yet `LCDdrawchar` with text colour 1 and character `'A'` changes
the cleared framebuffer: cell 422 (column 2, page 5) becomes 16. -/
theorem C8_drawchar_not_rejected :
    (0 + 6 > 84 ∨ 44 + 8 > 48) ∧ LCDdrawchar zeroBuffer 1 0 44 65 ≠ some zeroBuffer := by
  refine ⟨by decide, fun h => ?_⟩
  have e : (LCDdrawchar zeroBuffer 1 0 44 65).map (fun b => b 422) = some 16 := by rfl
  rw [h] at e
  simp [zeroBuffer] at e

/-- C8 (amended): when `x + 6 > 84` or `y ≥ 48`, `LCDdrawchar` returns the
framebuffer unchanged, for every character and text colour. -/
theorem C8_drawchar_rejected (buf : Buffer) (textcolor x y c : Nat)
    (h : x + 6 > 84 ∨ y ≥ 48) :
    LCDdrawchar buf textcolor x y c = some buf := by
  unfold LCDdrawchar LCDHEIGHT LCDWIDTH
  by_cases hy : y ≥ 48
  · rw [if_pos hy]
  · have hx : x + 5 ≥ 84 := by omega
    rw [if_neg hy, if_pos hx]

theorem C8_drawchar_rejected_witness :
    (79 + 6 > 84 ∨ 0 ≥ 48) ∧ LCDdrawchar zeroBuffer 1 79 0 65 = some zeroBuffer :=
  ⟨by decide, C8_drawchar_rejected zeroBuffer 1 79 0 65 (by decide)⟩

/-- C9: for a byte `c < 256` and a position with `x + 5 < 84`, `y + 8 ≤ 48`,
`LCDdrawchar` returns (every font read lies inside the 1280-byte table); pixel
`(x+i, y+j)` for `i < 5`, `j < 8` is on iff bit `j` of `font[5*c+i]` being set
agrees with the text colour being non-zero, the eight pixels of column `x+5` are
on iff the text colour is 0, and every pixel outside the 6x8 cell is unchanged. -/
theorem C9_drawchar_glyph (buf : Buffer) (textcolor x y c : Nat) (hc : c < 256)
    (hx : x + 5 < 84) (hy : y + 8 ≤ 48) :
    ∃ b, LCDdrawchar buf textcolor x y c = some b ∧
      (∀ i j, i < 5 → j < 8 →
        storedBit b (x + i) (y + j)
          = ((font.getD (5 * c + i) 0).testBit j == decide (textcolor ≠ 0))) ∧
      (∀ j, j < 8 → storedBit b (x + 5) (y + j) = decide (textcolor = 0)) ∧
      font.length = 1280 ∧
      (∀ i, i < 5 → 5 * c + i < font.length) ∧
      (∀ px py, px < 84 → py < 48 → ¬ (x ≤ px ∧ px < x + 6 ∧ y ≤ py ∧ py < y + 8) →
        storedBit b px py = storedBit buf px py) := by
  obtain ⟨b, hb, hpix⟩ := LCDdrawchar_pixels buf textcolor x y c hc hx (by omega)
  refine ⟨b, hb, ?_, ?_, font_length, ?_, ?_⟩
  · intro i j hi hj
    have h1 : x ≤ x + i ∧ x + i < x + 5 ∧ y ≤ y + j ∧ y + j < y + 8 := by omega
    have e1 : x + i - x = i := by omega
    have e2 : y + j - y = j := by omega
    have e3 : c * 5 + i = 5 * c + i := by omega
    rw [hpix (x + i) (y + j) (by omega) (by omega), if_pos h1, e1, e2, e3]
  · intro j hj
    have h1 : ¬ (x ≤ x + 5 ∧ x + 5 < x + 5 ∧ y ≤ y + j ∧ y + j < y + 8) := by omega
    have h2 : x + 5 = x + 5 ∧ y ≤ y + j ∧ y + j < y + 8 := by omega
    rw [hpix (x + 5) (y + j) (by omega) (by omega), if_neg h1, if_pos h2]
    by_cases ht : textcolor = 0
    · simp [ht]
    · simp [ht]
  · intro i hi
    rw [font_length]
    omega
  · intro px py hpx hpy hout
    have h1 : ¬ (x ≤ px ∧ px < x + 5 ∧ y ≤ py ∧ py < y + 8) := by omega
    have h2 : ¬ (px = x + 5 ∧ y ≤ py ∧ py < y + 8) := by omega
    rw [hpix px py hpx hpy, if_neg h1, if_neg h2]

theorem C9_drawchar_glyph_witness :
    (65 < 256 ∧ 0 + 5 < 84 ∧ 0 + 8 ≤ 48) ∧
    ∃ b, LCDdrawchar zeroBuffer 1 0 0 65 = some b ∧
      (∀ i j, i < 5 → j < 8 →
        storedBit b (0 + i) (0 + j)
          = ((font.getD (5 * 65 + i) 0).testBit j == decide (1 ≠ 0))) ∧
      (∀ j, j < 8 → storedBit b (0 + 5) (0 + j) = decide (1 = 0)) ∧
      font.length = 1280 ∧
      (∀ i, i < 5 → 5 * 65 + i < font.length) ∧
      (∀ px py, px < 84 → py < 48 → ¬ (0 ≤ px ∧ px < 0 + 6 ∧ 0 ≤ py ∧ py < 0 + 8) →
        storedBit b px py = storedBit zeroBuffer px py) :=
  ⟨by decide, C9_drawchar_glyph zeroBuffer 1 0 0 65 (by decide) (by decide) (by decide)⟩

/-- The function `LCDdrawchar` returns for every byte `c < 256`, whatever the position. -/
theorem LCDdrawchar_returns (buf : Buffer) (textcolor x y c : Nat) (hc : c < 256) :
    ∃ b, LCDdrawchar buf textcolor x y c = some b := by
  by_cases h : x + 6 > 84 ∨ y ≥ 48
  · refine ⟨buf, ?_⟩
    unfold LCDdrawchar LCDHEIGHT LCDWIDTH
    by_cases hy : y ≥ 48
    · rw [if_pos hy]
    · have hx : x + 5 ≥ 84 := by omega
      rw [if_neg hy, if_pos hx]
  · obtain ⟨b, hb, _⟩ := LCDdrawchar_pixels buf textcolor x y c hc (by omega) (by omega)
    exact ⟨b, hb⟩

/-- C10: `LCDwrite` of a byte `c`. For a newline (10) the cursor becomes
`(0, (y + 8*s) mod 256)` and nothing else changes; for a carriage return (13) nothing
changes; otherwise the glyph is drawn at the cursor by `LCDdrawchar` and the
cursor becomes `x' = (x + 6*s) mod 256`, replaced by `x' = 0`, `y' = (y + 8) mod 256`
when `x' ≥ 84 - 5`, after which `y' ≥ 48` is replaced by 0. -/
theorem C10_write_cursor (lcd : LCD) (c : Nat) (hc : c < 256) :
    (c = 10 → LCDwrite lcd c = some
      { lcd with cursor_x := 0, cursor_y := (lcd.cursor_y + 8 * lcd.textsize) % 256 }) ∧
    (c = 13 → LCDwrite lcd c = some lcd) ∧
    (c ≠ 10 → c ≠ 13 →
      ∃ b, LCDdrawchar lcd.pcd8544_buffer lcd.textcolor lcd.cursor_x lcd.cursor_y c = some b ∧
        LCDwrite lcd c = some
          { lcd with
            pcd8544_buffer := b
            cursor_x :=
              if (lcd.cursor_x + 6 * lcd.textsize) % 256 ≥ 84 - 5 then 0
              else (lcd.cursor_x + 6 * lcd.textsize) % 256
            cursor_y :=
              if (if (lcd.cursor_x + 6 * lcd.textsize) % 256 ≥ 84 - 5
                  then (lcd.cursor_y + 8) % 256 else lcd.cursor_y) ≥ 48 then 0
              else (if (lcd.cursor_x + 6 * lcd.textsize) % 256 ≥ 84 - 5
                  then (lcd.cursor_y + 8) % 256 else lcd.cursor_y) }) := by
  refine ⟨?_, ?_, ?_⟩
  · intro h
    subst h
    have e : lcd.cursor_y + lcd.textsize * 8 = lcd.cursor_y + 8 * lcd.textsize := by omega
    simp only [LCDwrite, if_true, toU8, e]
  · intro h
    subst h
    simp [LCDwrite]
  · intro h10 h13
    obtain ⟨b, hb⟩ :=
      LCDdrawchar_returns lcd.pcd8544_buffer lcd.textcolor lcd.cursor_x lcd.cursor_y c hc
    refine ⟨b, hb, ?_⟩
    have e : lcd.cursor_x + lcd.textsize * 6 = lcd.cursor_x + 6 * lcd.textsize := by omega
    simp only [LCDwrite, if_neg h10, if_neg h13, hb, Option.map_some', toU8, e, LCDWIDTH,
      LCDHEIGHT, decide_eq_true_eq]

theorem C10_write_cursor_witness :
    (65 < 256 ∧ 10 < 256) ∧
    ∃ l1 l2, LCDwrite ⟨zeroBuffer, 0, 0, 1, 1⟩ 65 = some l1 ∧ LCDwrite l1 10 = some l2 ∧
      l1.cursor_x = 6 ∧ l1.cursor_y = 0 ∧ l2.cursor_x = 0 ∧ l2.cursor_y = 8 := by
  refine ⟨by decide, ?_⟩
  obtain ⟨b, _, h1⟩ :=
    (C10_write_cursor ⟨zeroBuffer, 0, 0, 1, 1⟩ 65 (by decide)).2.2 (by decide) (by decide)
  refine ⟨_, _, h1, (C10_write_cursor _ 10 (by decide)).1 rfl, ?_, ?_, ?_, ?_⟩ <;> simp

/-! ## Claims about the text cursor at the bottom edge -/

/-- C11 (evaluation at the failing input): with the cursor at (0,40) and text
size 1, `LCDwrite` of a newline (10) leaves the cursor at (0,48), which is not
below 48, and the character written next (65) is dropped: `LCDdrawchar` at that
cursor returns the framebuffer unchanged. -/
theorem C11_newline_leaves_screen :
    ∃ l, LCDwrite ⟨zeroBuffer, 0, 40, 1, 1⟩ 10 = some l ∧
      l.cursor_x = 0 ∧ l.cursor_y = 48 ∧ ¬ (l.cursor_y < 48) ∧
      LCDdrawchar l.pcd8544_buffer l.textcolor l.cursor_x l.cursor_y 65
        = some l.pcd8544_buffer := by
  refine ⟨{ pcd8544_buffer := zeroBuffer, cursor_x := 0, cursor_y := 48, textsize := 1,
            textcolor := 1 }, ?_, rfl, rfl, by decide, ?_⟩
  · simp [LCDwrite, toU8]
  · simp [LCDdrawchar, LCDHEIGHT]

/-! ## Divergence -/

/-- A loop whose condition holds on every state its body can reach uses up any
fuel. -/
theorem whileLoop_diverges {σ : Type} (cond : σ → Bool) (body : σ → Option σ)
    (inv : σ → Prop)
    (hstep : ∀ s, inv s → cond s = true ∧ ∀ s', body s = some s' → inv s') :
    ∀ (fuel : Nat) (s : σ), inv s → whileLoop cond body fuel s = none := by
  intro fuel
  induction fuel with
  | zero => intro s _; rfl
  | succ fuel ih =>
    intro s hinv
    obtain ⟨hc, hb⟩ := hstep s hinv
    simp only [whileLoop, if_pos hc]
    cases hbs : body s with
    | none => rfl
    | some s' => exact ih s' (hb s' hbs)

theorem toU8_le (v : Nat) : toU8 v ≤ 255 := by
  unfold toU8; omega

/-- C20 (evaluation at failing inputs): `LCDdrawline(0,0,255,0,color)` and
`LCDfillrect(200,0,100,1,color)` do not return, whatever the fuel: the 8-bit
counters `x0` and `i` can never exceed the bounds 255 and 300. -/
theorem C20_loops_do_not_end (fuel : Nat) (buf : Buffer) (color : Nat) :
    LCDdrawline fuel buf 0 0 255 0 color = none ∧
    LCDfillrect fuel buf 200 0 100 1 color = none := by
  constructor
  · have hst : ¬ (abs (((0 : Nat) : Int) - (0 : Nat)) > abs (((255 : Nat) : Int) - (0 : Nat))) := by
      unfold abs; simp
    unfold LCDdrawline
    simp only [hst, decide_False, Bool.false_eq_true, if_false]
    have hsw : ¬ ((0 : Nat) > 255) := by decide
    simp only [if_neg hsw]
    unfold drawlineSorted
    simp only []
    rw [whileLoop_diverges _ _ (fun s : LineState => s.x0 ≤ 255) ?_ fuel _ (by simp)]
    · rfl
    · intro s hs
      refine ⟨by simpa using hs, ?_⟩
      intro s' hs'
      simp only [Option.some.injEq] at hs'
      subst hs'
      unfold drawlineStep
      simp only []
      split_ifs <;> exact toU8_le _
  · unfold LCDfillrect
    rw [whileLoop_diverges _ _ (fun s : Nat × Buffer => s.1 ≤ 255) ?_ fuel _ (by simp)]
    · rfl
    · rintro ⟨i, b⟩ hs
      simp only at hs
      refine ⟨by simp only [decide_eq_true_eq]; omega, ?_⟩
      intro s' hs'
      simp only [Option.map_eq_some'] at hs'
      obtain ⟨t, _, rfl⟩ := hs'
      exact toU8_le _

/-! ## Logo -/

set_option maxRecDepth 100000 in
theorem pi_logo_length : pi_logo.length = 496 := by rfl

/-- A fold in `Option` over `0..n-1` fails when its step fails at some `k < n`. -/
theorem foldlM_range_none {β : Type} (f : β → Nat → Option β) (k : Nat)
    (hk : ∀ b, f b k = none) :
    ∀ (n : Nat), k < n → ∀ b, (List.range n).foldlM f b = none := by
  intro n
  induction n with
  | zero => intro h; exact absurd h (Nat.not_lt_zero _)
  | succ n ih =>
    intro hlt b
    rw [List.range_succ, List.foldlM_append]
    by_cases hkn : k = n
    · subst hkn
      cases h : (List.range k).foldlM f b with
      | none => rfl
      | some b' => simp [hk]
    · rw [ih (by omega) b]
      rfl

/-- C19 (evaluation): the table `pi_logo` has 496 entries, so the copy loop of
`LCDshowLogo`, which reads `pi_logo[i]` for every `i < 504`, reads outside the
table (first at index 496) and the function has no defined result. -/
theorem C19_logo_too_short (enablePartialUpdate : Bool) (hdr : Header) (fuel : Nat)
    (buf : Buffer) (d : Dirty) :
    pi_logo.length = 496 ∧ pi_logo[496]? = none ∧
    LCDWIDTH * LCDHEIGHT / 8 = 504 ∧
    LCDshowLogo enablePartialUpdate hdr fuel buf d = none := by
  have h496 : pi_logo[496]? = none := by
    rw [List.getElem?_eq_none]
    rw [pi_logo_length]
  refine ⟨pi_logo_length, h496, by decide, ?_⟩
  unfold LCDshowLogo
  rw [foldlM_range_none _ 496 (fun b => by rw [h496]; rfl) _ (by decide) buf]
  rfl

/-! ## Serial transport and controller protocol -/

theorem or_byte (a b : Nat) (ha : a < 256) (hb : b < 256) : toU8 (a ||| b) = a ||| b := by
  have h : a ||| b < 2 ^ 8 := Nat.or_lt_two_pow (by simpa using ha) (by simpa using hb)
  unfold toU8
  exact Nat.mod_eq_of_lt (by simpa using h)

theorem toU8_byte (a : Nat) (ha : a < 256) : toU8 a = a := Nat.mod_eq_of_lt ha

/-- The level `!!(val & (1 << k))` written to the data line is bit `k` of `val`. -/
theorem data_level (val k : Nat) : lnot (lnot (val &&& (1 <<< k))) = val / 2 ^ k % 2 := by
  rw [Nat.one_shiftLeft, Nat.and_two_pow, ← Nat.toNat_testBit]
  unfold lnot
  cases val.testBit k
  · simp
  · simp

/-- C17: for header constants that are bytes and every level `v`, `LCDsetContrast`
makes exactly the three `LCDcommand` calls `FUNCTIONSET|EXTENDEDINSTRUCTION`,
`SETVOP|min(v,0x7F)`, `FUNCTIONSET`, and the third of the five commands of
`LCDInit` for contrast `v` is the same byte `SETVOP|min(v,0x7F)`. -/
theorem C17_contrast_clamp (enablePartialUpdate : Bool) (hdr : Header) (lcd : LCD)
    (d : Dirty) (SCLK DIN DC CS RST v : Nat) (hb : hdr.isBytes) :
    LCDsetContrast hdr v =
      [ Call.command (hdr.PCD8544_FUNCTIONSET ||| hdr.PCD8544_EXTENDEDINSTRUCTION),
        Call.command (hdr.PCD8544_SETVOP ||| min v 0x7F),
        Call.command hdr.PCD8544_FUNCTIONSET ] ∧
    commandBytes (LCDInit enablePartialUpdate hdr lcd d SCLK DIN DC CS RST v).2.2.2 =
      [ hdr.PCD8544_FUNCTIONSET ||| hdr.PCD8544_EXTENDEDINSTRUCTION,
        hdr.PCD8544_SETBIAS ||| 0x4,
        hdr.PCD8544_SETVOP ||| min v 0x7F,
        hdr.PCD8544_FUNCTIONSET,
        hdr.PCD8544_DISPLAYCONTROL ||| hdr.PCD8544_DISPLAYNORMAL ] := by
  obtain ⟨h1, h2, h3, h4, h5, h6, _, _⟩ := hb
  have hclamp : (if v > 0x7f then 0x7f else v) = min v 0x7F := by
    split_ifs <;> omega
  have hm : min v 0x7F < 256 := by omega
  have e1 := or_byte _ _ h1 h2
  have e2 := or_byte _ _ h6 hm
  have e3 := toU8_byte _ h1
  have e4 := or_byte _ _ h5 (show 0x4 < 256 by norm_num)
  have e5 := or_byte _ _ h3 h4
  constructor
  · simp only [LCDsetContrast, hclamp, e1, e2, e3]
  · simp only [LCDInit, hclamp, e1, e2, e3, e4, e5, commandBytes]
    split_ifs <;> rfl

theorem C17_contrast_clamp_witness :
    (Header.isBytes ⟨1, 0x20, 0x01, 0x08, 0x04, 0x10, 0x80, 0x40, 0x80⟩) ∧
    LCDsetContrast ⟨1, 0x20, 0x01, 0x08, 0x04, 0x10, 0x80, 0x40, 0x80⟩ 200 =
      [Call.command 0x21, Call.command 0xFF, Call.command 0x20] ∧
    (commandBytes (LCDInit false ⟨1, 0x20, 0x01, 0x08, 0x04, 0x10, 0x80, 0x40, 0x80⟩
        ⟨zeroBuffer, 0, 0, 1, 1⟩ emptyDirty 0 1 2 3 4 200).2.2.2)[2]? = some (0x80 ||| 0x7F) := by
  have hb : Header.isBytes ⟨1, 0x20, 0x01, 0x08, 0x04, 0x10, 0x80, 0x40, 0x80⟩ := by
    unfold Header.isBytes; decide
  have h := C17_contrast_clamp false ⟨1, 0x20, 0x01, 0x08, 0x04, 0x10, 0x80, 0x40, 0x80⟩
    ⟨zeroBuffer, 0, 0, 1, 1⟩ emptyDirty 0 1 2 3 4 200 hb
  refine ⟨hb, ?_, ?_⟩
  · rw [h.1]; rfl
  · rw [h.2]; rfl

/-- The trace of `LCDspiwrite` for valid pin numbers: chip-select low, the eight
bit periods most significant bit first, chip-select high. -/
theorem LCDspiwrite_trace (io : Pins) (c : Nat)
    (hdin : 0 ≤ io._din ∧ io._din < 128) (hsclk : 0 ≤ io._sclk ∧ io._sclk < 128) :
    LCDspiwrite io c =
      [Event.digitalWrite io._cs LOW]
      ++ (List.range 8).flatMap (fun i =>
          [ Event.digitalWrite io._din (c / 2 ^ (7 - i) % 2),
            Event.digitalWrite io._sclk HIGH,
            Event.digitalWrite io._sclk LOW ])
      ++ [Event.digitalWrite io._cs HIGH] := by
  have e1 : ((toU8i io._din : Nat) : Int) = io._din := by unfold toU8i; omega
  have e2 : ((toU8i io._sclk : Nat) : Int) = io._sclk := by unfold toU8i; omega
  have hne : ¬ (MSBFIRST = LSBFIRST) := by decide
  unfold LCDspiwrite shiftOut
  simp only [if_neg hne, e1, e2, data_level]

/-- The samples of one byte transfer, for pairwise distinct line pins. -/
theorem samples_of_byte (din sclk cs dc : Int) (first : Nat) (c : Nat)
    (h1 : din ≠ sclk) (h2 : dc ≠ sclk) (h3 : dc ≠ din) (h4 : cs ≠ sclk) (h5 : cs ≠ din) :
    risingEdgeSamples din sclk
      ([Event.digitalWrite dc first, Event.digitalWrite cs LOW]
        ++ (List.range 8).flatMap (fun i =>
          [ Event.digitalWrite din (c / 2 ^ (7 - i) % 2),
            Event.digitalWrite sclk HIGH,
            Event.digitalWrite sclk LOW ])
        ++ [Event.digitalWrite cs HIGH])
      = (List.range 8).map (fun i => c / 2 ^ (7 - i) % 2) := by
  have hr : List.range 8 = [0, 1, 2, 3, 4, 5, 6, 7] := by decide
  simp [risingEdgeSamples, hr, h1, h2, h3, h4, h5, HIGH, LOW]

theorem ofBitsMSB_byte (c : Nat) (hc : c < 256) :
    ofBitsMSB ((List.range 8).map (fun i => c / 2 ^ (7 - i) % 2)) = c := by
  have hr : List.range 8 = [0, 1, 2, 3, 4, 5, 6, 7] := by decide
  simp only [ofBitsMSB, hr, List.map_cons, List.map_nil, List.foldl_cons, List.foldl_nil]
  norm_num
  omega

/-- C18: for valid pin numbers `LCDcommand(c)` writes mode line low, chip-select
low, then for `i = 0..7` the data line with bit `7-i` of `c`, clock high, clock
low, and finally chip-select high; `LCDdata(c)` does the same with the mode line
high first. When the four line pins are pairwise distinct and `c` is a byte, the
data line sampled at the eight rising clock edges, most significant bit first,
gives back `c`. -/
theorem C18_wire_trace (io : Pins) (c : Nat)
    (hdin : 0 ≤ io._din ∧ io._din < 128) (hsclk : 0 ≤ io._sclk ∧ io._sclk < 128) :
    LCDcommand io c =
      [Event.digitalWrite io._dc LOW, Event.digitalWrite io._cs LOW]
      ++ (List.range 8).flatMap (fun i =>
          [ Event.digitalWrite io._din (c / 2 ^ (7 - i) % 2),
            Event.digitalWrite io._sclk HIGH,
            Event.digitalWrite io._sclk LOW ])
      ++ [Event.digitalWrite io._cs HIGH] ∧
    LCDdata io c =
      [Event.digitalWrite io._dc HIGH, Event.digitalWrite io._cs LOW]
      ++ (List.range 8).flatMap (fun i =>
          [ Event.digitalWrite io._din (c / 2 ^ (7 - i) % 2),
            Event.digitalWrite io._sclk HIGH,
            Event.digitalWrite io._sclk LOW ])
      ++ [Event.digitalWrite io._cs HIGH] ∧
    (c < 256 → io._din ≠ io._sclk → io._dc ≠ io._sclk → io._dc ≠ io._din →
      io._cs ≠ io._sclk → io._cs ≠ io._din →
      ofBitsMSB (risingEdgeSamples io._din io._sclk (LCDcommand io c)) = c ∧
      ofBitsMSB (risingEdgeSamples io._din io._sclk (LCDdata io c)) = c) := by
  have hc : LCDcommand io c =
      [Event.digitalWrite io._dc LOW, Event.digitalWrite io._cs LOW]
      ++ (List.range 8).flatMap (fun i =>
          [ Event.digitalWrite io._din (c / 2 ^ (7 - i) % 2),
            Event.digitalWrite io._sclk HIGH,
            Event.digitalWrite io._sclk LOW ])
      ++ [Event.digitalWrite io._cs HIGH] := by
    unfold LCDcommand
    rw [LCDspiwrite_trace io c hdin hsclk]
    simp only [List.cons_append, List.nil_append, List.append_assoc]
  have hd : LCDdata io c =
      [Event.digitalWrite io._dc HIGH, Event.digitalWrite io._cs LOW]
      ++ (List.range 8).flatMap (fun i =>
          [ Event.digitalWrite io._din (c / 2 ^ (7 - i) % 2),
            Event.digitalWrite io._sclk HIGH,
            Event.digitalWrite io._sclk LOW ])
      ++ [Event.digitalWrite io._cs HIGH] := by
    unfold LCDdata
    rw [LCDspiwrite_trace io c hdin hsclk]
    simp only [List.cons_append, List.nil_append, List.append_assoc]
  refine ⟨hc, hd, ?_⟩
  intro hbyte h1 h2 h3 h4 h5
  rw [hc, hd, samples_of_byte _ _ _ _ _ _ h1 h2 h3 h4 h5,
    samples_of_byte _ _ _ _ _ _ h1 h2 h3 h4 h5]
  exact ⟨ofBitsMSB_byte c hbyte, ofBitsMSB_byte c hbyte⟩

theorem C18_wire_trace_witness :
    ((0 : Int) ≤ 1 ∧ (1 : Int) < 128) ∧ ((0 : Int) ≤ 0 ∧ (0 : Int) < 128) ∧
    ofBitsMSB (risingEdgeSamples 1 0 (LCDcommand ⟨1, 0, 2, 4, 3⟩ 0xA5)) = 0xA5 ∧
    ofBitsMSB (risingEdgeSamples 1 0 (LCDdata ⟨1, 0, 2, 4, 3⟩ 0xA5)) = 0xA5 := by
  have h := (C18_wire_trace ⟨1, 0, 2, 4, 3⟩ 0xA5 (by decide) (by decide)).2.2
    (by decide) (by decide) (by decide) (by decide) (by decide) (by decide)
  exact ⟨by decide, by decide, h⟩

/-! ## Flush -/

/-- The column loop of `LCDdisplay` on columns `col..maxcol` of page `p`, all of
whose cells lie inside the buffer: one `LCDdata` call per column, in order. -/
theorem displayColumns_run (fuel : Nat) (buf : Buffer) (p col maxcol : Nat)
    (hcol : col ≤ maxcol + 1) (hmax : maxcol < 255) (hin : 84 * p + maxcol < 504)
    (hfuel : maxcol + 1 - col < fuel) :
    displayColumns fuel buf p col maxcol =
      some ((List.range' col (maxcol + 1 - col)).map (fun c => Call.data (buf (84 * p + c)))) := by
  obtain ⟨s, hs, ⟨hlo, hhi, htr⟩, hc⟩ := whileLoop_total
    (fun s : Nat × List Call => decide (s.1 ≤ maxcol))
    (fun s =>
      if LCDWIDTH * p + s.1 < LCDWIDTH * LCDHEIGHT / 8 then
        some (toU8 (s.1 + 1), s.2 ++ [Call.data (buf (LCDWIDTH * p + s.1))])
      else none)
    (fun s => col ≤ s.1 ∧ s.1 ≤ maxcol + 1 ∧
      s.2 = (List.range' col (s.1 - col)).map (fun c => Call.data (buf (84 * p + c))))
    (fun s => maxcol + 1 - s.1)
    (by
      rintro ⟨k, tr⟩ ⟨hlo, hhi, htr⟩ hc
      simp only [decide_eq_true_eq] at hc
      simp only at hlo hhi htr hc
      have hk : toU8 (k + 1) = k + 1 := by unfold toU8; omega
      have hb : LCDWIDTH * p + k < LCDWIDTH * LCDHEIGHT / 8 := by
        unfold LCDWIDTH LCDHEIGHT; omega
      refine ⟨(k + 1, tr ++ [Call.data (buf (LCDWIDTH * p + k))]), ?_, ⟨?_, ?_, ?_⟩, ?_⟩
      · simp only [if_pos hb, hk]
      · simp only; omega
      · simp only; omega
      · simp only
        have e : k + 1 - col = (k - col) + 1 := by omega
        have e2 : col + (k - col) = k := by omega
        rw [htr, e, List.range'_concat, List.map_append]
        simp [LCDWIDTH, e2]
      · simp only; omega)
    fuel (col, [])
    ⟨le_refl _, hcol, by simp⟩
    (by simpa using hfuel)
  obtain ⟨k, tr⟩ := s
  simp only [decide_eq_false_iff_not] at hc hlo hhi htr
  have hk : k = maxcol + 1 := by omega
  subst hk
  unfold displayColumns
  rw [hs, htr]
  rfl

theorem dataBytes_append (a b : List Call) : dataBytes (a ++ b) = dataBytes a ++ dataBytes b := by
  simp [dataBytes, List.filterMap_append]

theorem dataBytes_map_data (l : List Nat) : dataBytes (l.map Call.data) = l := by
  induction l with
  | nil => rfl
  | cons a l ih =>
    simp only [List.map_cons, dataBytes, List.filterMap_cons] at ih ⊢
    rw [ih]

set_option maxRecDepth 100000 in
theorem page_indices :
    (List.range 6).flatMap (fun p => (List.range 84).map (fun c => 84 * p + c))
      = List.range 504 := by decide

/-- The cells of the six pages, page by page and column by column, are the cells
`0..503` in index order. -/
theorem page_cells (buf : Buffer) :
    (List.range 6).flatMap (fun p => (List.range 84).map (fun c => buf (84 * p + c)))
      = (List.range 504).map buf := by
  rw [← page_indices, List.map_flatMap]
  simp only [List.map_map]
  rfl

/-- The calls of a full flush of `buf`. -/
theorem displayPages_full (hdr : Header) (fuel : Nat) (buf : Buffer) (d : Dirty)
    (hfuel : 84 < fuel) :
    displayPages false hdr fuel buf d 6 0 =
      some ((List.range 6).flatMap (fun p =>
        [ Call.command (toU8 (hdr.PCD8544_SETYADDR ||| p)),
          Call.command (toU8 (hdr.PCD8544_SETXADDR ||| 0)) ]
        ++ (List.range 84).map (fun c => Call.data (buf (84 * p + c))))) := by
  have hcols : ∀ p, p < 6 → displayColumns fuel buf p 0 (LCDWIDTH - 1) =
      some ((List.range 84).map (fun c => Call.data (buf (84 * p + c)))) := by
    intro p hp
    have h := displayColumns_run fuel buf p 0 83 (by omega) (by omega) (by omega) (by omega)
    rw [List.range_eq_range']
    exact h
  have hr : List.range 6 = [0, 1, 2, 3, 4, 5] := by decide
  simp only [displayPages, Bool.false_eq_true, false_and, if_false, hcols 0 (by omega),
    hcols 1 (by omega), hcols 2 (by omega), hcols 3 (by omega), hcols 4 (by omega),
    hcols 5 (by omega), Option.some_bind, Option.map_some', hr, List.flatMap_cons,
    List.flatMap_nil, List.append_nil, List.append_assoc, zero_add, Nat.reduceAdd]

/-- With partial updates, once the dirty rows end above page `p` no further page
is sent. -/
theorem displayPages_below (hdr : Header) (fuel : Nat) (buf : Buffer) (d : Dirty) :
    ∀ (n p : Nat), d.yUpdateMax < p * 8 → displayPages true hdr fuel buf d n p = some [] := by
  intro n
  induction n with
  | zero => intro p _; rfl
  | succ n ih =>
    intro p h
    by_cases hs : d.yUpdateMin ≥ (p + 1) * 8
    · simp only [displayPages, hs, and_self, if_true]
      exact ih (p + 1) (by omega)
    · simp only [displayPages, hs, and_false, if_false, h, and_self, if_true]

/-- With partial updates, the pages above the dirty rows are skipped. -/
theorem displayPages_above (hdr : Header) (fuel : Nat) (buf : Buffer) (d : Dirty) (q : Nat)
    (hq : d.yUpdateMin ≥ q * 8) :
    ∀ (k n p : Nat), p + k = q →
      displayPages true hdr fuel buf d (n + k) p = displayPages true hdr fuel buf d n q := by
  intro k
  induction k with
  | zero => intro n p h; simp only [Nat.add_zero] at h ⊢; rw [h]
  | succ k ih =>
    intro n p h
    have hs : d.yUpdateMin ≥ (p + 1) * 8 := by
      have : (p + 1) * 8 ≤ q * 8 := Nat.mul_le_mul_right 8 (by omega)
      omega
    have e : n + (k + 1) = (n + k) + 1 := by omega
    rw [e]
    simp only [displayPages, hs, and_self, if_true]
    exact ih n (p + 1) (by omega)

/-- With partial updates and a dirty rectangle that is the single pixel `(x, y)`,
the page loop addresses page `y/8`, column `x`, and sends that one cell. -/
theorem displayPages_pixel (hdr : Header) (fuel : Nat) (buf : Buffer) (x y : Nat)
    (hx : x < 84) (hy : y < 48) (hfuel : 1 < fuel) :
    displayPages true hdr fuel buf ⟨x, x, y, y⟩ 6 0 =
      some [ Call.command (toU8 (hdr.PCD8544_SETYADDR ||| (y / 8))),
             Call.command (toU8 (hdr.PCD8544_SETXADDR ||| x)),
             Call.data (buf (84 * (y / 8) + x)) ] := by
  have h6 : 6 = (5 - y / 8 + 1) + y / 8 := by omega
  have hab := displayPages_above hdr fuel buf ⟨x, x, y, y⟩ (y / 8)
    (by simp only; omega) (y / 8) (5 - y / 8 + 1) 0 (by omega)
  rw [← h6] at hab
  rw [hab]
  have hs : ¬ (y ≥ (y / 8 + 1) * 8) := by omega
  have hb : ¬ (y < y / 8 * 8) := by omega
  have hcols := displayColumns_run fuel buf (y / 8) x x (by omega) (by omega) (by omega)
    (by omega)
  have e1 : x + 1 - x = 1 := by omega
  rw [e1] at hcols
  have hrest := displayPages_below hdr fuel buf ⟨x, x, y, y⟩ (5 - y / 8) (y / 8 + 1)
    (by simp only; omega)
  simp only [displayPages, hs, hb, and_false, if_false, if_true, hcols, hrest,
    Option.some_bind, Option.map_some', List.range'_one, List.map_cons, List.map_nil,
    List.append_nil, List.cons_append, List.nil_append]

theorem LCDdisplay_dirty_reset (hdr : Header) (fuel : Nat) (buf : Buffer) (d : Dirty)
    (calls : List Call) (d' : Dirty) (h : LCDdisplay true hdr fuel buf d = some (calls, d')) :
    d' = emptyDirty := by
  unfold LCDdisplay at h
  simp only [Option.map_eq_some', Prod.mk.injEq, if_true] at h
  obtain ⟨_, _, _, h2⟩ := h
  rw [← h2]
  rfl

theorem LCDdisplay_empty (hdr : Header) (fuel : Nat) (buf : Buffer) :
    LCDdisplay true hdr fuel buf emptyDirty
      = some ([Call.command (toU8 hdr.PCD8544_SETYADDR)], emptyDirty) := by
  have hab := displayPages_above hdr fuel buf emptyDirty 5 (by decide) 5 1 0 (by omega)
  have hb : displayPages true hdr fuel buf emptyDirty 1 5 = some [] := by
    simp [displayPages, emptyDirty]
  have h6 : 1 + 5 = 6 := rfl
  rw [h6, hb] at hab
  unfold LCDdisplay
  rw [hab]
  rfl

theorem setPixelTracked_fst (enablePartialUpdate : Bool) (buf : Buffer) (d : Dirty)
    (x y color : Nat) :
    (LCDsetPixelTracked enablePartialUpdate buf d x y color).1 = LCDsetPixel buf x y color := by
  unfold LCDsetPixelTracked LCDsetPixel
  split_ifs <;> rfl

theorem setPixelTracked_snd_empty (buf : Buffer) (x y color : Nat)
    (hx : x < 84) (hy : y < 48) :
    (LCDsetPixelTracked true buf emptyDirty x y color).2 = ⟨x, x, y, y⟩ := by
  have hr : ¬ (x ≥ LCDWIDTH ∨ y ≥ LCDHEIGHT) := by unfold LCDWIDTH LCDHEIGHT; omega
  have hd : updateBoundingBox true emptyDirty x y x y = ⟨x, x, y, y⟩ := by
    unfold updateBoundingBox emptyDirty
    simp only [if_true, Dirty.mk.injEq]
    refine ⟨?_, ?_, ?_, ?_⟩ <;> split_ifs <;> omega
  unfold LCDsetPixelTracked
  rw [if_neg hr]
  split_ifs <;> exact hd

/-! ## Claims about the flush -/

/-- C13: in the build without partial updates, for header constants that are
bytes, `LCDdisplay` returns; its calls are, for `p = 0..5` in order, command
`SETYADDR|p`, command `SETXADDR|0` and the 84 data bytes `buf[84*p + 0..83]`,
followed by one command `SETYADDR`; the data bytes are the 504 cells in index
order; the dirty state is passed on unchanged, and a second flush makes the same
calls. -/
theorem C13_full_flush (hdr : Header) (fuel : Nat) (buf : Buffer) (d : Dirty)
    (hb : hdr.isBytes) (hfuel : 84 < fuel) :
    ∃ calls, LCDdisplay false hdr fuel buf d = some (calls, d) ∧
      calls =
        (List.range 6).flatMap (fun p =>
          [ Call.command (hdr.PCD8544_SETYADDR ||| p),
            Call.command (hdr.PCD8544_SETXADDR ||| 0) ]
          ++ (List.range 84).map (fun c => Call.data (buf (84 * p + c))))
        ++ [Call.command hdr.PCD8544_SETYADDR] ∧
      dataBytes calls = (List.range 504).map buf ∧
      (dataBytes calls).length = 504 ∧
      ∀ r, LCDdisplay false hdr fuel buf d = some r →
        LCDdisplay false hdr fuel buf r.2 = some (calls, d) := by
  obtain ⟨_, _, _, _, _, _, hY, hX⟩ := hb
  have hpages := displayPages_full hdr fuel buf d hfuel
  have hr : List.range 6 = [0, 1, 2, 3, 4, 5] := by decide
  have e0 := or_byte _ 0 hY (by norm_num)
  have e1 := or_byte _ 1 hY (by norm_num)
  have e2 := or_byte _ 2 hY (by norm_num)
  have e3 := or_byte _ 3 hY (by norm_num)
  have e4 := or_byte _ 4 hY (by norm_num)
  have e5 := or_byte _ 5 hY (by norm_num)
  have ex := or_byte _ 0 hX (by norm_num)
  have ey := toU8_byte _ hY
  have hdisp : LCDdisplay false hdr fuel buf d = some
      ((List.range 6).flatMap (fun p =>
          [ Call.command (hdr.PCD8544_SETYADDR ||| p),
            Call.command (hdr.PCD8544_SETXADDR ||| 0) ]
          ++ (List.range 84).map (fun c => Call.data (buf (84 * p + c))))
        ++ [Call.command hdr.PCD8544_SETYADDR], d) := by
    unfold LCDdisplay
    rw [hpages]
    simp only [hr, List.flatMap_cons, List.flatMap_nil, e0, e1, e2, e3, e4, e5, ex, ey,
      Option.map_some', Bool.false_eq_true, if_false]
  have hdata : dataBytes
      ((List.range 6).flatMap (fun p =>
          [ Call.command (hdr.PCD8544_SETYADDR ||| p),
            Call.command (hdr.PCD8544_SETXADDR ||| 0) ]
          ++ (List.range 84).map (fun c => Call.data (buf (84 * p + c))))
        ++ [Call.command hdr.PCD8544_SETYADDR]) = (List.range 504).map buf := by
    rw [← page_cells buf]
    have hm : ∀ p, (List.range 84).map (fun c => Call.data (buf (84 * p + c)))
        = ((List.range 84).map (fun c => buf (84 * p + c))).map Call.data := by
      intro p; rw [List.map_map]; rfl
    have hc : ∀ a b : Nat, dataBytes [Call.command a, Call.command b] = [] := fun _ _ => rfl
    have hc1 : ∀ a : Nat, dataBytes [Call.command a] = [] := fun _ => rfl
    simp only [hr, List.flatMap_cons, List.flatMap_nil, dataBytes_append, hm,
      dataBytes_map_data, hc, hc1, List.nil_append, List.append_nil]
  refine ⟨_, hdisp, rfl, hdata, ?_, ?_⟩
  · rw [hdata]; simp
  · intro r hr'
    rw [hdisp] at hr'
    simp only [Option.some.injEq] at hr'
    rw [← hr']
    exact hdisp

theorem C13_full_flush_witness :
    (Header.isBytes ⟨1, 0x20, 0x01, 0x08, 0x04, 0x10, 0x80, 0x40, 0x80⟩ ∧ 84 < 100) ∧
    ∃ calls, LCDdisplay false ⟨1, 0x20, 0x01, 0x08, 0x04, 0x10, 0x80, 0x40, 0x80⟩ 100
        zeroBuffer emptyDirty = some (calls, emptyDirty) ∧
      dataBytes calls = (List.range 504).map zeroBuffer := by
  have hb : Header.isBytes ⟨1, 0x20, 0x01, 0x08, 0x04, 0x10, 0x80, 0x40, 0x80⟩ := by
    unfold Header.isBytes; decide
  obtain ⟨calls, h1, _, h3, _⟩ :=
    C13_full_flush ⟨1, 0x20, 0x01, 0x08, 0x04, 0x10, 0x80, 0x40, 0x80⟩ 100 zeroBuffer
      emptyDirty hb (by decide)
  exact ⟨⟨hb, by decide⟩, calls, h1, h3⟩

theorem drawlineTracked_fst (enablePartialUpdate : Bool) (fuel : Nat) (buf : Buffer)
    (d : Dirty) (x0 y0 x1 y1 color : Nat) :
    (LCDdrawlineTracked enablePartialUpdate fuel buf d x0 y0 x1 y1 color).map Prod.fst
      = LCDdrawline fuel buf x0 y0 x1 y1 color := by
  unfold LCDdrawlineTracked LCDdrawline
  simp only []
  split_ifs <;> simp [Option.map_map, Function.comp_def]

set_option maxRecDepth 100000 in
/-- C14 (evaluation at the failing input): with partial updates enabled, from
the dirty rectangle left by a flush and a cleared framebuffer, the vertical line
`LCDdrawline(0,0,0,20,1)` turns cell 84 (column 0, page 1) from 0 into 255 but
leaves the dirty rectangle at columns 0..20, rows 0..0 (the bounding box of the
swapped endpoints); cell 84 is not inside it, and the next `LCDdisplay`
addresses page 0 only and sends the 21 cells 0..20. -/
theorem C14_steep_line_outside_dirty :
    (LCDdrawlineTracked true 100 zeroBuffer emptyDirty 0 0 0 20 1).map
        (fun r => (zeroBuffer 84, r.1 84, r.2)) = some (0, 255, ⟨0, 20, 0, 0⟩) ∧
    ¬ cellInDirty ⟨0, 20, 0, 0⟩ 0 1 ∧
    ∀ hdr : Header,
      ((LCDdrawlineTracked true 100 zeroBuffer emptyDirty 0 0 0 20 1).bind
        (fun r => LCDdisplay true hdr 100 r.1 r.2)).map Prod.fst
      = some ([ Call.command (toU8 (hdr.PCD8544_SETYADDR ||| 0)),
                Call.command (toU8 (hdr.PCD8544_SETXADDR ||| 0)) ]
              ++ (255 :: List.replicate 20 0).map Call.data
              ++ [Call.command (toU8 hdr.PCD8544_SETYADDR)]) := by
  refine ⟨by rfl, ?_, fun hdr => by rfl⟩
  rintro ⟨_, _, row, h1, _, _, h4⟩
  simp only at h1 h4
  omega

/-- C15: with partial updates enabled and header constants that are bytes, after
a flush that returned, `LCDsetPixel(x,y,c)` at an in-range pixel followed by
`LCDdisplay` makes exactly the calls command `SETYADDR|(y/8)`, command
`SETXADDR|x`, data `buffer[x + (y/8)*84]`, command `SETYADDR`, and resets the
dirty rectangle. -/
theorem C15_flush_after_pixel (hdr : Header) (fuel fuel2 : Nat) (buf : Buffer) (d : Dirty)
    (calls : List Call) (d1 : Dirty) (x y c : Nat) (hb : hdr.isBytes)
    (hflush : LCDdisplay true hdr fuel buf d = some (calls, d1))
    (hx : x < 84) (hy : y < 48) (hfuel : 1 < fuel2) :
    (LCDsetPixelTracked true buf d1 x y c).1 = LCDsetPixel buf x y c ∧
    LCDdisplay true hdr fuel2 (LCDsetPixelTracked true buf d1 x y c).1
        (LCDsetPixelTracked true buf d1 x y c).2 =
      some ([ Call.command (hdr.PCD8544_SETYADDR ||| (y / 8)),
              Call.command (hdr.PCD8544_SETXADDR ||| x),
              Call.data (LCDsetPixel buf x y c (x + (y / 8) * 84)),
              Call.command hdr.PCD8544_SETYADDR ], emptyDirty) := by
  obtain ⟨_, _, _, _, _, _, hY, hX⟩ := hb
  have hd1 := LCDdisplay_dirty_reset hdr fuel buf d calls d1 hflush
  subst hd1
  refine ⟨setPixelTracked_fst _ _ _ _ _ _, ?_⟩
  rw [setPixelTracked_fst, setPixelTracked_snd_empty buf x y c hx hy]
  unfold LCDdisplay
  rw [displayPages_pixel hdr fuel2 _ x y hx hy hfuel]
  have e1 := or_byte _ (y / 8) hY (by omega)
  have e2 := or_byte _ x hX (by omega)
  have e3 := toU8_byte _ hY
  have e4 : 84 * (y / 8) + x = x + y / 8 * 84 := by omega
  simp only [Option.map_some', e1, e2, e3, e4, if_true, List.cons_append, List.nil_append]
  rfl

set_option maxRecDepth 100000 in
theorem C15_flush_after_pixel_witness :
    (Header.isBytes ⟨1, 0x20, 0x01, 0x08, 0x04, 0x10, 0x80, 0x40, 0x80⟩ ∧
      LCDdisplay true ⟨1, 0x20, 0x01, 0x08, 0x04, 0x10, 0x80, 0x40, 0x80⟩ 100 zeroBuffer
        ⟨3, 4, 9, 9⟩
        = some ([Call.command 0x41, Call.command 0x83, Call.data 0, Call.data 0,
                 Call.command 0x40], emptyDirty) ∧
      10 < 84 ∧ 20 < 48 ∧ 1 < 100) ∧
    LCDdisplay true ⟨1, 0x20, 0x01, 0x08, 0x04, 0x10, 0x80, 0x40, 0x80⟩ 100
        (LCDsetPixelTracked true zeroBuffer emptyDirty 10 20 1).1
        (LCDsetPixelTracked true zeroBuffer emptyDirty 10 20 1).2 =
      some ([ Call.command (0x40 ||| (20 / 8)), Call.command (0x80 ||| 10),
              Call.data (LCDsetPixel zeroBuffer 10 20 1 (10 + (20 / 8) * 84)),
              Call.command 0x40 ], emptyDirty) := by
  have hb : Header.isBytes ⟨1, 0x20, 0x01, 0x08, 0x04, 0x10, 0x80, 0x40, 0x80⟩ := by
    unfold Header.isBytes; decide
  have hf : LCDdisplay true ⟨1, 0x20, 0x01, 0x08, 0x04, 0x10, 0x80, 0x40, 0x80⟩ 100 zeroBuffer
        ⟨3, 4, 9, 9⟩
        = some ([Call.command 0x41, Call.command 0x83, Call.data 0, Call.data 0,
                 Call.command 0x40], emptyDirty) := by rfl
  exact ⟨⟨hb, hf, by decide, by decide, by decide⟩,
    (C15_flush_after_pixel ⟨1, 0x20, 0x01, 0x08, 0x04, 0x10, 0x80, 0x40, 0x80⟩ 100 100
      zeroBuffer ⟨3, 4, 9, 9⟩ _ emptyDirty 10 20 1 hb hf (by decide) (by decide)
      (by decide)).2⟩

/-- The column loop of `LCDdisplay` returns whenever the right bound is a column
of the buffer. -/
theorem displayColumns_returns (fuel : Nat) (buf : Buffer) (p col maxcol : Nat)
    (hp : p < 6) (hmax : maxcol < 84) (hfuel : 85 < fuel) :
    ∃ cols, displayColumns fuel buf p col maxcol = some cols := by
  by_cases hcol : col ≤ maxcol + 1
  · exact ⟨_, displayColumns_run fuel buf p col maxcol hcol (by omega) (by omega) (by omega)⟩
  · refine ⟨[], ?_⟩
    obtain ⟨f, rfl⟩ : ∃ f, fuel = f + 1 := ⟨fuel - 1, by omega⟩
    have hc : ¬ (col ≤ maxcol) := by omega
    simp [displayColumns, whileLoop, hc]

/-- The page loop of `LCDdisplay` returns whenever the right bound of the dirty
rectangle is a column of the buffer. -/
theorem displayPages_returns (hdr : Header) (fuel : Nat) (buf : Buffer) (d : Dirty)
    (hmax : d.xUpdateMax < 84) (hfuel : 85 < fuel) :
    ∀ (n p : Nat), p + n ≤ 6 → ∃ calls, displayPages true hdr fuel buf d n p = some calls := by
  intro n
  induction n with
  | zero => intro p _; exact ⟨[], rfl⟩
  | succ n ih =>
    intro p hp
    obtain ⟨rest, hrest⟩ := ih (p + 1) (by omega)
    by_cases hs : d.yUpdateMin ≥ (p + 1) * 8
    · exact ⟨rest, by simp only [displayPages, hs, and_self, if_true]; exact hrest⟩
    · by_cases hbr : d.yUpdateMax < p * 8
      · exact ⟨[], by simp only [displayPages, hs, and_false, if_false, hbr, and_self, if_true]⟩
      · obtain ⟨cols, hcols⟩ :=
          displayColumns_returns fuel buf p d.xUpdateMin d.xUpdateMax (by omega) hmax hfuel
        refine ⟨[ Call.command (toU8 (hdr.PCD8544_SETYADDR ||| p)),
                  Call.command (toU8 (hdr.PCD8544_SETXADDR ||| d.xUpdateMin)) ]
                ++ cols ++ rest, ?_⟩
        simp only [displayPages, hs, hbr, and_false, if_false, if_true, hcols, hrest,
          Option.some_bind, Option.map_some']

/-- C16: with partial updates enabled, a flush returns whenever the right bound
of the dirty rectangle is a column of the buffer; whenever a flush returns it
leaves the reset dirty rectangle, and a second `LCDdisplay` right after it (any
fuel, same framebuffer) returns having made the single call command `SETYADDR`:
no data byte and no page or column address is sent. -/
theorem C16_second_flush (hdr : Header) (fuel fuel2 : Nat) (buf : Buffer) (d : Dirty)
    (hb : hdr.isBytes) :
    (d.xUpdateMax < 84 → 85 < fuel → ∃ r, LCDdisplay true hdr fuel buf d = some r) ∧
    ∀ calls d1, LCDdisplay true hdr fuel buf d = some (calls, d1) →
      d1 = emptyDirty ∧
      LCDdisplay true hdr fuel2 buf d1 = some ([Call.command hdr.PCD8544_SETYADDR], d1) ∧
      dataBytes [Call.command hdr.PCD8544_SETYADDR] = [] := by
  obtain ⟨_, _, _, _, _, _, hY, _⟩ := hb
  constructor
  · intro hmax hfuel
    obtain ⟨calls, hc⟩ := displayPages_returns hdr fuel buf d hmax hfuel 6 0 (by omega)
    exact ⟨_, by unfold LCDdisplay; rw [hc]; rfl⟩
  · intro calls d1 hflush
    have hd1 := LCDdisplay_dirty_reset hdr fuel buf d calls d1 hflush
    subst hd1
    refine ⟨rfl, ?_, rfl⟩
    rw [LCDdisplay_empty, toU8_byte _ hY]

set_option maxRecDepth 100000 in
theorem C16_second_flush_witness :
    (Header.isBytes ⟨1, 0x20, 0x01, 0x08, 0x04, 0x10, 0x80, 0x40, 0x80⟩ ∧
      LCDdisplay true ⟨1, 0x20, 0x01, 0x08, 0x04, 0x10, 0x80, 0x40, 0x80⟩ 100 zeroBuffer
        ⟨3, 4, 9, 9⟩
        = some ([Call.command 0x41, Call.command 0x83, Call.data 0, Call.data 0,
                 Call.command 0x40], emptyDirty)) ∧
    LCDdisplay true ⟨1, 0x20, 0x01, 0x08, 0x04, 0x10, 0x80, 0x40, 0x80⟩ 100 zeroBuffer
        emptyDirty = some ([Call.command 0x40], emptyDirty) := by
  have hb : Header.isBytes ⟨1, 0x20, 0x01, 0x08, 0x04, 0x10, 0x80, 0x40, 0x80⟩ := by
    unfold Header.isBytes; decide
  have hf : LCDdisplay true ⟨1, 0x20, 0x01, 0x08, 0x04, 0x10, 0x80, 0x40, 0x80⟩ 100 zeroBuffer
        ⟨3, 4, 9, 9⟩
        = some ([Call.command 0x41, Call.command 0x83, Call.data 0, Call.data 0,
                 Call.command 0x40], emptyDirty) := by rfl
  exact ⟨⟨hb, hf⟩,
    ((C16_second_flush ⟨1, 0x20, 0x01, 0x08, 0x04, 0x10, 0x80, 0x40, 0x80⟩ 100 100 zeroBuffer
      ⟨3, 4, 9, 9⟩ hb).2 _ emptyDirty hf).2.1⟩

/-! ## Bitmap blit -/

/-- A fold in `Option` over `0..n-1` whose step succeeds at every index is the
pure fold. -/
theorem foldlM_range_some {β : Type} (f : β → Nat → Option β) (g : β → Nat → β) :
    ∀ (n : Nat), (∀ i, i < n → ∀ b, f b i = some (g b i)) →
      ∀ b, (List.range n).foldlM f b = some ((List.range n).foldl g b) := by
  intro n
  induction n with
  | zero => intro _ b; rfl
  | succ n ih =>
    intro h b
    rw [List.range_succ, List.foldlM_append, List.foldl_append,
      ih (fun i hi => h i (by omega)) b]
    simp [h n (by omega)]

/-- A loop of pixel writes of one colour `c`, seen from the pixel `(px, py)`:
the pixel ends with colour `c` when some iteration hits it and is unchanged
otherwise. -/
theorem pixel_loop (step : Buffer → Nat → Buffer) (hit : Nat → Prop) (c : Bool)
    (px py : Nat) :
    ∀ (n : Nat),
      (∀ j, j < n → ∀ b, (hit j → storedBit (step b j) px py = c) ∧
        (¬ hit j → storedBit (step b j) px py = storedBit b px py)) →
      ∀ b, ((∃ j, j < n ∧ hit j) → storedBit ((List.range n).foldl step b) px py = c) ∧
        ((¬ ∃ j, j < n ∧ hit j) →
          storedBit ((List.range n).foldl step b) px py = storedBit b px py) := by
  intro n
  induction n with
  | zero =>
    intro _ b
    refine ⟨?_, fun _ => rfl⟩
    rintro ⟨j, hj, _⟩
    exact absurd hj (Nat.not_lt_zero _)
  | succ n ih =>
    intro hstep b
    obtain ⟨ih1, ih2⟩ := ih (fun j hj => hstep j (by omega)) b
    obtain ⟨hs1, hs2⟩ := hstep n (by omega) ((List.range n).foldl step b)
    rw [List.range_succ, List.foldl_append]
    simp only [List.foldl_cons, List.foldl_nil]
    by_cases hn : hit n
    · exact ⟨fun _ => hs1 hn, fun hno => absurd ⟨n, by omega, hn⟩ hno⟩
    · constructor
      · rintro ⟨j, hj, hh⟩
        rw [hs2 hn]
        have hjn : j < n := by
          by_contra hge
          have : j = n := by omega
          subst this
          exact hn hh
        exact ih1 ⟨j, hjn, hh⟩
      · intro hno
        rw [hs2 hn]
        exact ih2 (fun ⟨j, hj, hh⟩ => hno ⟨j, by omega, hh⟩)

theorem list_read (l : List Nat) (k : Nat) (hk : k < l.length) :
    l[k]? = some (l.getD k 0) := by
  rw [List.getD_eq_getElem?_getD, List.getElem?_eq_getElem hk]
  rfl

theorem bitmap_index_lt (w h i j : Nat) (hi : i < w) (hj : j < h) :
    i + (j / 8) * w < w * ((h + 7) / 8) := by
  have h1 : j / 8 + 1 ≤ (h + 7) / 8 := by omega
  have h2 : (j / 8 + 1) * w ≤ ((h + 7) / 8) * w := Nat.mul_le_mul_right w h1
  have h3 : (j / 8 + 1) * w = (j / 8) * w + w := by ring
  have h4 : ((h + 7) / 8) * w = w * ((h + 7) / 8) := by ring
  omega

/-- The blit of a packed bitmap that fits the buffer, with colour 1: it returns;
an in-range pixel is on afterwards when a set source bit lands on it and is
unchanged otherwise. -/
theorem LCDdrawbitmap_pixels (buf : Buffer) (x y : Nat) (bitmap : List Nat) (w h : Nat)
    (hw : x + w ≤ 84) (hh : y + h ≤ 48) (hlen : w * ((h + 7) / 8) ≤ bitmap.length) :
    ∃ b, LCDdrawbitmap buf x y bitmap w h 1 = some b ∧
      ∀ px py, px < 84 → py < 48 →
        ((∃ j, j < h ∧ ∃ i, i < w ∧ x + i = px ∧ y + j = py ∧ bitmapBit bitmap w i j = true) →
          storedBit b px py = true) ∧
        ((¬ ∃ j, j < h ∧ ∃ i, i < w ∧ x + i = px ∧ y + j = py ∧ bitmapBit bitmap w i j = true) →
          storedBit b px py = storedBit buf px py) := by
  -- the pure steps
  let g : Nat → Buffer → Nat → Buffer := fun j b i =>
    if bitmap.getD (i + (j / 8) * w) 0 &&& _BV (j % 8) ≠ 0
    then my_setpixel b (toU8 (x + i)) (toU8 (y + j)) 1 else b
  have hinner : ∀ j, j < h → ∀ b,
      (List.range w).foldlM
        (fun b i =>
          (bitmap[i + (j / 8) * w]?).map
            (fun v =>
              if v &&& _BV (j % 8) ≠ 0 then my_setpixel b (toU8 (x + i)) (toU8 (y + j)) 1
              else b)) b
      = some ((List.range w).foldl (g j) b) := by
    intro j hj b
    apply foldlM_range_some
    intro i hi b'
    have hidx := bitmap_index_lt w h i j hi hj
    rw [list_read bitmap _ (by omega)]
    rfl
  have houter : LCDdrawbitmap buf x y bitmap w h 1
      = some ((List.range h).foldl (fun b j => (List.range w).foldl (g j) b) buf) := by
    unfold LCDdrawbitmap
    apply foldlM_range_some
    intro j hj b
    exact hinner j hj b
  refine ⟨_, houter, ?_⟩
  intro px py hpx hpy
  apply pixel_loop (fun b j => (List.range w).foldl (g j) b)
    (fun j => ∃ i, i < w ∧ x + i = px ∧ y + j = py ∧ bitmapBit bitmap w i j = true)
    true px py h
  intro j hj b
  apply pixel_loop (g j)
    (fun i => x + i = px ∧ y + j = py ∧ bitmapBit bitmap w i j = true) true px py w
  intro i hi b'
  have e1 : toU8 (x + i) = x + i := by unfold toU8; omega
  have e2 : toU8 (y + j) = y + j := by unfold toU8; omega
  by_cases hbit : bitmap.getD (i + (j / 8) * w) 0 &&& _BV (j % 8) ≠ 0
  · have hg : g j b' i = my_setpixel b' (x + i) (y + j) 1 := by
      simp only [g, if_pos hbit, e1, e2]
    rw [hg, storedBit_my_setpixel _ _ _ _ _ _ hpx hpy]
    constructor
    · rintro ⟨h1, h2, _⟩
      simp [h1, h2]
    · intro hno
      have ht : bitmapBit bitmap w i j = true := (and_BV_ne_zero _ _).mp hbit
      have hne : ¬ (x + i = px ∧ y + j = py) := fun hc => hno ⟨hc.1, hc.2, ht⟩
      rw [if_neg hne]
  · have hg : g j b' i = b' := by
      simp only [g, if_neg hbit]
    rw [hg]
    constructor
    · rintro ⟨_, _, ht⟩
      exact absurd ((and_BV_ne_zero _ _).mpr ht) hbit
    · intro _; rfl

/-! ## Claims about the bitmap blit -/

/-- C12 (counterexample): on the framebuffer with every cell 255, the blit of the
1x1 bitmap `[0]` at (0,0) with colour 1 leaves pixel (0,0) on although source
bit (0,0) is clear. -/
theorem C12_blit_keeps_set_pixels :
    (0 + 1 ≤ 84 ∧ 0 + 1 ≤ 48) ∧
    ∃ b, LCDdrawbitmap (fun _ => 255) 0 0 [0] 1 1 1 = some b ∧
      storedBit b (0 + 0) (0 + 0) = true ∧ bitmapBit [0] 1 0 0 = false := by
  refine ⟨by decide, _, rfl, ?_, ?_⟩ <;> rfl

/-- C12 (amended): for a packed bitmap of width `w` and height `h` that fits the
buffer at `(x, y)`, `LCDdrawbitmap` with colour 1 returns; pixel `(x+i, y+j)`,
`i < w`, `j < h`, is on afterwards iff source bit `(i, j)` is set or the pixel
was on before, and every pixel outside the `w x h` area is unchanged. -/
theorem C12_drawbitmap_overlay (buf : Buffer) (x y : Nat) (bitmap : List Nat) (w h : Nat)
    (hw : x + w ≤ 84) (hh : y + h ≤ 48) (hlen : w * ((h + 7) / 8) ≤ bitmap.length) :
    ∃ b, LCDdrawbitmap buf x y bitmap w h 1 = some b ∧
      (∀ i j, i < w → j < h →
        storedBit b (x + i) (y + j)
          = (bitmapBit bitmap w i j || storedBit buf (x + i) (y + j))) ∧
      (∀ px py, px < 84 → py < 48 → ¬ (x ≤ px ∧ px < x + w ∧ y ≤ py ∧ py < y + h) →
        storedBit b px py = storedBit buf px py) := by
  obtain ⟨b, hb, hpix⟩ := LCDdrawbitmap_pixels buf x y bitmap w h hw hh hlen
  refine ⟨b, hb, ?_, ?_⟩
  · intro i j hi hj
    obtain ⟨h1, h2⟩ := hpix (x + i) (y + j) (by omega) (by omega)
    cases hbit : bitmapBit bitmap w i j
    · rw [Bool.false_or]
      apply h2
      rintro ⟨j', _, i', _, hx', hy', ht⟩
      have ei : i' = i := by omega
      have ej : j' = j := by omega
      subst ei ej
      rw [hbit] at ht
      exact Bool.noConfusion ht
    · rw [Bool.true_or]
      exact h1 ⟨j, hj, i, hi, rfl, rfl, hbit⟩
  · intro px py hpx hpy hout
    apply (hpix px py hpx hpy).2
    rintro ⟨j, hj, i, hi, hx', hy', _⟩
    exact hout (by omega)

theorem C12_drawbitmap_overlay_witness :
    (3 + 2 ≤ 84 ∧ 3 + 9 ≤ 48 ∧ 2 * ((9 + 7) / 8) ≤ [0xF1, 0x02, 0x01, 0x01].length) ∧
    ∃ b, LCDdrawbitmap zeroBuffer 3 3 [0xF1, 0x02, 0x01, 0x01] 2 9 1 = some b ∧
      (∀ i j, i < 2 → j < 9 →
        storedBit b (3 + i) (3 + j)
          = (bitmapBit [0xF1, 0x02, 0x01, 0x01] 2 i j || storedBit zeroBuffer (3 + i) (3 + j))) ∧
      (∀ px py, px < 84 → py < 48 → ¬ (3 ≤ px ∧ px < 3 + 2 ∧ 3 ≤ py ∧ py < 3 + 9) →
        storedBit b px py = storedBit zeroBuffer px py) :=
  ⟨by decide, C12_drawbitmap_overlay zeroBuffer 3 3 [0xF1, 0x02, 0x01, 0x01] 2 9
    (by decide) (by decide) (by decide)⟩

/-- The outline rectangle with `w ≥ 1` and `h ≥ 1` inside the buffer:
`LCDdrawrect` returns, the pixels of `[x,x+w) x [y,y+h)` in its first or last
column or row take the colour, and every other pixel is unchanged. -/
theorem LCDdrawrect_border (fuel : Nat) (buf : Buffer) (x y w h color : Nat)
    (hw : x + w ≤ 84) (hh : y + h ≤ 48) (hw1 : 1 ≤ w) (hh1 : 1 ≤ h) (hfuel : 84 < fuel) :
    ∃ b, LCDdrawrect fuel buf x y w h color = some b ∧
      ∀ px py, px < 84 → py < 48 →
        storedBit b px py =
          if x ≤ px ∧ px < x + w ∧ y ≤ py ∧ py < y + h ∧
              (px = x ∨ px = x + w - 1 ∨ py = y ∨ py = y + h - 1)
          then decide (color ≠ 0) else storedBit buf px py := by
  have eb : toU8i ((y : Int) + h - 1) = y + h - 1 := by unfold toU8i; omega
  have er : toU8i ((x : Int) + w - 1) = x + w - 1 := by unfold toU8i; omega
  obtain ⟨s1, hs1, ⟨hlo1, hhi1, hpix1⟩, hc1⟩ := whileLoop_total
    (fun s : Nat × Buffer => decide (s.1 < x + w))
    (fun s =>
      some (toU8 (s.1 + 1),
        my_setpixel (my_setpixel s.2 s.1 y color) s.1 (toU8i ((y : Int) + h - 1)) color))
    (fun s => x ≤ s.1 ∧ s.1 ≤ x + w ∧ ∀ px py, px < 84 → py < 48 →
      storedBit s.2 px py =
        if x ≤ px ∧ px < s.1 ∧ (py = y ∨ py = y + h - 1) then decide (color ≠ 0)
        else storedBit buf px py)
    (fun s => x + w - s.1)
    (by
      rintro ⟨i, b⟩ ⟨hlo, hhi, hpix⟩ hc
      simp only [decide_eq_true_eq] at hc
      have hi : toU8 (i + 1) = i + 1 := by unfold toU8; omega
      refine ⟨_, rfl, ⟨?_, ?_, ?_⟩, ?_⟩
      · simp only [hi]; omega
      · simp only [hi]; omega
      · intro px py hpx hpy
        simp only [hi, eb]
        rw [storedBit_my_setpixel _ _ _ _ _ _ hpx hpy,
          storedBit_my_setpixel _ _ _ _ _ _ hpx hpy, hpix px py hpx hpy]
        simp only at hlo hhi hc ⊢
        split_ifs <;> first | rfl | (exfalso; omega)
      · simp only [hi]; omega)
    fuel (x, buf)
    ⟨le_refl _, by simp, fun px py _ _ => by
      have hn : ¬ (x ≤ px ∧ px < x ∧ (py = y ∨ py = y + h - 1)) := by omega
      simp only [if_neg hn]⟩
    (by simp only; omega)
  obtain ⟨i1, b1⟩ := s1
  simp only [decide_eq_false_iff_not] at hc1 hlo1 hhi1 hpix1
  have hi1 : i1 = x + w := by omega
  subst hi1
  obtain ⟨s2, hs2, ⟨hlo2, hhi2, hpix2⟩, hc2⟩ := whileLoop_total
    (fun s : Nat × Buffer => decide (s.1 < y + h))
    (fun s =>
      some (toU8 (s.1 + 1),
        my_setpixel (my_setpixel s.2 x s.1 color) (toU8i ((x : Int) + w - 1)) s.1 color))
    (fun s => y ≤ s.1 ∧ s.1 ≤ y + h ∧ ∀ px py, px < 84 → py < 48 →
      storedBit s.2 px py =
        if y ≤ py ∧ py < s.1 ∧ (px = x ∨ px = x + w - 1) then decide (color ≠ 0)
        else storedBit b1 px py)
    (fun s => y + h - s.1)
    (by
      rintro ⟨j, b⟩ ⟨hlo, hhi, hpix⟩ hc
      simp only [decide_eq_true_eq] at hc
      have hj : toU8 (j + 1) = j + 1 := by unfold toU8; omega
      refine ⟨_, rfl, ⟨?_, ?_, ?_⟩, ?_⟩
      · simp only [hj]; omega
      · simp only [hj]; omega
      · intro px py hpx hpy
        simp only [hj, er]
        rw [storedBit_my_setpixel _ _ _ _ _ _ hpx hpy,
          storedBit_my_setpixel _ _ _ _ _ _ hpx hpy, hpix px py hpx hpy]
        simp only at hlo hhi hc ⊢
        split_ifs <;> first | rfl | (exfalso; omega)
      · simp only [hj]; omega)
    fuel (y, b1)
    ⟨le_refl _, by simp, fun px py _ _ => by
      have hn : ¬ (y ≤ py ∧ py < y ∧ (px = x ∨ px = x + w - 1)) := by omega
      simp only [if_neg hn]⟩
    (by simp only; omega)
  obtain ⟨j2, b2⟩ := s2
  simp only [decide_eq_false_iff_not] at hc2 hlo2 hhi2 hpix2
  have hj2 : j2 = y + h := by omega
  subst hj2
  refine ⟨b2, ?_, ?_⟩
  · unfold LCDdrawrect
    rw [hs1]
    simp only [Option.some_bind]
    rw [hs2]
    rfl
  · intro px py hpx hpy
    rw [hpix2 px py hpx hpy, hpix1 px py hpx hpy]
    split_ifs <;> first | rfl | (exfalso; omega)

/-! ## Claims about the outline rectangle and circles -/

/-- C21: for an in-range centre and radius 0, `LCDdrawcircle` returns for every
fuel from 1 on (one test of the loop condition, no iteration); the centre pixel
takes the colour and every other pixel is unchanged. -/
theorem C21_degenerate_circle (fuel : Nat) (buf : Buffer) (x0 y0 color : Nat)
    (hx0 : x0 < 84) (hy0 : y0 < 48) (hfuel : 1 ≤ fuel) :
    ∃ b, LCDdrawcircle fuel buf x0 y0 0 color = some b ∧
      LCDdrawcircle 1 buf x0 y0 0 color = some b ∧
      ¬ ((circleInit 0).x < (circleInit 0).y) ∧
      (∀ o ∈ poleOffsets 0, (toU8i ((x0 : Int) + o.1), toU8i ((y0 : Int) + o.2)) = (x0, y0)) ∧
      ∀ px py, px < 84 → py < 48 →
        storedBit b px py =
          if px = x0 ∧ py = y0 then decide (color ≠ 0) else storedBit buf px py := by
  have hinit : ¬ ((circleInit 0).x < (circleInit 0).y) := by
    simp [circleInit, wrap8]
  have ex : toU8i ((x0 : Int) + 0) = x0 := by unfold toU8i; omega
  have ey : toU8i ((y0 : Int) + 0) = y0 := by unfold toU8i; omega
  have ex' : toU8i ((x0 : Int) + -0) = x0 := by unfold toU8i; omega
  have ey' : toU8i ((y0 : Int) + -0) = y0 := by unfold toU8i; omega
  have hrun : ∀ f, LCDdrawcircle (f + 1) buf x0 y0 0 color
      = some ((poleOffsets 0).foldl (plotOffset x0 y0 color) buf) := by
    intro f
    simp only [LCDdrawcircle, whileLoop, decide_eq_true_eq, if_neg hinit, Option.map_some']
  obtain ⟨f, rfl⟩ : ∃ f, fuel = f + 1 := ⟨fuel - 1, by omega⟩
  refine ⟨_, hrun f, hrun 0, hinit, ?_, ?_⟩
  · intro o ho
    simp only [poleOffsets, Nat.cast_zero, List.mem_cons, List.mem_singleton,
      List.not_mem_nil, or_false] at ho
    rcases ho with rfl | rfl | rfl | rfl <;> simp only [ex, ey, ex', ey']
  · intro px py hpx hpy
    simp only [poleOffsets, Nat.cast_zero, List.foldl_cons, List.foldl_nil, plotOffset,
      ex, ey, ex', ey']
    simp only [storedBit_my_setpixel _ _ _ _ _ _ hpx hpy]
    by_cases h : x0 = px ∧ y0 = py
    · have h' : px = x0 ∧ py = y0 := ⟨h.1.symm, h.2.symm⟩
      simp only [if_pos h, if_pos h']
    · have h' : ¬ (px = x0 ∧ py = y0) := fun hc => h ⟨hc.1.symm, hc.2.symm⟩
      simp only [if_neg h, if_neg h']

theorem C21_degenerate_circle_witness :
    (10 < 84 ∧ 10 < 48 ∧ 1 ≤ 1) ∧
    ∃ b, LCDdrawcircle 1 zeroBuffer 10 10 0 1 = some b ∧
      ∀ px py, px < 84 → py < 48 →
        storedBit b px py =
          if px = 10 ∧ py = 10 then decide (1 ≠ 0) else storedBit zeroBuffer px py := by
  obtain ⟨b, hb, _, _, _, hpix⟩ :=
    C21_degenerate_circle 1 zeroBuffer 10 10 1 (by decide) (by decide) (by decide)
  exact ⟨by decide, b, hb, hpix⟩

set_option maxRecDepth 100000 in
/-- C22 (evaluation at failing inputs): on a cleared framebuffer
`LCDdrawrect(0,0,1,0,1)`, whose rectangle `[0,1) x [0,0)` is empty, turns pixel
(0,0) on, and `LCDdrawrect(3,4,0,2,1)`, whose rectangle `[3,3) x [4,6)` is empty,
turns pixels (3,4) and (2,4) on. -/
theorem C22_empty_rect_draws :
    (LCDdrawrect 100 zeroBuffer 0 0 1 0 1).map (fun b => storedBit b 0 0) = some true ∧
    (LCDdrawrect 100 zeroBuffer 3 4 0 2 1).map
      (fun b => (storedBit b 3 4, storedBit b 2 4)) = some (true, true) ∧
    storedBit zeroBuffer 0 0 = false ∧ storedBit zeroBuffer 3 4 = false ∧
    storedBit zeroBuffer 2 4 = false := by
  refine ⟨by rfl, by rfl, rfl, rfl, rfl⟩

set_option maxRecDepth 100000 in
/-- C23 (evaluation at the failing input): for the in-range centre (10,2) and
radius 5 on a cleared framebuffer with colour 1, `LCDdrawcircle` sets pixel
(10,7) and `LCDfillcircle` leaves it off. -/
theorem C23_clipped_fill_misses_outline :
    (10 < 84 ∧ 2 < 48 ∧ 5 ≤ 47) ∧
    (LCDdrawcircle 100 zeroBuffer 10 2 5 1).map (fun b => storedBit b 10 7) = some true ∧
    (LCDfillcircle 100 zeroBuffer 10 2 5 1).map (fun b => storedBit b 10 7) = some false := by
  refine ⟨by decide, by rfl, by rfl⟩

set_option maxRecDepth 100000 in
theorem circleScan_all : ∀ r, r < 48 →
    (circleScan r 48 (circleInit r) 0 && (poleOffsets r).all (offsetAccurate r)) = true := by
  decide

/-- What a successful scan from the head of iteration `k` says: the loop runs
some `n` more iterations with `k + n ≤ r`, each starting with `x < y`, storing
without overflow and plotting accurate offsets, and then stops. -/
theorem circleScan_spec (r : Nat) :
    ∀ (fuel k : Nat), k ≤ r → circleScan r fuel (circleVars r k) k = true →
      ∃ n, k + n ≤ r ∧
        (∀ j, j < n →
          (circleVars r (k + j)).x < (circleVars r (k + j)).y ∧
          advanceInRange (circleVars r (k + j)) = true ∧
          ∀ o ∈ octantOffsets (circleVars r (k + j + 1)), offsetAccurate r o = true) ∧
        ¬ ((circleVars r (k + n)).x < (circleVars r (k + n)).y) := by
  intro fuel
  induction fuel with
  | zero => intro k _ h; simp [circleScan] at h
  | succ fuel ih =>
    intro k hkr h
    by_cases hc : (circleVars r k).x < (circleVars r k).y
    · simp only [circleScan, if_pos hc, Bool.and_eq_true, decide_eq_true_eq,
        List.all_eq_true] at h
      obtain ⟨⟨⟨hk, hrange⟩, hacc⟩, hrest⟩ := h
      obtain ⟨n, hn, hall, hstop⟩ := ih (k + 1) (by omega) hrest
      refine ⟨n + 1, by omega, ?_, ?_⟩
      · intro j hj
        cases j with
        | zero => exact ⟨hc, hrange, hacc⟩
        | succ j =>
          have e : k + (j + 1) = k + 1 + j := by omega
          rw [e]
          exact hall j (by omega)
      · have e : k + (n + 1) = k + 1 + n := by omega
        rw [e]
        exact hstop
    · exact ⟨0, by omega, fun j hj => absurd hj (Nat.not_lt_zero _), hc⟩

/-- The stepping loop of `LCDdrawcircle` from the head of iteration `k`, when its
condition holds at the head of iterations `k..k+m-1` and fails at the head of
iteration `k+m`: it returns for every fuel above `m`, with the offsets of those
`m` iterations plotted in order. -/
theorem drawcircle_loop_from (x0 y0 r color n : Nat)
    (hrun : ∀ k, k < n → (circleVars r k).x < (circleVars r k).y)
    (hstop : ¬ ((circleVars r n).x < (circleVars r n).y)) :
    ∀ (m k : Nat) (b : Buffer) (fuel : Nat), k + m = n → m < fuel →
      whileLoop (fun s : CircleVars × Buffer => decide (s.1.x < s.1.y))
        (fun s =>
          some (circleAdvance s.1,
            (octantOffsets (circleAdvance s.1)).foldl (plotOffset x0 y0 color) s.2))
        fuel (circleVars r k, b)
      = some (circleVars r n,
          ((List.range' k m).flatMap (fun j => octantOffsets (circleVars r (j + 1)))).foldl
            (plotOffset x0 y0 color) b) := by
  intro m
  induction m with
  | zero =>
    intro k b fuel hk hfuel
    obtain ⟨f, rfl⟩ : ∃ f, fuel = f + 1 := ⟨fuel - 1, by omega⟩
    have hkn : k = n := by omega
    subst hkn
    simp only [whileLoop, decide_eq_true_eq, if_neg hstop, List.range'_zero, List.flatMap_nil,
      List.foldl_nil]
  | succ m ih =>
    intro k b fuel hk hfuel
    obtain ⟨f, rfl⟩ : ∃ f, fuel = f + 1 := ⟨fuel - 1, by omega⟩
    have hc := hrun k (by omega)
    have hnext : circleAdvance (circleVars r k) = circleVars r (k + 1) := rfl
    simp only [whileLoop, decide_eq_true_eq, if_pos hc, Option.some_bind, hnext]
    rw [ih (k + 1) _ f (by omega) (by omega)]
    simp only [List.range'_succ, List.flatMap_cons, List.foldl_append]

/-- The loop of `LCDdrawcircle` that runs `n` iterations: the function returns for
every fuel above `n`, having plotted `circleOffsets r n` in order. -/
theorem LCDdrawcircle_run (fuel : Nat) (buf : Buffer) (x0 y0 r color n : Nat)
    (hrun : ∀ k, k < n → (circleVars r k).x < (circleVars r k).y)
    (hstop : ¬ ((circleVars r n).x < (circleVars r n).y)) (hfuel : n < fuel) :
    LCDdrawcircle fuel buf x0 y0 r color
      = some ((circleOffsets r n).foldl (plotOffset x0 y0 color) buf) := by
  unfold LCDdrawcircle
  have h := drawcircle_loop_from x0 y0 r color n hrun hstop n 0
    ((poleOffsets r).foldl (plotOffset x0 y0 color) buf) fuel (by omega) hfuel
  have h0 : circleVars r 0 = circleInit r := rfl
  rw [h0] at h
  rw [h, circleOffsets, List.foldl_append, List.range_eq_range']
  rfl

/-- C24: for every radius `r ≤ 47`, every centre, colour and framebuffer, the
stepping loop of `LCDdrawcircle` runs some `n ≤ r` iterations and the function
returns for every fuel above `r`; the pixels it plots are the centre plus the
offsets `circleOffsets r n`, each of which satisfies `|a| ≤ r`, `|b| ≤ r` and
`|a*a + b*b - r*r| ≤ r`; the initial values of `f`, `ddF_y`, `y` fit an `int8_t`
and no store of an iteration overflows. -/
theorem C24_circle_accuracy (fuel : Nat) (buf : Buffer) (x0 y0 r color : Nat)
    (hr : r ≤ 47) (hfuel : r < fuel) :
    ∃ n, n ≤ r ∧
      (∀ k, k < n → (circleVars r k).x < (circleVars r k).y) ∧
      ¬ ((circleVars r n).x < (circleVars r n).y) ∧
      LCDdrawcircle fuel buf x0 y0 r color
        = some ((circleOffsets r n).foldl (plotOffset x0 y0 color) buf) ∧
      (∀ o ∈ circleOffsets r n,
        o.1.natAbs ≤ r ∧ o.2.natAbs ≤ r ∧
        (o.1 * o.1 + o.2 * o.2 - (r : Int) * r).natAbs ≤ r) ∧
      (-128 ≤ 1 - (r : Int) ∧ 1 - (r : Int) ≤ 127 ∧ -128 ≤ -2 * (r : Int) ∧
        -2 * (r : Int) ≤ 127 ∧ (r : Int) ≤ 127) ∧
      (∀ k, k < n → advanceInRange (circleVars r k) = true) := by
  have hscan := circleScan_all r (by omega)
  simp only [Bool.and_eq_true, List.all_eq_true] at hscan
  obtain ⟨hs, hpoles⟩ := hscan
  obtain ⟨n, hn, hall, hstop⟩ := circleScan_spec r 48 0 (by omega) hs
  simp only [Nat.zero_add] at hn hall hstop
  have hrun : ∀ k, k < n → (circleVars r k).x < (circleVars r k).y :=
    fun k hk => (hall k hk).1
  refine ⟨n, hn, hrun, hstop,
    LCDdrawcircle_run fuel buf x0 y0 r color n hrun hstop (by omega), ?_,
    by omega, fun k hk => (hall k hk).2.1⟩
  intro o ho
  have hacc : offsetAccurate r o = true := by
    simp only [circleOffsets, List.mem_append, List.mem_flatMap, List.mem_range] at ho
    rcases ho with hp | ⟨k, hk, hko⟩
    · exact hpoles o hp
    · exact (hall k hk).2.2 o hko
  simp only [offsetAccurate, Bool.and_eq_true, decide_eq_true_eq] at hacc
  exact ⟨hacc.1.1, hacc.1.2, hacc.2⟩

theorem C24_circle_accuracy_witness :
    (5 ≤ 47 ∧ 5 < 100) ∧
    ∃ n, n ≤ 5 ∧
      LCDdrawcircle 100 zeroBuffer 10 10 5 1
        = some ((circleOffsets 5 n).foldl (plotOffset 10 10 1) zeroBuffer) ∧
      (∀ o ∈ circleOffsets 5 n,
        o.1.natAbs ≤ 5 ∧ o.2.natAbs ≤ 5 ∧
        (o.1 * o.1 + o.2 * o.2 - ((5 : Nat) : Int) * (5 : Nat)).natAbs ≤ 5) := by
  obtain ⟨n, hn, _, _, hrun, hacc, _, _⟩ :=
    C24_circle_accuracy 100 zeroBuffer 10 10 5 1 (by decide) (by decide)
  exact ⟨by decide, n, hn, hrun, hacc⟩
end PCD8544
